import Mathlib

/-!
# Buzzword bingo: the dictionary, the bingo card engine, the transcription service

A shallow embedding of `src/buzzwords.js` (class `BuzzwordManager`) and of
`src/transcription.js` (class `TranscriptionService`).

Modelling conventions.
* A JavaScript `Map` is an association list in insertion order with pairwise
  distinct keys; a JavaScript `Set` is a duplicate-free list in insertion order.
* A method that mutates `this` and returns a value becomes a function from the
  state to the pair (new state, returned value).
* `Math.random` and `new Date()` are inputs: the outcome of the random sort is a
  function parameter `shuffle`, the clock reading is a parameter `now`.
* Strings are Lean strings.  Case mapping is modelled on the ASCII letters
  (other characters are left as they are), which is what `toLowerCase` and the
  `i` flag of a regular expression do on ASCII text.
-/

namespace OpenBingo

/-! ## Data model -/

/-- The value stored in `this.buzzwords` for one key. -/
structure BuzzwordData where
  word : String
  count : Nat
  isCustom : Bool
  lastDetected : Option Nat
deriving DecidableEq

/-- One square of the card, as pushed by `generateBingoCard`. -/
structure BingoSquare where
  word : String
  isFree : Bool
  isMarked : Bool
deriving DecidableEq

/-- The object returned by `markSquare` and `checkForWin`. -/
structure WinResult where
  isWin : Bool
  winningPattern : Option (List Nat)
deriving DecidableEq

/-- The fields of a `BuzzwordManager` instance. -/
structure BuzzwordManager where
  buzzwords : List (String × BuzzwordData)
  customBuzzwords : List String
  bingoCard : List BingoSquare
  markedSquares : List Nat
deriving DecidableEq

/-! ## `Set` and `Map` primitives -/

/-- Model of `Set.prototype.has`. -/
def setHas {α : Type} [DecidableEq α] (s : List α) (x : α) : Bool :=
  decide (x ∈ s)

/-- Model of `Set.prototype.add`: a present element keeps its place, a new one goes last. -/
def setAdd {α : Type} [DecidableEq α] (s : List α) (x : α) : List α :=
  if x ∈ s then s else s ++ [x]

/-- Model of `Set.prototype.delete`. -/
def setDelete {α : Type} [DecidableEq α] (s : List α) (x : α) : List α :=
  s.filter (fun y => decide (y ≠ x))

/-- Model of `Map.prototype.get` (`none` is `undefined`). -/
def mapGet (m : List (String × BuzzwordData)) (k : String) : Option BuzzwordData :=
  match m with
  | [] => none
  | (k', v) :: rest => if k' = k then some v else mapGet rest k

/-- Model of `Map.prototype.has`. -/
def mapHas (m : List (String × BuzzwordData)) (k : String) : Bool :=
  (mapGet m k).isSome

/-- Model of `Map.prototype.set`: an existing key keeps its place and gets the new value,
a new key is appended. -/
def mapSet (m : List (String × BuzzwordData)) (k : String) (v : BuzzwordData) :
    List (String × BuzzwordData) :=
  if mapHas m k then m.map (fun e => if e.1 = k then (k, v) else e) else m ++ [(k, v)]

/-- Model of `Map.prototype.delete`. -/
def mapDelete (m : List (String × BuzzwordData)) (k : String) :
    List (String × BuzzwordData) :=
  m.filter (fun e => decide (e.1 ≠ k))

/-! ## Strings -/

/-- Model of `String.prototype.toLowerCase`, on the ASCII letters. -/
def toLowerCase (s : String) : String :=
  String.mk (s.data.map Char.toLower)

/-- The characters `String.prototype.trim` removes: the white space and line
terminator code points of ECMAScript. -/
def isJsWhiteSpace (c : Char) : Bool :=
  let n := c.toNat
  (9 ≤ n && n ≤ 13) || n == 32 || n == 160 || n == 5760 || (8192 ≤ n && n ≤ 8202) ||
    n == 8232 || n == 8233 || n == 8239 || n == 8287 || n == 12288 || n == 65279

/-- Model of `trim` on the list of characters. -/
def trimChars (l : List Char) : List Char :=
  ((l.dropWhile isJsWhiteSpace).reverse.dropWhile isJsWhiteSpace).reverse

/-- Model of `String.prototype.trim`. -/
def trim (s : String) : String :=
  String.mk (trimChars s.data)

/-- Does `pat` occur in `t` at its very start? -/
def startsWith : List Char → List Char → Bool
  | _, [] => true
  | [], _ :: _ => false
  | c :: t, p :: pat => c == p && startsWith t pat

/-- The search of `indexOf`, `i` being the index of the head of `t`. -/
def indexOfFrom (pat : List Char) : List Char → Nat → Int
  | [], i => if startsWith [] pat then (i : Int) else -1
  | c :: t, i => if startsWith (c :: t) pat then (i : Int) else indexOfFrom pat t (i + 1)

/-- Model of `String.prototype.indexOf`: the first index at which `pat` occurs, or `-1`. -/
def indexOf (t pat : String) : Int :=
  indexOfFrom pat.data t.data 0

/-! ## Regular expressions

`detectBuzzwords` builds the pattern `\b` + escaped buzzword + `\b` and runs it
with the flags `g` and `i`.  The pattern language is modelled on the fragment
such patterns use: the assertion `\b`, an escaped character, a plain character. -/

/-- A term of a pattern. -/
inductive RegexNode where
  | wordBoundary
  | char (c : Char)
deriving DecidableEq

/-- The class `[.*+?^$\x7b\x7d()|[\]\\]` of the escaping `replace`. -/
def isSyntaxChar (c : Char) : Bool :=
  c == '.' || c == '*' || c == '+' || c == '?' || c == '^' || c == '$' ||
    c == '\x7b' || c == '\x7d' || c == '(' || c == ')' || c == '|' || c == '[' ||
    c == ']' || c == '\\'

/-- Model of `buzzword.replace(/[.*+?^$\x7b\x7d()|[\]\\]/g, "\\$&")`: a backslash is put
before every character of the class. -/
def escapeRegExp : List Char → List Char
  | [] => []
  | c :: rest => if isSyntaxChar c then '\\' :: c :: escapeRegExp rest else c :: escapeRegExp rest

/-- The source text of the pattern `new RegExp` receives. -/
def patternSource (buzzword : String) : List Char :=
  ['\\', 'b'] ++ escapeRegExp buzzword.data ++ ['\\', 'b']

/-- Reading of a pattern source: `\b` is the word boundary assertion, a
backslash before a character of the class makes that character a literal, every
character outside the class is a literal.  These are the only forms in the
patterns `detectBuzzwords` builds (`parseRegExp_patternSource`); on any other
form, which would be an operator or another escape, the character is read as a
literal too. -/
def parseRegExp : List Char → List RegexNode
  | [] => []
  | [c] => [RegexNode.char c]
  | c :: d :: rest =>
    if c = '\\' then
      if d = 'b' then RegexNode.wordBoundary :: parseRegExp rest
      else RegexNode.char d :: parseRegExp rest
    else RegexNode.char c :: parseRegExp (d :: rest)

/-- The class `\w`: `[A-Za-z0-9_]`. -/
def isWordChar (c : Char) : Bool :=
  c.isAlphanum || c == '_'

/-- Is there a word character at index `i` of `t`? -/
def isWordCharAt (t : List Char) (i : Nat) : Bool :=
  match t[i]? with
  | some c => isWordChar c
  | none => false

/-- The assertion `\b` at index `i`: exactly one of the characters before and
after the position is a word character. -/
def isWordBoundary (t : List Char) (i : Nat) : Bool :=
  let a := decide (0 < i) && isWordCharAt t (i - 1)
  let b := isWordCharAt t i
  a != b

/-- The canonical form under which the `i` flag compares characters. -/
def canonicalize (c : Char) : Char :=
  c.toUpper

/-- Match the terms one after the other from index `i`; the result is the end
index of the match. -/
def matchNodes (t : List Char) : List RegexNode → Nat → Option Nat
  | [], i => some i
  | RegexNode.wordBoundary :: ns, i =>
    if isWordBoundary t i then matchNodes t ns i else none
  | RegexNode.char c :: ns, i =>
    match t[i]? with
    | some d => if canonicalize d = canonicalize c then matchNodes t ns (i + 1) else none
    | none => none

/-- The loop of `String.prototype.match` for a global pattern, from `lastIndex`,
as the list of (start, end) of the matches: the search goes on after the end of
a match, one further when the match is empty.  Every round moves `lastIndex`
forward, so `fuel` rounds past the end of `t` are never needed. -/
def matchAllFrom (nodes : List RegexNode) (t : List Char) : Nat → Nat → List (Nat × Nat)
  | 0, _ => []
  | fuel + 1, lastIndex =>
    if t.length < lastIndex then []
    else
      match matchNodes t nodes lastIndex with
      | some e =>
        (lastIndex, e) :: matchAllFrom nodes t fuel (if e = lastIndex then lastIndex + 1 else e)
      | none => matchAllFrom nodes t fuel (lastIndex + 1)

/-- Model of `text.match(regex)` for the pattern of `buzzword`: the matches, `[]` for `null`. -/
def regexMatches (buzzword text : String) : List (Nat × Nat) :=
  matchAllFrom (parseRegExp (patternSource buzzword)) text.data (text.data.length + 1) 0

/-! ## The dictionary -/

/-- The constant `DEFAULT_BUZZWORDS`. -/
def DEFAULT_BUZZWORDS : List String :=
  [
    "excited", "frontier", "smartest", "agent", "accurate",
    "faster", "reliable", "most advanced", "agi", "benchmark",
    "transformer", "neural network", "deep learning", "machine learning", "artificial intelligence",
    "parameters", "tokens", "inference", "training", "fine-tuning",
    "rlhf", "reinforcement learning", "few-shot", "zero-shot", "prompt engineering",
    "hallucination", "latency", "throughput", "multimodal", "reasoning",
    "emergent", "scaling", "alignment", "revolutionary", "breakthrough",
    "game-changing", "unprecedented", "next-generation", "cutting-edge", "state-of-the-art",
    "industry-leading", "world-class", "superior", "advanced", "innovative",
    "groundbreaking", "disruptive", "transformative", "powerful", "robust",
    "scalable", "efficient", "optimized", "understand", "generate",
    "create", "analyze", "process", "interpret", "learn",
    "adapt", "improve", "enhance", "optimize", "automate",
    "intelligent", "smart", "autonomous", "cognitive", "contextual",
    "personalized", "customized", "seamless", "intuitive", "better",
    "best", "superior", "outperform", "exceed", "surpass",
    "leading", "top", "first", "only", "unique",
    "exclusive", "proprietary", "novel", "new", "latest",
    "modern", "future", "next-level"
  ]

/-- One element of the array `detectBuzzwords` returns. -/
structure DetectedWord where
  word : String
  count : Nat
  position : Int
deriving DecidableEq

namespace BuzzwordManager

/-- Model of `initializeDefaultBuzzwords()`, on the map. -/
def initializeDefaultBuzzwords (s : BuzzwordManager) : BuzzwordManager :=
  DEFAULT_BUZZWORDS.foldl
    (fun m word =>
      { m with
        buzzwords := mapSet m.buzzwords (toLowerCase word)
          { word := word, count := 0, isCustom := false, lastDetected := none } })
    s

/-- Model of `new BuzzwordManager()`. -/
def constructor : BuzzwordManager :=
  initializeDefaultBuzzwords
    { buzzwords := [], customBuzzwords := [], bingoCard := [], markedSquares := [] }

/-- Model of `addCustomBuzzword(word)` for a string `word`. -/
def addCustomBuzzword (s : BuzzwordManager) (word : String) : BuzzwordManager × Bool :=
  if word = "" then (s, false)
  else
    let normalizedWord := trim (toLowerCase word)
    if normalizedWord.length = 0 then (s, false)
    else if !mapHas s.buzzwords normalizedWord then
      ({ s with
         buzzwords := mapSet s.buzzwords normalizedWord
           { word := trim word, count := 0, isCustom := true, lastDetected := none },
         customBuzzwords := setAdd s.customBuzzwords normalizedWord }, true)
    else (s, false)

/-- Model of `removeBuzzword(word)`. -/
def removeBuzzword (s : BuzzwordManager) (word : String) : BuzzwordManager × Bool :=
  let normalizedWord := toLowerCase word
  match mapGet s.buzzwords normalizedWord with
  | some buzzwordData =>
    if buzzwordData.isCustom then
      ({ s with
         buzzwords := mapDelete s.buzzwords normalizedWord,
         customBuzzwords := setDelete s.customBuzzwords normalizedWord }, true)
    else (s, false)
  | none => (s, false)

/-- Model of `incrementCount(word)`; `now` is the reading of `new Date()`. -/
def incrementCount (s : BuzzwordManager) (now : Nat) (word : String) : BuzzwordManager × Nat :=
  let normalizedWord := toLowerCase word
  match mapGet s.buzzwords normalizedWord with
  | some buzzwordData =>
    ({ s with
       buzzwords := mapSet s.buzzwords normalizedWord
         { buzzwordData with count := buzzwordData.count + 1, lastDetected := some now } },
     buzzwordData.count + 1)
  | none => (s, 0)

/-- Model of `getCount(word)`. -/
def getCount (s : BuzzwordManager) (word : String) : Nat :=
  match mapGet s.buzzwords (toLowerCase word) with
  | some buzzwordData => buzzwordData.count
  | none => 0

/-- Model of `getTotalCount()`. -/
def getTotalCount (s : BuzzwordManager) : Nat :=
  s.buzzwords.foldl (fun total e => total + e.2.count) 0

/-- Model of `resetCounts()`. -/
def resetCounts (s : BuzzwordManager) : BuzzwordManager :=
  { s with
    buzzwords := s.buzzwords.map (fun e => (e.1, { e.2 with count := 0, lastDetected := none })) }

/-- The body of `matches.forEach` in `detectBuzzwords`, for one match of the
entry under the key `buzzword`: the count is incremented, then a record is
pushed that reads `data.word` and `data.count` from the entry object, which is
the object stored under `buzzword`. -/
def detectMatch (now : Nat) (text buzzword : String)
    (acc : BuzzwordManager × List DetectedWord) : BuzzwordManager × List DetectedWord :=
  let s1 := (incrementCount acc.1 now buzzword).1
  match mapGet s1.buzzwords buzzword with
  | some data =>
    (s1, acc.2 ++ [{ word := data.word, count := data.count,
                     position := indexOf (toLowerCase text) buzzword }])
  | none => (s1, acc.2)

/-- The callback of `this.buzzwords.forEach` in `detectBuzzwords`, for the
entry under the key `buzzword`. -/
def detectEntry (now : Nat) (text : String)
    (acc : BuzzwordManager × List DetectedWord) (buzzword : String) :
    BuzzwordManager × List DetectedWord :=
  (regexMatches buzzword text).foldl (fun a _ => detectMatch now text buzzword a) acc

/-- Model of `detectBuzzwords(text)` for a string `text`.  The entries are visited in
insertion order; the callback changes fields of the entries only, so the keys
visited are those present at the start.  (The local `words` is never read.) -/
def detectBuzzwords (s : BuzzwordManager) (now : Nat) (text : String) :
    BuzzwordManager × List DetectedWord :=
  if text = "" then (s, [])
  else (s.buzzwords.map (fun e => e.1)).foldl (detectEntry now text) (s, [])

end BuzzwordManager

/-! ## The bingo card engine -/

/-- The literal `winPatterns` of `checkForWin`. -/
def winPatterns : List (List Nat) :=
  [ [0, 1, 2, 3, 4],
    [5, 6, 7, 8, 9],
    [10, 11, 12, 13, 14],
    [15, 16, 17, 18, 19],
    [20, 21, 22, 23, 24],
    [0, 5, 10, 15, 20],
    [1, 6, 11, 16, 21],
    [2, 7, 12, 17, 22],
    [3, 8, 13, 18, 23],
    [4, 9, 14, 19, 24],
    [0, 6, 12, 18, 24],
    [4, 8, 12, 16, 20] ]

/-- The result `{ isWin: false, winningPattern: null }`. -/
def noWin : WinResult :=
  { isWin := false, winningPattern := none }

namespace BuzzwordManager

/-- Model of `checkForWin()`: the first pattern, in the order of `winPatterns`, all of
whose indices are in `markedSquares`. -/
def checkForWin (s : BuzzwordManager) : WinResult :=
  match winPatterns.find? (fun pattern => pattern.all (fun index => setHas s.markedSquares index)) with
  | some pattern => { isWin := true, winningPattern := some pattern }
  | none => noWin

/-- The square pushed at position `i` of the loop in `generateBingoCard`. -/
def cardSquare (selectedWords : List BuzzwordData) (i : Nat) : BingoSquare :=
  if i = 12 then
    { word := "FREE", isFree := true, isMarked := true }
  else
    let wordIndex := if i < 12 then i else i - 1
    { word :=
        (match selectedWords[wordIndex]? with
         | some d => if d.word = "" then "Empty" else d.word
         | none => "Empty"),
      isFree := false,
      isMarked := false }

/-- Model of `generateBingoCard()`.  `shuffle` is the outcome of
`allWords.sort(() => Math.random() - 0.5)`. -/
def generateBingoCard (shuffle : List BuzzwordData → List BuzzwordData)
    (s : BuzzwordManager) : BuzzwordManager × List BingoSquare :=
  let allWords := s.buzzwords.map (fun e => e.2)
  let shuffled := shuffle allWords
  let selectedWords := shuffled.take 24
  let card := (List.range 25).map (cardSquare selectedWords)
  ({ s with bingoCard := card, markedSquares := setAdd [] 12 }, card)

/-- Model of `markSquare(index)` for an integer `index`. -/
def markSquare (s : BuzzwordManager) (index : Int) : BuzzwordManager × WinResult :=
  if 0 ≤ index ∧ index < 25 then
    match s.bingoCard[index.toNat]? with
    | some sq =>
      let sq1 : BingoSquare := { sq with isMarked := !sq.isMarked }
      let s1 : BuzzwordManager :=
        { s with
          bingoCard := s.bingoCard.set index.toNat sq1,
          markedSquares :=
            if sq1.isMarked then setAdd s.markedSquares index.toNat
            else setDelete s.markedSquares index.toNat }
      (s1, checkForWin s1)
    | none => (s, noWin)
  else (s, noWin)

/-- Model of `getMarkedCount()`: the size of the set. -/
def getMarkedCount (s : BuzzwordManager) : Nat :=
  s.markedSquares.length

/-- Model of `getBingoCard()`. -/
def getBingoCard (s : BuzzwordManager) : List BingoSquare :=
  s.bingoCard

/-- Model of `resetBingoCard()`. -/
def resetBingoCard (s : BuzzwordManager) : BuzzwordManager :=
  { s with
    bingoCard := s.bingoCard.map (fun square =>
      if square.isFree then { square with isMarked := true }
      else { square with isMarked := false }),
    markedSquares := s.bingoCard.enum.foldl
      (fun ms e => if e.2.isFree then setAdd ms e.1 else ms) [] }

end BuzzwordManager

/-! ## Sequences of calls on the card -/

/-- One call among `generateBingoCard()` (with the outcome of its random sort),
`markSquare(index)` and `resetBingoCard()`. -/
inductive CardOp where
  | generate (shuffle : List BuzzwordData → List BuzzwordData)
  | mark (index : Int)
  | reset

/-- The state after one call. -/
def applyCardOp (s : BuzzwordManager) : CardOp → BuzzwordManager
  | CardOp.generate shuffle => (BuzzwordManager.generateBingoCard shuffle s).1
  | CardOp.mark index => (BuzzwordManager.markSquare s index).1
  | CardOp.reset => BuzzwordManager.resetBingoCard s

/-- The state after a sequence of calls, first call first. -/
def runCardOps (s : BuzzwordManager) (ops : List CardOp) : BuzzwordManager :=
  ops.foldl applyCardOp s

/-- The state after `markSquare` has been called with each index in turn. -/
def markSquares (s : BuzzwordManager) (indices : List Int) : BuzzwordManager :=
  indices.foldl (fun st index => (BuzzwordManager.markSquare st index).1) s

/-- The set of marked indices agrees with the flags of the squares. -/
def MarkedConsistent (s : BuzzwordManager) : Prop :=
  ∀ i, i ∈ s.markedSquares ↔ ∃ sq, s.bingoCard[i]? = some sq ∧ sq.isMarked = true

/-- The square at index 12 is marked, in the card and in the set. -/
def FreeMarked (s : BuzzwordManager) : Prop :=
  (∃ sq, s.bingoCard[12]? = some sq ∧ sq.isMarked = true) ∧ 12 ∈ s.markedSquares

/-- The card has 25 squares and its free square is the one at index 12. -/
def CardShape (s : BuzzwordManager) : Prop :=
  s.bingoCard.length = 25 ∧ ∀ i sq, s.bingoCard[i]? = some sq → (sq.isFree = true ↔ i = 12)

/-! ## Notions used to state the properties of the dictionary -/

/-- The keys of the map are pairwise distinct, as in every `Map`, and each is
its own lower case form, as every key written by `initializeDefaultBuzzwords`
and `addCustomBuzzword` is. -/
def WellFormed (s : BuzzwordManager) : Prop :=
  (s.buzzwords.map (fun e => e.1)).Nodup ∧ ∀ e ∈ s.buzzwords, toLowerCase e.1 = e.1

/-- The words of the specification, not the code: `buzzword` occurs in `text`
at index `i`, case being ignored, with a word boundary right before it and right
after it. -/
def occursAt (buzzword text : String) (i : Nat) : Bool :=
  isWordBoundary text.data i &&
    (decide (i + buzzword.data.length ≤ text.data.length) &&
      ((text.data.drop i).take buzzword.data.length).map canonicalize ==
        buzzword.data.map canonicalize) &&
    isWordBoundary text.data (i + buzzword.data.length)

/-- The words of the specification, not the code: the number of indices of
`text` at which `buzzword` occurs between word boundaries. -/
def occurrences (buzzword text : String) : Nat :=
  ((List.range (text.data.length + 1)).filter (occursAt buzzword text)).length

/-- The number of matches `text.match(regex)` yields for the pattern of `buzzword`. -/
def matchCount (buzzword text : String) : Nat :=
  (regexMatches buzzword text).length

/-- The entry `d` after `n` matches have been counted at time `now`. -/
def bumped (now n : Nat) (d : BuzzwordData) : BuzzwordData :=
  if n = 0 then d else { d with count := d.count + n, lastDetected := some now }

/-- The records pushed for an entry `d` under the key `buzzword` that matches
`n` times: the record of the match number `j + 1` carries the count `d.count + j + 1`. -/
def recordsFor (text buzzword : String) (d : BuzzwordData) (n : Nat) : List DetectedWord :=
  (List.range n).map (fun j =>
    { word := d.word, count := d.count + j + 1,
      position := indexOf (toLowerCase text) buzzword })

/-- The state after `addCustomBuzzword` has been called with each word in turn. -/
def addCustomBuzzwords (s : BuzzwordManager) (words : List String) : BuzzwordManager :=
  words.foldl (fun st word => (BuzzwordManager.addCustomBuzzword st word).1) s

/-! ## Export and import of the dictionary -/

/-- The object `exportResults` returns; `timestamp` stands for the ISO string
of the time of the call. -/
structure ExportResults where
  timestamp : Nat
  totalCount : Nat
  buzzwords : List BuzzwordData
  customBuzzwords : List String
deriving DecidableEq

/-- One element of `data.buzzwords` as `importResults` reads it.  `word` is
`none` when `item.word` is not a string, so that `item.word.toLowerCase()`
throws; `count` is `none` when `item.count` is missing. -/
structure ImportItem where
  word : Option String
  count : Option Nat
deriving DecidableEq

/-- The argument of `importResults` as it reads it: each of the two fields is
`none` when it is missing. -/
structure ImportData where
  buzzwords : Option (List ImportItem)
  customBuzzwords : Option (List String)
deriving DecidableEq

namespace BuzzwordManager

/-- The comparison function of `getAllBuzzwords`; `localeCompare` is the host
function `String.prototype.localeCompare`. -/
def compareEntries (localeCompare : String → String → Int) (a b : BuzzwordData) : Int :=
  if a.count ≠ b.count then (b.count : Int) - (a.count : Int)
  else localeCompare a.word b.word

/-- Model of `getAllBuzzwords()`: the values of the map, sorted (the sort is
stable) by the comparison function. -/
def getAllBuzzwords (localeCompare : String → String → Int) (s : BuzzwordManager) :
    List BuzzwordData :=
  (s.buzzwords.map (fun e => e.2)).insertionSort
    (fun a b => compareEntries localeCompare a b ≤ 0)

/-- Model of `exportResults()`; `now` is the time of the call. -/
def exportResults (now : Nat) (localeCompare : String → String → Int) (s : BuzzwordManager) :
    ExportResults :=
  { timestamp := now,
    totalCount := getTotalCount s,
    buzzwords := (getAllBuzzwords localeCompare s).filter (fun data => decide (data.count > 0)),
    customBuzzwords := s.customBuzzwords }

/-- The loop `data.buzzwords.forEach` of `importResults`: the state it leaves,
and whether it ran to its end (`false`: an item threw, the items after it are
not read and what was written before stays). -/
def importItems (s : BuzzwordManager) : List ImportItem → BuzzwordManager × Bool
  | [] => (s, true)
  | item :: rest =>
    match item.word with
    | none => (s, false)
    | some word =>
      let normalizedWord := toLowerCase word
      match mapGet s.buzzwords normalizedWord with
      | some d =>
        importItems
          { s with
            buzzwords := mapSet s.buzzwords normalizedWord
              ({ d with count := item.count.getD 0 }) } rest
      | none => importItems s rest

/-- Model of `importResults(data)`; `data` is `none` for `null` or `undefined`,
on which reading `data.buzzwords` throws. -/
def importResults (s : BuzzwordManager) (data : Option ImportData) : BuzzwordManager × Bool :=
  match data with
  | none => (s, false)
  | some d =>
    let r := match d.buzzwords with
      | some items => importItems s items
      | none => (s, true)
    if r.2 then
      match d.customBuzzwords with
      | some words => (addCustomBuzzwords r.1 words, true)
      | none => (r.1, true)
    else (r.1, false)

end BuzzwordManager

/-- The object of `exportResults` as `importResults` reads it when it is
passed on as it is: every item has its `word` and its `count`. -/
def exportedData (r : ExportResults) : ImportData :=
  { buzzwords := some (r.buzzwords.map (fun d => { word := some d.word, count := some d.count })),
    customBuzzwords := some r.customBuzzwords }

/-! ## Sequences of calls on the dictionary -/

/-- One call among `addCustomBuzzword`, `removeBuzzword`, `detectBuzzwords`,
`resetCounts` and `importResults`, with its arguments. -/
inductive DictOp where
  | add (word : String)
  | remove (word : String)
  | detect (now : Nat) (text : String)
  | resetCounts
  | importResults (data : Option ImportData)

/-- The state after one call. -/
def applyDictOp (s : BuzzwordManager) : DictOp → BuzzwordManager
  | DictOp.add word => (BuzzwordManager.addCustomBuzzword s word).1
  | DictOp.remove word => (BuzzwordManager.removeBuzzword s word).1
  | DictOp.detect now text => (BuzzwordManager.detectBuzzwords s now text).1
  | DictOp.resetCounts => BuzzwordManager.resetCounts s
  | DictOp.importResults data => (BuzzwordManager.importResults s data).1

/-- The state after a sequence of calls, first call first. -/
def runDictOps (s : BuzzwordManager) (ops : List DictOp) : BuzzwordManager :=
  ops.foldl applyDictOp s

/-- What the properties below read of an entry: its key, its word and its
`isCustom` flag. -/
def entryShape (e : String × BuzzwordData) : String × String × Bool :=
  (e.1, e.2.word, e.2.isCustom)

/-- Every entry is stored under the lower case form of its word, and no word
is empty. -/
def EntriesNamed (s : BuzzwordManager) : Prop :=
  ∀ e ∈ s.buzzwords, toLowerCase e.2.word = e.1 ∧ e.2.word ≠ ""

/-- Every word of `DEFAULT_BUZZWORDS` is a key, of an entry with `isCustom = false`. -/
def DefaultsKept (s : BuzzwordManager) : Prop :=
  ∀ w ∈ DEFAULT_BUZZWORDS, ∃ d, mapGet s.buzzwords (toLowerCase w) = some d ∧ d.isCustom = false

/-- The invariant of the dictionary: distinct lower case keys, every entry
under the lower case form of its non-empty word, every default word kept as a
built-in entry. -/
def DictInv (s : BuzzwordManager) : Prop :=
  WellFormed s ∧ EntriesNamed s ∧ DefaultsKept s

/-- The grid index of the square filled from position `j` of the shuffled
words: the free square at index 12 is skipped. -/
def gridIndex (j : Nat) : Nat :=
  if j < 12 then j else j + 1

/-! ## The transcription service

A model of `src/transcription.js` (class `TranscriptionService`) as a state
and a step function over the events that reach it: the calls of its methods and
the callbacks of the host (the handlers `onstart` and `onend` of the recognition
object, the timeout set by `onend`, the interval set by `simulateTranscription`).
The handlers `onresult` and `onerror` write none of the fields below and are
left out, with the transcription buffer they fill. -/

/-- Model of `String.prototype.split(" ")` on the characters: the pieces
between the spaces, empty pieces included. -/
def splitChars : List Char → List (List Char)
  | [] => [[]]
  | c :: rest =>
    if c = Char.ofNat 32 then [] :: splitChars rest
    else
      match splitChars rest with
      | w :: ws => (c :: w) :: ws
      | [] => [[c]]

/-- Model of `Array.prototype.join(" ")` on the characters. -/
def joinChars : List (List Char) → List Char
  | [] => []
  | [w] => w
  | w :: v :: ws => w ++ Char.ofNat 32 :: joinChars (v :: ws)

/-- Model of `text.split(" ")`. -/
def splitSpace (text : String) : List String :=
  (splitChars text.data).map String.mk

/-- Model of `words.join(" ")`. -/
def joinSpace (words : List String) : String :=
  String.mk (joinChars (words.map String.data))

/-- The object passed to the transcription callback. -/
structure Segment where
  text : String
  isFinal : Bool
  timestamp : Nat
deriving DecidableEq

/-- The variables of one call of `simulateTranscription` that its interval
callback reads and writes; `active` is false once `clearInterval` has run. -/
structure Simulation where
  words : List String
  currentIndex : Nat
  active : Bool
deriving DecidableEq

/-- The fields of a `TranscriptionService`, and what the host holds for it:
the number of timeouts set by `onend` that have not fired yet, and the intervals
set by `simulateTranscription`, the handle of an interval being its index.
The fields `recognition`, `mediaStream`, `audioContext` and the two callbacks
are true when they are not null. -/
structure TranscriptionService where
  isSupported : Bool
  isListening : Bool
  recognition : Bool
  shouldRestart : Bool
  onTranscriptionCallback : Bool
  onErrorCallback : Bool
  mediaStream : Bool
  audioContext : Bool
  pendingRestarts : Nat
  simulations : List Simulation
deriving DecidableEq

/-- What a step does to the outside. -/
inductive Action where
  | throwError
  | recognitionStart
  | recognitionStop
  | errorCallback
  | transcriptionCallback (segment : Segment)
  | stopTracks
  | closeAudioContext
deriving DecidableEq

/-- The events: the three method calls, the handlers `onstart` and `onend` of
the recognition object, the timeout set by `onend`, and the callback of the
interval with handle `handle`.  `hostThrows` tells whether `recognition.start()`
throws; `chunkSize` is the value of `Math.floor(Math.random() * 3) + 3`; `now`
is the reading of `new Date()`. -/
inductive Event where
  | startListening (hostThrows : Bool)
  | stopListening
  | simulateTranscription (testText : String)
  | recognitionStarted
  | recognitionEnded
  | restartTimer (hostThrows : Bool)
  | simulationTick (handle : Nat) (chunkSize : Nat) (now : Nat)
deriving DecidableEq

namespace TranscriptionService

/-- Model of `new TranscriptionService()`; `isSupported` is the result of `checkSupport()`. -/
def constructor (isSupported : Bool) : TranscriptionService :=
  { isSupported := isSupported, isListening := false, recognition := false,
    shouldRestart := false, onTranscriptionCallback := false, onErrorCallback := false,
    mediaStream := false, audioContext := false, pendingRestarts := 0, simulations := [] }

/-- Model of `setTranscriptionCallback(callback)` with a callback that is not null. -/
def setTranscriptionCallback (s : TranscriptionService) : TranscriptionService :=
  { s with onTranscriptionCallback := true }

/-- Model of `startListening()`. -/
def startListening (s : TranscriptionService) (hostThrows : Bool) :
    TranscriptionService × List Action :=
  if !s.isSupported then (s, [Action.throwError])
  else
    let s1 : TranscriptionService := if !s.recognition then { s with recognition := true } else s
    if s1.isListening then (s1, [])
    else
      let s2 : TranscriptionService := { s1 with shouldRestart := true }
      if hostThrows then
        (s2, Action.recognitionStart :: (if s2.onErrorCallback then [Action.errorCallback] else []))
      else (s2, [Action.recognitionStart])

/-- Model of `stopListening()`. -/
def stopListening (s : TranscriptionService) : TranscriptionService × List Action :=
  let s1 : TranscriptionService := { s with shouldRestart := false }
  let a1 := if s1.recognition && s1.isListening then [Action.recognitionStop] else []
  let s2 : TranscriptionService := if s1.mediaStream then { s1 with mediaStream := false } else s1
  let a2 := if s1.mediaStream then [Action.stopTracks] else []
  let s3 : TranscriptionService :=
    if s2.audioContext then { s2 with audioContext := false } else s2
  let a3 := if s2.audioContext then [Action.closeAudioContext] else []
  (s3, a1 ++ a2 ++ a3)

/-- The handler `recognition.onstart`; it exists once `initialize` has run. -/
def onstart (s : TranscriptionService) : TranscriptionService × List Action :=
  if s.recognition then ({ s with isListening := true }, []) else (s, [])

/-- The handler `recognition.onend`: with `shouldRestart` set it sets a timeout. -/
def onend (s : TranscriptionService) : TranscriptionService × List Action :=
  if s.recognition then
    let s1 : TranscriptionService := { s with isListening := false }
    if s1.shouldRestart then ({ s1 with pendingRestarts := s1.pendingRestarts + 1 }, [])
    else (s1, [])
  else (s, [])

/-- The callback of a timeout set by `onend`, when one is pending. -/
def restartTimer (s : TranscriptionService) (hostThrows : Bool) :
    TranscriptionService × List Action :=
  if s.pendingRestarts = 0 then (s, [])
  else
    let s1 : TranscriptionService := { s with pendingRestarts := s.pendingRestarts - 1 }
    if s1.shouldRestart then startListening s1 hostThrows else (s1, [])

/-- Model of `simulateTranscription(testText)`: the new state and the handle returned. -/
def simulateTranscription (s : TranscriptionService) (testText : String) :
    TranscriptionService × Option Nat :=
  if testText = "" then (s, none)
  else
    ({ s with
       simulations := s.simulations ++
         [{ words := splitSpace testText, currentIndex := 0, active := true }] },
     some s.simulations.length)

/-- The callback of the interval with handle `handle`, when it has not been cleared. -/
def simulationTick (s : TranscriptionService) (handle chunkSize now : Nat) :
    TranscriptionService × List Action :=
  match s.simulations[handle]? with
  | none => (s, [])
  | some sim =>
    if !sim.active then (s, [])
    else if sim.currentIndex ≥ sim.words.length then
      ({ s with simulations := s.simulations.set handle { sim with active := false } }, [])
    else
      let chunk := joinSpace ((sim.words.drop sim.currentIndex).take chunkSize)
      ({ s with
         simulations := s.simulations.set handle
           { sim with currentIndex := sim.currentIndex + chunkSize } },
       if s.onTranscriptionCallback then
         [Action.transcriptionCallback { text := chunk, isFinal := true, timestamp := now }]
       else [])

/-- One step. -/
def step (s : TranscriptionService) : Event → TranscriptionService × List Action
  | Event.startListening hostThrows => startListening s hostThrows
  | Event.stopListening => stopListening s
  | Event.simulateTranscription testText => ((simulateTranscription s testText).1, [])
  | Event.recognitionStarted => onstart s
  | Event.recognitionEnded => onend s
  | Event.restartTimer hostThrows => restartTimer s hostThrows
  | Event.simulationTick handle chunkSize now => simulationTick s handle chunkSize now

/-- The steps of a sequence of events: the last state and all the actions, in order. -/
def run (s : TranscriptionService) : List Event → TranscriptionService × List Action
  | [] => (s, [])
  | e :: rest => ((run (step s e).1 rest).1, (step s e).2 ++ (run (step s e).1 rest).2)

end TranscriptionService

/-- The texts of the segments passed to the transcription callback. -/
def segmentTexts : List Action → List String
  | [] => []
  | Action.transcriptionCallback segment :: rest => segment.text :: segmentTexts rest
  | _ :: rest => segmentTexts rest

/-- The ticks number `0` to `n - 1` of the interval `handle`, with the chunk
sizes and the times given by `sizes` and `times`. -/
def ticks (handle : Nat) (sizes times : Nat → Nat) (n : Nat) : List Event :=
  (List.range n).map (fun t => Event.simulationTick handle (sizes t) (times t))

/-- The state of the interval `handle` after `n` ticks, the texts `emitted` so
far and the words `words` it was started with: the callback is set; while the
interval is active it has moved on by at least one word per tick, and the
texts emitted, followed by the words still to come when there are some, join to
the words it was started with; once it is cleared the texts emitted do. -/
def SimProgress (s : TranscriptionService) (handle : Nat) (words emitted : List String)
    (n : Nat) : Prop :=
  s.onTranscriptionCallback = true ∧
  ∃ sim, s.simulations[handle]? = some sim ∧ sim.words = words ∧
    (sim.active = true →
      n ≤ sim.currentIndex ∧
      (sim.currentIndex < words.length →
        joinChars (emitted.map String.data ++
          [joinChars ((words.map String.data).drop sim.currentIndex)]) =
          joinChars (words.map String.data)) ∧
      (words.length ≤ sim.currentIndex →
        joinChars (emitted.map String.data) = joinChars (words.map String.data))) ∧
    (sim.active = false →
      joinChars (emitted.map String.data) = joinChars (words.map String.data))

/-! ## Theorems: the bingo card engine -/

namespace BuzzwordManager

theorem cardSquare_isFree (sel : List BuzzwordData) (i : Nat) :
    (cardSquare sel i).isFree = decide (i = 12) := by
  unfold cardSquare
  by_cases h : i = 12 <;> simp [h]

theorem cardSquare_isMarked (sel : List BuzzwordData) (i : Nat) :
    (cardSquare sel i).isMarked = decide (i = 12) := by
  unfold cardSquare
  by_cases h : i = 12 <;> simp [h]

theorem generateBingoCard_bingoCard (shuffle : List BuzzwordData → List BuzzwordData)
    (s : BuzzwordManager) :
    (generateBingoCard shuffle s).1.bingoCard =
      (List.range 25).map (cardSquare ((shuffle (s.buzzwords.map (fun e => e.2))).take 24)) :=
  rfl

theorem generateBingoCard_markedSquares (shuffle : List BuzzwordData → List BuzzwordData)
    (s : BuzzwordManager) : (generateBingoCard shuffle s).1.markedSquares = [12] :=
  rfl

theorem generateBingoCard_getElem? (shuffle : List BuzzwordData → List BuzzwordData)
    (s : BuzzwordManager) (i : Nat) (sq : BingoSquare)
    (h : (generateBingoCard shuffle s).1.bingoCard[i]? = some sq) :
    i < 25 ∧ sq.isFree = decide (i = 12) ∧ sq.isMarked = decide (i = 12) := by
  rw [generateBingoCard_bingoCard, List.getElem?_map] at h
  have hi : i < 25 := by
    by_contra hc
    rw [List.getElem?_eq_none (by simpa using hc)] at h
    simp at h
  rw [List.getElem?_range hi] at h
  simp only [Option.map_some', Option.some.injEq] at h
  subst h
  exact ⟨hi, cardSquare_isFree _ _, cardSquare_isMarked _ _⟩

/-- C1: whatever the dictionary and whatever the outcome of the random sort,
`generateBingoCard` returns the new card, the card has exactly 25 squares,
exactly one square is free, a square is free iff it is at index 12, a square is
marked iff it is at index 12 (so the free square is marked and every other one
is not), and the set of marked indices is exactly `[12]`. -/
theorem generateBingoCard_spec (shuffle : List BuzzwordData → List BuzzwordData)
    (s : BuzzwordManager) :
    (generateBingoCard shuffle s).2 = (generateBingoCard shuffle s).1.bingoCard ∧
    (generateBingoCard shuffle s).2.length = 25 ∧
    ((generateBingoCard shuffle s).2.filter (fun sq => sq.isFree)).length = 1 ∧
    (∀ i sq, (generateBingoCard shuffle s).2[i]? = some sq →
      ((sq.isFree = true ↔ i = 12) ∧ (sq.isMarked = true ↔ i = 12))) ∧
    (∃ sq, (generateBingoCard shuffle s).2[12]? = some sq ∧
      sq.isFree = true ∧ sq.isMarked = true) ∧
    (generateBingoCard shuffle s).1.markedSquares = [12] ∧
    (∀ i, i ∈ (generateBingoCard shuffle s).1.markedSquares ↔ i = 12) := by
  have h2 : (generateBingoCard shuffle s).2 = (generateBingoCard shuffle s).1.bingoCard := rfl
  refine ⟨h2, ?_, ?_, ?_, ?_, generateBingoCard_markedSquares _ _, ?_⟩
  · rw [h2, generateBingoCard_bingoCard]; simp
  · rw [h2, generateBingoCard_bingoCard, List.filter_map]
    have : ((fun sq : BingoSquare => sq.isFree) ∘
        cardSquare ((shuffle (s.buzzwords.map (fun e => e.2))).take 24)) =
        fun i => decide (i = 12) := by
      funext i; exact cardSquare_isFree _ i
    rw [this, List.length_map]
    decide
  · intro i sq h
    rw [h2] at h
    obtain ⟨_, hf, hm⟩ := generateBingoCard_getElem? shuffle s i sq h
    rw [hf, hm]; simp
  · rw [h2, generateBingoCard_bingoCard]
    refine ⟨cardSquare ((shuffle (s.buzzwords.map (fun e => e.2))).take 24) 12, ?_, ?_, ?_⟩
    · rw [List.getElem?_map, List.getElem?_range (by decide)]; rfl
    · rw [cardSquare_isFree]; rfl
    · rw [cardSquare_isMarked]; rfl
  · intro i
    rw [generateBingoCard_markedSquares]; simp

theorem mem_setAdd {α : Type} [DecidableEq α] (l : List α) (x y : α) :
    y ∈ setAdd l x ↔ y ∈ l ∨ y = x := by
  unfold setAdd
  by_cases h : x ∈ l
  · rw [if_pos h]
    constructor
    · exact Or.inl
    · rintro (h1 | h1)
      · exact h1
      · rw [h1]; exact h
  · rw [if_neg h]; simp

theorem mem_setDelete {α : Type} [DecidableEq α] (l : List α) (x y : α) :
    y ∈ setDelete l x ↔ y ∈ l ∧ y ≠ x := by
  unfold setDelete
  simp

theorem markSquare_of_getElem? (s : BuzzwordManager) (index : Int) (sq : BingoSquare)
    (h0 : 0 ≤ index) (h25 : index < 25) (hsq : s.bingoCard[index.toNat]? = some sq) :
    markSquare s index =
      (({ s with
          bingoCard := s.bingoCard.set index.toNat { sq with isMarked := !sq.isMarked },
          markedSquares :=
            if (!sq.isMarked) = true then setAdd s.markedSquares index.toNat
            else setDelete s.markedSquares index.toNat } : BuzzwordManager),
       checkForWin ({ s with
          bingoCard := s.bingoCard.set index.toNat { sq with isMarked := !sq.isMarked },
          markedSquares :=
            if (!sq.isMarked) = true then setAdd s.markedSquares index.toNat
            else setDelete s.markedSquares index.toNat } : BuzzwordManager)) := by
  unfold markSquare
  rw [if_pos ⟨h0, h25⟩, hsq]

theorem markSquare_of_none (s : BuzzwordManager) (index : Int)
    (h : s.bingoCard[index.toNat]? = none) : markSquare s index = (s, noWin) := by
  unfold markSquare
  split
  · rw [h]
  · rfl

theorem markSquare_out_of_range (s : BuzzwordManager) (index : Int)
    (h : index < 0 ∨ 25 ≤ index) : markSquare s index = (s, noWin) := by
  unfold markSquare
  rw [if_neg (by omega)]

/-- C2: `markSquare(index)`.  For an index outside 0..24, and for any index
when no card has been generated (the card is empty), the state is returned
unchanged with the result not-a-win.  For an index in 0..24 on a generated card
(25 squares), the square at that index has `isMarked` flipped and is otherwise
the same, every other square is unchanged, the index is in the marked set
afterwards iff the square is now marked, the membership of every other index is
unchanged, the dictionary is untouched, and the result is `checkForWin` of the
new state. -/
theorem markSquare_spec (s : BuzzwordManager) (index : Int) :
    ((index < 0 ∨ 25 ≤ index ∨ s.bingoCard = []) → markSquare s index = (s, noWin)) ∧
    (0 ≤ index → index < 25 → s.bingoCard.length = 25 →
      ∃ sq, s.bingoCard[index.toNat]? = some sq ∧
        (markSquare s index).1.bingoCard.length = 25 ∧
        (markSquare s index).1.bingoCard[index.toNat]? =
          some { word := sq.word, isFree := sq.isFree, isMarked := !sq.isMarked } ∧
        (∀ j, j ≠ index.toNat →
          (markSquare s index).1.bingoCard[j]? = s.bingoCard[j]?) ∧
        (index.toNat ∈ (markSquare s index).1.markedSquares ↔ (!sq.isMarked) = true) ∧
        (∀ j, j ≠ index.toNat →
          (j ∈ (markSquare s index).1.markedSquares ↔ j ∈ s.markedSquares)) ∧
        (markSquare s index).1.buzzwords = s.buzzwords ∧
        (markSquare s index).1.customBuzzwords = s.customBuzzwords ∧
        (markSquare s index).2 = checkForWin (markSquare s index).1) := by
  constructor
  · rintro (h | h | h)
    · exact markSquare_out_of_range s index (Or.inl h)
    · exact markSquare_out_of_range s index (Or.inr h)
    · exact markSquare_of_none s index (by rw [h]; rfl)
  · intro h0 h25 hlen
    have hlt : index.toNat < s.bingoCard.length := by omega
    refine ⟨s.bingoCard[index.toNat], List.getElem?_eq_getElem hlt, ?_⟩
    rw [markSquare_of_getElem? s index _ h0 h25 (List.getElem?_eq_getElem hlt)]
    refine ⟨by simpa using hlen, ?_, ?_, ?_, ?_, rfl, rfl, rfl⟩
    · simp only [List.getElem?_set_self hlt]
    · intro j hj
      simp only [List.getElem?_set_ne (Ne.symm hj)]
    · by_cases hm : (!(s.bingoCard[index.toNat]).isMarked) = true
      · simp only [hm, if_true, mem_setAdd, or_true]
      · simp [hm, mem_setDelete]
    · intro j hj
      by_cases hm : (!(s.bingoCard[index.toNat]).isMarked) = true
      · simp only [hm, if_true, mem_setAdd, hj, or_false]
      · simp [hm, mem_setDelete, hj]

/-- Witness of C2: on the card generated from the fresh dictionary, index 25 is
a no-op and index 3 marks square 3. -/
theorem markSquare_spec_witness :
    markSquare (generateBingoCard id constructor).1 25 =
        ((generateBingoCard id constructor).1, noWin) ∧
      ∃ sq, (generateBingoCard id constructor).1.bingoCard[(3 : Int).toNat]? = some sq ∧
        (markSquare (generateBingoCard id constructor).1 3).1.bingoCard.length = 25 ∧
        (markSquare (generateBingoCard id constructor).1 3).1.bingoCard[(3 : Int).toNat]? =
          some { word := sq.word, isFree := sq.isFree, isMarked := !sq.isMarked } ∧
        (∀ j, j ≠ (3 : Int).toNat →
          (markSquare (generateBingoCard id constructor).1 3).1.bingoCard[j]? =
            (generateBingoCard id constructor).1.bingoCard[j]?) ∧
        ((3 : Int).toNat ∈ (markSquare (generateBingoCard id constructor).1 3).1.markedSquares ↔
          (!sq.isMarked) = true) ∧
        (∀ j, j ≠ (3 : Int).toNat →
          (j ∈ (markSquare (generateBingoCard id constructor).1 3).1.markedSquares ↔
            j ∈ (generateBingoCard id constructor).1.markedSquares)) ∧
        (markSquare (generateBingoCard id constructor).1 3).1.buzzwords =
          (generateBingoCard id constructor).1.buzzwords ∧
        (markSquare (generateBingoCard id constructor).1 3).1.customBuzzwords =
          (generateBingoCard id constructor).1.customBuzzwords ∧
        (markSquare (generateBingoCard id constructor).1 3).2 =
          checkForWin (markSquare (generateBingoCard id constructor).1 3).1 :=
  ⟨(markSquare_spec _ 25).1 (Or.inr (Or.inl (by decide))),
   (markSquare_spec _ 3).2 (by decide) (by decide) (by decide)⟩

theorem checkForWin_isWin_iff (s : BuzzwordManager) :
    (checkForWin s).isWin = true ↔ ∃ p ∈ winPatterns, ∀ i ∈ p, i ∈ s.markedSquares := by
  unfold checkForWin
  split
  · rename_i p hp
    have h1 := List.find?_some hp
    have h2 := List.mem_of_find?_eq_some hp
    simp only [true_iff]
    refine ⟨p, h2, ?_⟩
    simpa [setHas] using h1
  · rename_i hp
    rw [List.find?_eq_none] at hp
    simp only [noWin, Bool.false_eq_true, false_iff]
    rintro ⟨p, hp1, hp2⟩
    apply hp p hp1
    simpa [setHas] using hp2

/-- C3: `checkForWin`.  The patterns are the 5 rows top to bottom, then the 5
columns left to right, then the main diagonal, then the anti-diagonal.  The
result is a win iff some pattern lies entirely in the marked set; on a win the
reported pattern is the first complete one in that order (every pattern before
it has an unmarked index); otherwise no pattern is reported.  Marking 0, 1, 2,
3, 4 on a freshly generated card reports the row `[0, 1, 2, 3, 4]`. -/
theorem checkForWin_spec (s : BuzzwordManager) :
    winPatterns =
      (List.range 5).map (fun r => (List.range 5).map (fun c => 5 * r + c)) ++
      (List.range 5).map (fun c => (List.range 5).map (fun r => 5 * r + c)) ++
      [[0, 6, 12, 18, 24], [4, 8, 12, 16, 20]] ∧
    ((checkForWin s).isWin = true ↔ ∃ p ∈ winPatterns, ∀ i ∈ p, i ∈ s.markedSquares) ∧
    ((checkForWin s).isWin = true →
      ∃ p before after, (checkForWin s).winningPattern = some p ∧
        winPatterns = before ++ p :: after ∧ (∀ i ∈ p, i ∈ s.markedSquares) ∧
        ∀ q ∈ before, ¬ ∀ i ∈ q, i ∈ s.markedSquares) ∧
    ((checkForWin s).isWin = false → (checkForWin s).winningPattern = none) ∧
    (∀ (shuffle : List BuzzwordData → List BuzzwordData) (s0 : BuzzwordManager),
      (markSquare (markSquare (markSquare (markSquare (markSquare
        (generateBingoCard shuffle s0).1 0).1 1).1 2).1 3).1 4).2 =
        { isWin := true, winningPattern := some [0, 1, 2, 3, 4] }) := by
  refine ⟨by decide, checkForWin_isWin_iff s, ?_, ?_, ?_⟩
  · unfold checkForWin
    split
    · rename_i p hp
      intro _
      rw [List.find?_eq_some] at hp
      obtain ⟨h1, as, bs, h2, h3⟩ := hp
      refine ⟨p, as, bs, rfl, h2, by simpa [setHas] using h1, ?_⟩
      intro q hq hall
      have := h3 q hq
      simp [setHas] at this
      obtain ⟨i, hi1, hi2⟩ := this
      exact hi2 (hall i hi1)
    · intro h
      simp [noWin] at h
  · unfold checkForWin
    split
    · intro h
      simp at h
    · intro _
      rfl
  · intro shuffle s0
    simp [markSquare, generateBingoCard, checkForWin, setAdd, setDelete, setHas, List.range,
      List.range.loop, cardSquare, winPatterns]

theorem markSquare_cases (s : BuzzwordManager) (index : Int) :
    markSquare s index = (s, noWin) ∨
    ∃ sq, 0 ≤ index ∧ index < 25 ∧ s.bingoCard[index.toNat]? = some sq ∧
      (markSquare s index).1.bingoCard =
        s.bingoCard.set index.toNat { sq with isMarked := !sq.isMarked } ∧
      (markSquare s index).1.markedSquares =
        (if (!sq.isMarked) = true then setAdd s.markedSquares index.toNat
         else setDelete s.markedSquares index.toNat) := by
  by_cases hr : 0 ≤ index ∧ index < 25
  · cases hsq : s.bingoCard[index.toNat]? with
    | none => exact Or.inl (markSquare_of_none s index hsq)
    | some sq =>
      refine Or.inr ⟨sq, hr.1, hr.2, rfl, ?_, ?_⟩
      · rw [markSquare_of_getElem? s index sq hr.1 hr.2 hsq]
      · rw [markSquare_of_getElem? s index sq hr.1 hr.2 hsq]
  · exact Or.inl (markSquare_out_of_range s index (by omega))

theorem markSquare_getElem?_of_ne (s : BuzzwordManager) (index : Int) (j : Nat)
    (h : (j : Int) ≠ index) : (markSquare s index).1.bingoCard[j]? = s.bingoCard[j]? := by
  rcases markSquare_cases s index with h1 | ⟨sq, h0, _, _, hc, _⟩
  · rw [h1]
  · rw [hc, List.getElem?_set_ne]
    intro heq
    apply h
    rw [← heq]
    exact Int.toNat_of_nonneg h0

theorem markSquare_mem_of_ne (s : BuzzwordManager) (index : Int) (j : Nat)
    (h : (j : Int) ≠ index) :
    j ∈ (markSquare s index).1.markedSquares ↔ j ∈ s.markedSquares := by
  rcases markSquare_cases s index with h1 | ⟨sq, h0, _, _, _, hm⟩
  · rw [h1]
  · have hne : j ≠ index.toNat := by
      intro heq
      apply h
      rw [heq]
      exact Int.toNat_of_nonneg h0
    rw [hm]
    split
    · simp [mem_setAdd, hne]
    · simp [mem_setDelete, hne]

theorem markSquare_length (s : BuzzwordManager) (index : Int) :
    (markSquare s index).1.bingoCard.length = s.bingoCard.length := by
  rcases markSquare_cases s index with h1 | ⟨sq, _, _, _, hc, _⟩
  · rw [h1]
  · rw [hc, List.length_set]

theorem markSquare_freeMarked (s : BuzzwordManager) (index : Int) (h : index ≠ 12)
    (hs : FreeMarked s) : FreeMarked (markSquare s index).1 := by
  unfold FreeMarked at *
  have hne : ((12 : Nat) : Int) ≠ index := fun heq => h (by rw [← heq]; rfl)
  rw [markSquare_getElem?_of_ne s index 12 hne, markSquare_mem_of_ne s index 12 hne]
  exact hs

theorem markSquares_freeMarked (indices : List Int) (s : BuzzwordManager)
    (h : ∀ i ∈ indices, i ≠ 12) (hs : FreeMarked s) : FreeMarked (markSquares s indices) := by
  induction indices generalizing s with
  | nil => exact hs
  | cons i rest ih =>
    unfold markSquares
    rw [List.foldl_cons]
    apply ih
    · intro k hk
      exact h k (List.mem_cons_of_mem _ hk)
    · exact markSquare_freeMarked s i (h i (List.mem_cons_self _ _)) hs

theorem generateBingoCard_getElem?_twelve (shuffle : List BuzzwordData → List BuzzwordData)
    (s : BuzzwordManager) :
    ∃ sq, (generateBingoCard shuffle s).1.bingoCard[12]? = some sq ∧
      sq.isFree = true ∧ sq.isMarked = true := by
  rw [generateBingoCard_bingoCard]
  refine ⟨cardSquare ((shuffle (s.buzzwords.map (fun e => e.2))).take 24) 12, ?_, ?_, ?_⟩
  · rw [List.getElem?_map, List.getElem?_range (by decide)]; rfl
  · rw [cardSquare_isFree]; rfl
  · rw [cardSquare_isMarked]; rfl

theorem generateBingoCard_length (shuffle : List BuzzwordData → List BuzzwordData)
    (s : BuzzwordManager) : (generateBingoCard shuffle s).1.bingoCard.length = 25 := by
  rw [generateBingoCard_bingoCard]; simp

theorem generateBingoCard_freeMarked (shuffle : List BuzzwordData → List BuzzwordData)
    (s : BuzzwordManager) : FreeMarked (generateBingoCard shuffle s).1 := by
  obtain ⟨sq, h1, _, h3⟩ := generateBingoCard_getElem?_twelve shuffle s
  refine ⟨⟨sq, h1, h3⟩, ?_⟩
  rw [generateBingoCard_markedSquares]
  exact List.mem_singleton.mpr rfl

end BuzzwordManager

/-- C4, as stated, fails: on the card generated from the fresh dictionary (the
sort leaving the order as it is), one call `markSquare(12)` leaves the free
square with `isMarked = false` and removes 12 from the marked set. -/
theorem markSquare_unmarks_free :
    ((BuzzwordManager.markSquare
        (BuzzwordManager.generateBingoCard id BuzzwordManager.constructor).1 12).1.bingoCard[12]?).map
        (fun sq => (sq.isFree, sq.isMarked)) = some (true, false) ∧
      12 ∉ (BuzzwordManager.markSquare
        (BuzzwordManager.generateBingoCard id BuzzwordManager.constructor).1 12).1.markedSquares := by
  simp [BuzzwordManager.markSquare, BuzzwordManager.generateBingoCard, setAdd, setDelete,
    List.range, List.range.loop, BuzzwordManager.cardSquare]

/-- C4, amended: from a freshly generated card, after any sequence of
`markSquare` calls none of which has the index 12, the square at index 12 still
has `isMarked = true` and 12 is still in the marked set. -/
theorem free_square_stays_marked (shuffle : List BuzzwordData → List BuzzwordData)
    (s : BuzzwordManager) (indices : List Int) (h : ∀ i ∈ indices, i ≠ 12) :
    (∃ sq, (markSquares (BuzzwordManager.generateBingoCard shuffle s).1 indices).bingoCard[12]? =
        some sq ∧ sq.isMarked = true) ∧
      12 ∈ (markSquares (BuzzwordManager.generateBingoCard shuffle s).1 indices).markedSquares :=
  BuzzwordManager.markSquares_freeMarked indices _ h
    (BuzzwordManager.generateBingoCard_freeMarked shuffle s)

/-- Witness of C4 amended: the calls `markSquare(3)`, `markSquare(-1)`,
`markSquare(3)`, `markSquare(24)` on a card generated from the fresh dictionary. -/
theorem free_square_stays_marked_witness :
    (∀ i ∈ [(3 : Int), -1, 3, 24], i ≠ 12) ∧
    (∃ sq, (markSquares (BuzzwordManager.generateBingoCard id BuzzwordManager.constructor).1
        [3, -1, 3, 24]).bingoCard[12]? = some sq ∧ sq.isMarked = true) ∧
      12 ∈ (markSquares (BuzzwordManager.generateBingoCard id BuzzwordManager.constructor).1
        [3, -1, 3, 24]).markedSquares :=
  ⟨by decide, free_square_stays_marked id BuzzwordManager.constructor [3, -1, 3, 24] (by decide)⟩

/-! ### Consistency of the marked set -/

theorem nodup_setAdd {α : Type} [DecidableEq α] (l : List α) (x : α) (h : l.Nodup) :
    (setAdd l x).Nodup := by
  unfold setAdd
  by_cases hx : x ∈ l
  · rw [if_pos hx]; exact h
  · rw [if_neg hx]
    rw [List.nodup_append]
    refine ⟨h, List.nodup_singleton x, ?_⟩
    intro a ha hb
    rw [List.mem_singleton] at hb
    exact hx (hb ▸ ha)

theorem nodup_setDelete {α : Type} [DecidableEq α] (l : List α) (x : α) (h : l.Nodup) :
    (setDelete l x).Nodup :=
  List.Nodup.filter _ h

theorem length_filter_eq_range (p : BingoSquare → Bool) (l : List BingoSquare) :
    (l.filter p).length =
      ((List.range l.length).filter (fun i =>
        match l[i]? with
        | some a => p a
        | none => false)).length := by
  induction l using List.reverseRecOn with
  | nil => rfl
  | append_singleton l a ih =>
    rw [List.filter_append, List.length_append, List.length_append, List.length_singleton,
      List.range_succ, List.filter_append, List.length_append, ih]
    congr 1
    · congr 1
      apply List.filter_congr
      intro i hi
      rw [List.mem_range] at hi
      rw [List.getElem?_append_left hi]
    · simp only [List.filter_singleton]
      have : (l ++ [a])[l.length]? = some a := by simp
      rw [this]
      simp only []
      cases hp : p a <;> rfl

theorem length_eq_of_nodup_of_consistent (s : BuzzwordManager) (hn : s.markedSquares.Nodup)
    (hc : MarkedConsistent s) :
    s.markedSquares.length = (s.bingoCard.filter (fun sq => sq.isMarked)).length := by
  rw [length_filter_eq_range]
  apply List.Perm.length_eq
  rw [List.perm_ext_iff_of_nodup hn (List.Nodup.filter _ (List.nodup_range _))]
  intro i
  rw [hc i, List.mem_filter, List.mem_range]
  constructor
  · rintro ⟨sq, h1, h2⟩
    have hlt : i < s.bingoCard.length := by
      by_contra hge
      rw [List.getElem?_eq_none (by omega)] at h1
      simp at h1
    refine ⟨hlt, ?_⟩
    rw [h1]; exact h2
  · rintro ⟨h1, h2⟩
    rw [List.getElem?_eq_getElem h1] at h2
    exact ⟨s.bingoCard[i], List.getElem?_eq_getElem h1, h2⟩

namespace BuzzwordManager

theorem initializeDefaultBuzzwords_card (s : BuzzwordManager) :
    (initializeDefaultBuzzwords s).bingoCard = s.bingoCard ∧
      (initializeDefaultBuzzwords s).markedSquares = s.markedSquares ∧
      (initializeDefaultBuzzwords s).customBuzzwords = s.customBuzzwords := by
  unfold initializeDefaultBuzzwords
  induction DEFAULT_BUZZWORDS generalizing s with
  | nil => exact ⟨rfl, rfl, rfl⟩
  | cons w rest ih =>
    rw [List.foldl_cons]
    exact ih _

theorem constructor_consistent :
    constructor.markedSquares.Nodup ∧ MarkedConsistent constructor := by
  obtain ⟨h1, h2, _⟩ := initializeDefaultBuzzwords_card ⟨[], [], [], []⟩
  unfold MarkedConsistent constructor
  rw [h1, h2]
  simp

theorem generateBingoCard_consistent (shuffle : List BuzzwordData → List BuzzwordData)
    (s : BuzzwordManager) :
    (generateBingoCard shuffle s).1.markedSquares.Nodup ∧
      MarkedConsistent (generateBingoCard shuffle s).1 := by
  obtain ⟨sq, h2, _, h3⟩ := generateBingoCard_getElem?_twelve shuffle s
  constructor
  · rw [generateBingoCard_markedSquares]; exact List.nodup_singleton 12
  · intro i
    rw [generateBingoCard_markedSquares, List.mem_singleton]
    constructor
    · intro hi
      rw [hi]
      exact ⟨sq, h2, h3⟩
    · rintro ⟨sq1, hs1, hs2⟩
      have hm := (generateBingoCard_getElem? shuffle s i sq1 hs1).2.2
      rw [hs2] at hm
      exact of_decide_eq_true hm.symm

theorem markSquare_consistent (s : BuzzwordManager) (index : Int)
    (hn : s.markedSquares.Nodup) (hc : MarkedConsistent s) :
    (markSquare s index).1.markedSquares.Nodup ∧ MarkedConsistent (markSquare s index).1 := by
  rcases markSquare_cases s index with h1 | ⟨sq, h0, _, hsq, hcard, hm⟩
  · rw [h1]; exact ⟨hn, hc⟩
  · constructor
    · rw [hm]
      split
      · exact nodup_setAdd _ _ hn
      · exact nodup_setDelete _ _ hn
    · intro j
      by_cases hj : (j : Int) = index
      · have hj2 : index.toNat = j := by rw [← hj]; rfl
        have hlt : j < s.bingoCard.length := by
          by_contra hge
          rw [hj2, List.getElem?_eq_none (by omega)] at hsq
          simp at hsq
        rw [hm, hcard, hj2, List.getElem?_set_self hlt]
        by_cases hb : (!sq.isMarked) = true
        · simp [hb, mem_setAdd]
        · simp [hb, mem_setDelete]
      · rw [markSquare_mem_of_ne s index j hj, markSquare_getElem?_of_ne s index j hj]
        exact hc j

theorem mem_foldl_enumFrom (l : List BingoSquare) (n : Nat) (acc : List Nat) (i : Nat) :
    i ∈ (l.enumFrom n).foldl (fun ms e => if e.2.isFree then setAdd ms e.1 else ms) acc ↔
      i ∈ acc ∨ ∃ k sq, l[k]? = some sq ∧ sq.isFree = true ∧ i = n + k := by
  induction l generalizing n acc with
  | nil => simp
  | cons a rest ih =>
    rw [List.enumFrom_cons, List.foldl_cons, ih]
    constructor
    · rintro (h | ⟨k, sq, h1, h2, h3⟩)
      · by_cases ha : a.isFree = true
        · simp only [ha, if_true, mem_setAdd] at h
          rcases h with h | h
          · exact Or.inl h
          · exact Or.inr ⟨0, a, by simp, ha, by omega⟩
        · simp only [ha] at h
          exact Or.inl h
      · exact Or.inr ⟨k + 1, sq, by simpa using h1, h2, by omega⟩
    · rintro (h | ⟨k, sq, h1, h2, h3⟩)
      · left
        by_cases ha : a.isFree = true
        · simp only [ha, if_true, mem_setAdd]
          exact Or.inl h
        · simp only [ha]
          exact h
      · cases k with
        | zero =>
          left
          simp only [List.getElem?_cons_zero, Option.some.injEq] at h1
          subst h1
          simp only [h2, if_true, mem_setAdd]
          right; omega
        | succ k =>
          right
          exact ⟨k, sq, by simpa using h1, h2, by omega⟩

theorem nodup_foldl_enumFrom (l : List BingoSquare) (n : Nat) (acc : List Nat)
    (h : acc.Nodup) :
    ((l.enumFrom n).foldl (fun ms e => if e.2.isFree then setAdd ms e.1 else ms) acc).Nodup := by
  induction l generalizing n acc with
  | nil => exact h
  | cons a rest ih =>
    rw [List.enumFrom_cons, List.foldl_cons]
    apply ih
    split
    · exact nodup_setAdd _ _ h
    · exact h

theorem resetBingoCard_mem (s : BuzzwordManager) (i : Nat) :
    i ∈ (resetBingoCard s).markedSquares ↔
      ∃ sq, s.bingoCard[i]? = some sq ∧ sq.isFree = true := by
  unfold resetBingoCard
  simp only [List.enum]
  rw [mem_foldl_enumFrom]
  constructor
  · rintro (h | ⟨k, sq, h1, h2, h3⟩)
    · simp at h
    · refine ⟨sq, ?_, h2⟩
      rw [h3, Nat.zero_add]; exact h1
  · rintro ⟨sq, h1, h2⟩
    exact Or.inr ⟨i, sq, h1, h2, by omega⟩

theorem resetBingoCard_getElem? (s : BuzzwordManager) (i : Nat) :
    (resetBingoCard s).bingoCard[i]? =
      (s.bingoCard[i]?).map (fun sq =>
        ({ word := sq.word, isFree := sq.isFree, isMarked := sq.isFree } : BingoSquare)) := by
  unfold resetBingoCard
  simp only [List.getElem?_map]
  cases s.bingoCard[i]? with
  | none => rfl
  | some sq =>
    simp only [Option.map_some', Option.some.injEq]
    by_cases h : sq.isFree = true
    · simp [h]
    · simp only [h]
      simp at h
      simp [h]

theorem resetBingoCard_consistent (s : BuzzwordManager) :
    (resetBingoCard s).markedSquares.Nodup ∧ MarkedConsistent (resetBingoCard s) := by
  constructor
  · unfold resetBingoCard
    exact nodup_foldl_enumFrom _ _ _ List.nodup_nil
  · intro i
    rw [resetBingoCard_mem, resetBingoCard_getElem?]
    constructor
    · rintro ⟨sq, h1, h2⟩
      exact ⟨_, by rw [h1]; rfl, h2⟩
    · rintro ⟨sq, h1, h2⟩
      cases hsq : s.bingoCard[i]? with
      | none => rw [hsq] at h1; simp at h1
      | some sq0 =>
        rw [hsq] at h1
        simp only [Option.map_some', Option.some.injEq] at h1
        subst h1
        exact ⟨sq0, rfl, h2⟩

theorem runCardOps_consistent (ops : List CardOp) (s : BuzzwordManager)
    (hn : s.markedSquares.Nodup) (hc : MarkedConsistent s) :
    (runCardOps s ops).markedSquares.Nodup ∧ MarkedConsistent (runCardOps s ops) := by
  induction ops generalizing s with
  | nil => exact ⟨hn, hc⟩
  | cons op rest ih =>
    unfold runCardOps
    rw [List.foldl_cons]
    cases op with
    | generate shuffle =>
      exact ih _ (generateBingoCard_consistent shuffle s).1 (generateBingoCard_consistent shuffle s).2
    | mark index =>
      exact ih _ (markSquare_consistent s index hn hc).1 (markSquare_consistent s index hn hc).2
    | reset =>
      exact ih _ (resetBingoCard_consistent s).1 (resetBingoCard_consistent s).2

end BuzzwordManager

/-- C5: in every state reached from the constructor by any sequence of
`generateBingoCard` (any outcome of the sort), `markSquare` (any integer index)
and `resetBingoCard`, an index is in `markedSquares` iff the card has a square
at that index and that square has `isMarked = true`; and `getMarkedCount` is the
number of squares with `isMarked = true`. -/
theorem marked_set_consistent (ops : List CardOp) :
    (∀ i, i ∈ (runCardOps BuzzwordManager.constructor ops).markedSquares ↔
      ∃ sq, (runCardOps BuzzwordManager.constructor ops).bingoCard[i]? = some sq ∧
        sq.isMarked = true) ∧
    BuzzwordManager.getMarkedCount (runCardOps BuzzwordManager.constructor ops) =
      ((runCardOps BuzzwordManager.constructor ops).bingoCard.filter
        (fun sq => sq.isMarked)).length := by
  obtain ⟨hn, hc⟩ := BuzzwordManager.runCardOps_consistent ops BuzzwordManager.constructor
    BuzzwordManager.constructor_consistent.1 BuzzwordManager.constructor_consistent.2
  exact ⟨hc, length_eq_of_nodup_of_consistent _ hn hc⟩

/-! ### Reset -/

namespace BuzzwordManager

theorem generateBingoCard_shape (shuffle : List BuzzwordData → List BuzzwordData)
    (s : BuzzwordManager) : CardShape (generateBingoCard shuffle s).1 := by
  refine ⟨generateBingoCard_length shuffle s, ?_⟩
  intro i sq h
  rw [(generateBingoCard_getElem? shuffle s i sq h).2.1]
  simp

theorem markSquare_shape (s : BuzzwordManager) (index : Int) (hs : CardShape s) :
    CardShape (markSquare s index).1 := by
  rcases markSquare_cases s index with h1 | ⟨sq, h0, _, hsq, hcard, _⟩
  · rw [h1]; exact hs
  · refine ⟨by rw [markSquare_length]; exact hs.1, ?_⟩
    intro i sq1 h
    by_cases hi : (i : Int) = index
    · have hi2 : index.toNat = i := by rw [← hi]; rfl
      rw [hi2] at hsq hcard
      have hlt : i < s.bingoCard.length := by
        by_contra hge
        rw [List.getElem?_eq_none (by omega)] at hsq
        simp at hsq
      rw [hcard, List.getElem?_set_self hlt] at h
      simp only [Option.some.injEq] at h
      subst h
      exact hs.2 i sq hsq
    · rw [markSquare_getElem?_of_ne s index i hi] at h
      exact hs.2 i sq1 h

theorem resetBingoCard_shape (s : BuzzwordManager) (hs : CardShape s) :
    CardShape (resetBingoCard s) := by
  constructor
  · unfold resetBingoCard
    simpa using hs.1
  · intro i sq h
    rw [resetBingoCard_getElem?] at h
    cases hsq : s.bingoCard[i]? with
    | none => rw [hsq] at h; simp at h
    | some sq0 =>
      rw [hsq] at h
      simp only [Option.map_some', Option.some.injEq] at h
      subst h
      exact hs.2 i sq0 hsq

theorem runCardOps_shape (ops : List CardOp) (s : BuzzwordManager) (hs : CardShape s) :
    CardShape (runCardOps s ops) := by
  induction ops generalizing s with
  | nil => exact hs
  | cons op rest ih =>
    unfold runCardOps
    rw [List.foldl_cons]
    cases op with
    | generate shuffle => exact ih _ (generateBingoCard_shape shuffle s)
    | mark index => exact ih _ (markSquare_shape s index hs)
    | reset => exact ih _ (resetBingoCard_shape s hs)

theorem resetBingoCard_of_shape (s : BuzzwordManager) (hs : CardShape s) :
    (resetBingoCard s).markedSquares = [12] ∧
    getMarkedCount (resetBingoCard s) = 1 ∧
    (resetBingoCard s).bingoCard.length = 25 ∧
    (∀ i sq, (resetBingoCard s).bingoCard[i]? = some sq →
      ((sq.isFree = true ↔ i = 12) ∧ (sq.isMarked = true ↔ i = 12))) ∧
    (resetBingoCard s).bingoCard.map (fun sq => sq.word) = s.bingoCard.map (fun sq => sq.word) := by
  have hmem : ∀ i, i ∈ (resetBingoCard s).markedSquares ↔ i = 12 := by
    intro i
    rw [resetBingoCard_mem]
    constructor
    · rintro ⟨sq, h1, h2⟩
      exact (hs.2 i sq h1).1 h2
    · intro hi
      have hlt : i < s.bingoCard.length := by rw [hs.1, hi]; decide
      refine ⟨s.bingoCard[i], List.getElem?_eq_getElem hlt, ?_⟩
      exact (hs.2 i _ (List.getElem?_eq_getElem hlt)).2 hi
  have hlist : (resetBingoCard s).markedSquares = [12] := by
    apply List.perm_singleton.mp
    rw [List.perm_ext_iff_of_nodup (resetBingoCard_consistent s).1 (List.nodup_singleton 12)]
    intro i
    rw [hmem i, List.mem_singleton]
  refine ⟨hlist, ?_, (resetBingoCard_shape s hs).1, ?_, ?_⟩
  · unfold getMarkedCount
    rw [hlist]; rfl
  · intro i sq h
    have hf := (resetBingoCard_shape s hs).2 i sq h
    refine ⟨hf, ?_⟩
    rw [resetBingoCard_getElem?] at h
    cases hsq : s.bingoCard[i]? with
    | none => rw [hsq] at h; simp at h
    | some sq0 =>
      rw [hsq] at h
      simp only [Option.map_some', Option.some.injEq] at h
      subst h
      exact hf
  · unfold resetBingoCard
    simp only [List.map_map]
    apply List.map_congr_left
    intro sq _
    simp only [Function.comp]
    split <;> rfl

end BuzzwordManager

/-- C6, as stated, fails: on the manager as constructed, before any card is
generated, `resetBingoCard` leaves the marked set empty and `getMarkedCount()`
is 0, not 1. -/
theorem resetBingoCard_before_generate :
    (BuzzwordManager.resetBingoCard BuzzwordManager.constructor).markedSquares = [] ∧
      BuzzwordManager.getMarkedCount
        (BuzzwordManager.resetBingoCard BuzzwordManager.constructor) = 0 := by
  have h := (BuzzwordManager.initializeDefaultBuzzwords_card ⟨[], [], [], []⟩).1
  have hm : (BuzzwordManager.resetBingoCard BuzzwordManager.constructor).markedSquares = [] := by
    unfold BuzzwordManager.resetBingoCard BuzzwordManager.constructor
    simp only []
    rw [h]
    rfl
  refine ⟨hm, ?_⟩
  unfold BuzzwordManager.getMarkedCount
  rw [hm]
  rfl

/-- C6, amended: once a card has been generated (in any manager state, with
any outcome of the sort), after any further sequence of `generateBingoCard`,
`markSquare` and `resetBingoCard` calls, `resetBingoCard` leaves the marked set
exactly `[12]` and `getMarkedCount()` equal to 1; the card still has 25 squares,
a square is free iff it is at index 12, a square is marked iff it is at index 12,
and the words of the squares are unchanged. -/
theorem resetBingoCard_after_generate (shuffle : List BuzzwordData → List BuzzwordData)
    (s0 : BuzzwordManager) (ops : List CardOp) :
    (BuzzwordManager.resetBingoCard
      (runCardOps (BuzzwordManager.generateBingoCard shuffle s0).1 ops)).markedSquares = [12] ∧
    BuzzwordManager.getMarkedCount (BuzzwordManager.resetBingoCard
      (runCardOps (BuzzwordManager.generateBingoCard shuffle s0).1 ops)) = 1 ∧
    (BuzzwordManager.resetBingoCard
      (runCardOps (BuzzwordManager.generateBingoCard shuffle s0).1 ops)).bingoCard.length = 25 ∧
    (∀ i sq, (BuzzwordManager.resetBingoCard
      (runCardOps (BuzzwordManager.generateBingoCard shuffle s0).1 ops)).bingoCard[i]? = some sq →
      ((sq.isFree = true ↔ i = 12) ∧ (sq.isMarked = true ↔ i = 12))) ∧
    (BuzzwordManager.resetBingoCard
      (runCardOps (BuzzwordManager.generateBingoCard shuffle s0).1 ops)).bingoCard.map
        (fun sq => sq.word) =
      (runCardOps (BuzzwordManager.generateBingoCard shuffle s0).1 ops).bingoCard.map
        (fun sq => sq.word) :=
  BuzzwordManager.resetBingoCard_of_shape _
    (BuzzwordManager.runCardOps_shape ops _ (BuzzwordManager.generateBingoCard_shape shuffle s0))

/-! ## Theorems: strings and maps -/

theorem toNat_ofNat_of_lt (n : Nat) (h : n < 55296) : (Char.ofNat n).toNat = n := by
  unfold Char.ofNat
  rw [dif_pos (Or.inl h)]
  rfl

theorem toLower_toLower (c : Char) : c.toLower.toLower = c.toLower := by
  unfold Char.toLower
  simp only []
  by_cases h : c.toNat ≥ 65 ∧ c.toNat ≤ 90
  · rw [if_pos h]
    have hv : (Char.ofNat (c.toNat + 32)).toNat = c.toNat + 32 :=
      toNat_ofNat_of_lt _ (by omega)
    rw [if_neg]
    rw [hv]; omega
  · rw [if_neg h, if_neg h]

theorem toLowerCase_toLowerCase (s : String) : toLowerCase (toLowerCase s) = toLowerCase s := by
  unfold toLowerCase
  simp only [List.map_map]
  congr 1
  apply List.map_congr_left
  intro c _
  exact toLower_toLower c

theorem mem_of_mem_trimChars (l : List Char) (c : Char) (h : c ∈ trimChars l) : c ∈ l := by
  unfold trimChars at h
  rw [List.mem_reverse] at h
  have h1 := (List.dropWhile_sublist _).subset h
  rw [List.mem_reverse] at h1
  exact (List.dropWhile_sublist _).subset h1

theorem toLowerCase_trim_toLowerCase (s : String) :
    toLowerCase (trim (toLowerCase s)) = trim (toLowerCase s) := by
  unfold toLowerCase trim
  simp only []
  congr 1
  conv => rhs; rw [← List.map_id (trimChars (List.map Char.toLower s.data))]
  apply List.map_congr_left
  intro c hc
  have := mem_of_mem_trimChars _ _ hc
  rw [List.mem_map] at this
  obtain ⟨d, _, hd⟩ := this
  rw [← hd]
  exact toLower_toLower d

theorem mapHas_iff (m : List (String × BuzzwordData)) (k : String) :
    mapHas m k = true ↔ k ∈ m.map (fun e => e.1) := by
  unfold mapHas
  induction m with
  | nil => simp [mapGet]
  | cons e rest ih =>
    obtain ⟨k1, v⟩ := e
    unfold mapGet
    by_cases h : k1 = k
    · simp [h]
    · rw [if_neg h, ih]
      simp [h, Ne.symm h]

theorem mapGet_eq_none_iff (m : List (String × BuzzwordData)) (k : String) :
    mapGet m k = none ↔ k ∉ m.map (fun e => e.1) := by
  rw [← mapHas_iff]
  unfold mapHas
  cases mapGet m k <;> simp

theorem mapGet_append_cons (p r : List (String × BuzzwordData)) (k : String) (v : BuzzwordData)
    (hp : k ∉ p.map (fun e => e.1)) : mapGet (p ++ (k, v) :: r) k = some v := by
  induction p with
  | nil => simp [mapGet]
  | cons e rest ih =>
    obtain ⟨k1, v1⟩ := e
    simp only [List.map_cons, List.mem_cons, not_or] at hp
    simp only [List.cons_append]
    unfold mapGet
    rw [if_neg (Ne.symm hp.1)]
    exact ih hp.2

theorem mapGet_append_of_not_mem (p r : List (String × BuzzwordData)) (k : String)
    (hp : k ∉ p.map (fun e => e.1)) : mapGet (p ++ r) k = mapGet r k := by
  induction p with
  | nil => rfl
  | cons e rest ih =>
    obtain ⟨k1, v1⟩ := e
    simp only [List.map_cons, List.mem_cons, not_or] at hp
    simp only [List.cons_append]
    rw [mapGet, if_neg (Ne.symm hp.1)]
    exact ih hp.2

theorem mapGet_append_of_mem (p r : List (String × BuzzwordData)) (k : String)
    (hp : k ∈ p.map (fun e => e.1)) : mapGet (p ++ r) k = mapGet p k := by
  induction p with
  | nil => simp at hp
  | cons e rest ih =>
    obtain ⟨k1, v1⟩ := e
    simp only [List.cons_append]
    by_cases h : k1 = k
    · rw [mapGet, if_pos h, mapGet, if_pos h]
    · rw [mapGet, if_neg h]
      conv => rhs; rw [mapGet, if_neg h]
      apply ih
      simp only [List.map_cons, List.mem_cons] at hp
      rcases hp with hp | hp
      · exact absurd hp.symm h
      · exact hp

theorem map_replace_of_not_mem (l : List (String × BuzzwordData)) (k : String) (v : BuzzwordData)
    (h : k ∉ l.map (fun e => e.1)) :
    l.map (fun e => if e.1 = k then (k, v) else e) = l := by
  conv => rhs; rw [← List.map_id l]
  apply List.map_congr_left
  intro e he
  have : e.1 ≠ k := by
    intro heq
    apply h
    rw [List.mem_map]
    exact ⟨e, he, heq⟩
  simp [this]

theorem mapSet_append_cons (p r : List (String × BuzzwordData)) (k : String)
    (v w : BuzzwordData) (hp : k ∉ p.map (fun e => e.1)) (hr : k ∉ r.map (fun e => e.1)) :
    mapSet (p ++ (k, v) :: r) k w = p ++ (k, w) :: r := by
  unfold mapSet
  have : mapHas (p ++ (k, v) :: r) k = true := by
    unfold mapHas
    rw [mapGet_append_cons p r k v hp]; rfl
  rw [if_pos this, List.map_append, List.map_cons, map_replace_of_not_mem p k w hp,
    map_replace_of_not_mem r k w hr]
  simp

theorem mapSet_of_not_has (m : List (String × BuzzwordData)) (k : String) (v : BuzzwordData)
    (h : mapHas m k = false) : mapSet m k v = m ++ [(k, v)] := by
  unfold mapSet
  rw [h]; rfl

theorem keys_mapSet_of_has (m : List (String × BuzzwordData)) (k : String) (v : BuzzwordData)
    (h : mapHas m k = true) : (mapSet m k v).map (fun e => e.1) = m.map (fun e => e.1) := by
  unfold mapSet
  rw [if_pos h, List.map_map]
  apply List.map_congr_left
  intro e _
  simp only [Function.comp]
  split
  · rename_i h1; exact h1.symm
  · rfl

namespace BuzzwordManager

theorem wellFormed_mapSet (s : BuzzwordManager) (k : String) (v : BuzzwordData)
    (hk : toLowerCase k = k) (hs : WellFormed s) :
    WellFormed { s with buzzwords := mapSet s.buzzwords k v } := by
  unfold WellFormed at *
  by_cases h : mapHas s.buzzwords k = true
  · constructor
    · simp only []
      rw [keys_mapSet_of_has _ _ _ h]; exact hs.1
    · intro e he
      simp only [mapSet, h, if_true, List.mem_map] at he
      obtain ⟨e0, he0, heq⟩ := he
      split at heq
      · rw [← heq]; exact hk
      · rw [← heq]; exact hs.2 e0 he0
  · simp only [Bool.not_eq_true] at h
    have hnm : k ∉ s.buzzwords.map (fun e => e.1) := by
      rw [← mapHas_iff, h]; simp
    constructor
    · simp only []
      rw [mapSet_of_not_has _ _ _ h, List.map_append, List.nodup_append]
      refine ⟨hs.1, by simp, ?_⟩
      intro a ha hb
      simp only [List.map_cons, List.map_nil, List.mem_singleton] at hb
      exact hnm (hb ▸ ha)
    · intro e he
      simp only [mapSet_of_not_has _ _ _ h, List.mem_append, List.mem_singleton] at he
      rcases he with he | he
      · exact hs.2 e he
      · rw [he]; exact hk

theorem wellFormed_initializeDefaultBuzzwords (s : BuzzwordManager) (hs : WellFormed s) :
    WellFormed (initializeDefaultBuzzwords s) := by
  unfold initializeDefaultBuzzwords
  induction DEFAULT_BUZZWORDS generalizing s with
  | nil => exact hs
  | cons w rest ih =>
    rw [List.foldl_cons]
    exact ih _ (wellFormed_mapSet s _ _ (toLowerCase_toLowerCase w) hs)

theorem wellFormed_constructor : WellFormed constructor := by
  apply wellFormed_initializeDefaultBuzzwords
  exact ⟨List.nodup_nil, by simp⟩

theorem wellFormed_addCustomBuzzword (s : BuzzwordManager) (word : String) (hs : WellFormed s) :
    WellFormed (addCustomBuzzword s word).1 := by
  unfold addCustomBuzzword
  split
  · exact hs
  · simp only []
    split
    · exact hs
    · split
      · have := wellFormed_mapSet s (trim (toLowerCase word))
          { word := trim word, count := 0, isCustom := true, lastDetected := none }
          (toLowerCase_trim_toLowerCase word) hs
        exact this
      · exact hs

end BuzzwordManager

/-! ## Theorems: the pattern of a buzzword -/

theorem parseRegExp_cons_of_ne (c : Char) (l : List Char) (h : c ≠ '\\') :
    parseRegExp (c :: l) = RegexNode.char c :: parseRegExp l := by
  cases l with
  | nil => rfl
  | cons d rest => rw [parseRegExp, if_neg h]

theorem parseRegExp_escaped (c : Char) (l : List Char) (h : c ≠ 'b') :
    parseRegExp ('\\' :: c :: l) = RegexNode.char c :: parseRegExp l := by
  rw [parseRegExp, if_pos rfl, if_neg h]

theorem parseRegExp_escapeRegExp (l rest : List Char) :
    parseRegExp (escapeRegExp l ++ rest) = l.map RegexNode.char ++ parseRegExp rest := by
  induction l with
  | nil => rfl
  | cons c l ih =>
    unfold escapeRegExp
    by_cases hc : isSyntaxChar c = true
    · rw [if_pos hc]
      have hb : c ≠ 'b' := by
        intro h
        rw [h] at hc
        revert hc
        decide
      simp only [List.cons_append, List.map_cons]
      rw [parseRegExp_escaped c _ hb, ih]
    · rw [if_neg hc]
      have hb : c ≠ '\\' := by
        intro h
        rw [h] at hc
        revert hc
        decide
      simp only [List.cons_append, List.map_cons]
      rw [parseRegExp_cons_of_ne c _ hb, ih]

/-- The pattern built for a buzzword reads as: word boundary, the characters of
the buzzword as literals, word boundary. -/
theorem parseRegExp_patternSource (buzzword : String) :
    parseRegExp (patternSource buzzword) =
      RegexNode.wordBoundary ::
        (buzzword.data.map RegexNode.char ++ [RegexNode.wordBoundary]) := by
  unfold patternSource
  simp only [List.cons_append, List.nil_append, List.append_assoc]
  rw [parseRegExp, if_pos rfl, if_pos rfl, parseRegExp_escapeRegExp]
  rfl

theorem le_length_of_isWordBoundary (t : List Char) (i : Nat)
    (h : isWordBoundary t i = true) : i ≤ t.length := by
  by_contra hlt
  have h1 : isWordCharAt t i = false := by
    unfold isWordCharAt
    rw [List.getElem?_eq_none (by omega)]
  have h2 : isWordCharAt t (i - 1) = false := by
    unfold isWordCharAt
    rw [List.getElem?_eq_none (by omega)]
  unfold isWordBoundary at h
  rw [h1, h2] at h
  simp at h

theorem matchNodes_chars (t l : List Char) (ns : List RegexNode) (i : Nat)
    (hi : i ≤ t.length) :
    matchNodes t (l.map RegexNode.char ++ ns) i =
      if (decide (i + l.length ≤ t.length) &&
          ((t.drop i).take l.length).map canonicalize == l.map canonicalize) = true
      then matchNodes t ns (i + l.length) else none := by
  induction l generalizing i with
  | nil => simp [hi]
  | cons c l ih =>
    simp only [List.map_cons, List.cons_append]
    rw [matchNodes]
    cases hti : t[i]? with
    | none =>
      simp only []
      have hlen : t.length ≤ i := by
        by_contra hlt
        rw [List.getElem?_eq_getElem (by omega)] at hti
        simp at hti
      rw [if_neg]
      simp only [List.length_cons, Bool.and_eq_true, decide_eq_true_eq, not_and]
      intro h; omega
    | some d =>
      simp only []
      have hlt : i < t.length := by
        by_contra hge
        rw [List.getElem?_eq_none (by omega)] at hti
        simp at hti
      have hdrop : t.drop i = d :: t.drop (i + 1) := by
        rw [List.drop_eq_getElem_cons hlt]
        congr 1
        rw [List.getElem?_eq_getElem hlt] at hti
        exact Option.some.inj hti
      by_cases hcd : canonicalize d = canonicalize c
      · rw [if_pos hcd, ih (i + 1) (by omega)]
        simp only [List.length_cons, hdrop, List.take_succ_cons, List.map_cons]
        have e1 : i + 1 + l.length = i + (l.length + 1) := by omega
        rw [e1]
        congr 1
        simp [hcd]
      · rw [if_neg hcd, if_neg]
        simp only [List.length_cons, hdrop, List.take_succ_cons, List.map_cons]
        simp [hcd]

/-- The pattern of a buzzword matches at index `i` exactly when the buzzword
occurs there between word boundaries, and the match ends after the buzzword. -/
theorem matchNodes_patternSource (buzzword text : String) (i : Nat) :
    matchNodes text.data (parseRegExp (patternSource buzzword)) i =
      if occursAt buzzword text i = true then some (i + buzzword.data.length) else none := by
  rw [parseRegExp_patternSource, matchNodes]
  unfold occursAt
  by_cases h1 : isWordBoundary text.data i = true
  · rw [if_pos h1, matchNodes_chars _ _ _ _ (le_length_of_isWordBoundary _ _ h1)]
    by_cases h2 : (decide (i + buzzword.data.length ≤ text.data.length) &&
        ((text.data.drop i).take buzzword.data.length).map canonicalize ==
          buzzword.data.map canonicalize) = true
    · rw [if_pos h2, matchNodes]
      by_cases h3 : isWordBoundary text.data (i + buzzword.data.length) = true
      · rw [if_pos h3, matchNodes, h1, h2, h3]; rfl
      · rw [if_neg h3, h1, h2]
        simp only [Bool.not_eq_true] at h3
        rw [h3]; rfl
    · rw [if_neg h2, h1]
      simp only [Bool.not_eq_true] at h2
      rw [h2]; rfl
  · rw [if_neg h1]
    simp only [Bool.not_eq_true] at h1
    rw [h1]; rfl

theorem matchAllFrom_mem (nodes : List RegexNode) (t : List Char) (P : Nat → Bool) (L : Nat)
    (hf : ∀ i, matchNodes t nodes i = if P i = true then some (i + L) else none)
    (fuel i : Nat) (m : Nat × Nat) (hm : m ∈ matchAllFrom nodes t fuel i) :
    i ≤ m.1 ∧ m.1 ≤ t.length ∧ P m.1 = true ∧ m.2 = m.1 + L := by
  induction fuel generalizing i with
  | zero => simp [matchAllFrom] at hm
  | succ fuel ih =>
    rw [matchAllFrom] at hm
    by_cases hlen : t.length < i
    · rw [if_pos hlen] at hm
      simp at hm
    · rw [if_neg hlen, hf i] at hm
      by_cases hp : P i = true
      · rw [if_pos hp] at hm
        simp only [List.mem_cons] at hm
        rcases hm with hm | hm
        · rw [hm]
          exact ⟨Nat.le_refl i, by omega, hp, rfl⟩
        · have := ih _ hm
          refine ⟨?_, this.2⟩
          have h1 := this.1
          split at h1 <;> omega
      · rw [if_neg hp] at hm
        have := ih _ hm
        exact ⟨by omega, this.2⟩

theorem matchAllFrom_pairwise (nodes : List RegexNode) (t : List Char) (P : Nat → Bool) (L : Nat)
    (hf : ∀ i, matchNodes t nodes i = if P i = true then some (i + L) else none)
    (fuel i : Nat) :
    (matchAllFrom nodes t fuel i).Pairwise (fun a b => a.2 ≤ b.1 ∧ a.1 < b.1) := by
  induction fuel generalizing i with
  | zero => simp [matchAllFrom]
  | succ fuel ih =>
    rw [matchAllFrom]
    by_cases hlen : t.length < i
    · rw [if_pos hlen]
      exact List.Pairwise.nil
    · rw [if_neg hlen, hf i]
      by_cases hp : P i = true
      · rw [if_pos hp]
        simp only []
        rw [List.pairwise_cons]
        refine ⟨?_, ih _⟩
        intro b hb
        have h1 := (matchAllFrom_mem nodes t P L hf fuel _ b hb).1
        simp only []
        split at h1 <;> omega
      · rw [if_neg hp]
        exact ih _

theorem matchAllFrom_complete (nodes : List RegexNode) (t : List Char) (P : Nat → Bool) (L : Nat)
    (hf : ∀ i, matchNodes t nodes i = if P i = true then some (i + L) else none)
    (fuel i : Nat) (hfuel : t.length + 1 ≤ fuel + i) (q : Nat) (hq : i ≤ q)
    (hql : q ≤ t.length) (hP : P q = true) :
    (∃ m ∈ matchAllFrom nodes t fuel i, m.1 = q) ∨
      ∃ m ∈ matchAllFrom nodes t fuel i, m.1 < q ∧ q < m.2 := by
  induction fuel generalizing i with
  | zero => omega
  | succ fuel ih =>
    rw [matchAllFrom]
    have hlen : ¬ t.length < i := by omega
    rw [if_neg hlen, hf i]
    by_cases hp : P i = true
    · rw [if_pos hp]
      simp only []
      by_cases hqi : q = i
      · exact Or.inl ⟨(i, i + L), List.mem_cons_self _ _, hqi.symm⟩
      · by_cases hov : q < i + L
        · exact Or.inr ⟨(i, i + L), List.mem_cons_self _ _, by simp only []; omega, hov⟩
        · have hnext : (if i + L = i then i + 1 else i + L) ≤ q := by split <;> omega
          have hfu : t.length + 1 ≤ fuel + (if i + L = i then i + 1 else i + L) := by
            split <;> omega
          rcases ih _ hfu hnext with ⟨m, hm, h1⟩ | ⟨m, hm, h1⟩
          · exact Or.inl ⟨m, List.mem_cons_of_mem _ hm, h1⟩
          · exact Or.inr ⟨m, List.mem_cons_of_mem _ hm, h1⟩
    · rw [if_neg hp]
      have hqi : q ≠ i := by
        intro h; rw [h] at hP; exact hp hP
      rcases ih (i + 1) (by omega) (by omega) with ⟨m, hm, h1⟩ | ⟨m, hm, h1⟩
      · exact Or.inl ⟨m, hm, h1⟩
      · exact Or.inr ⟨m, hm, h1⟩

theorem occursAt_le_length (buzzword text : String) (i : Nat)
    (h : occursAt buzzword text i = true) : i ≤ text.data.length := by
  unfold occursAt at h
  simp only [Bool.and_eq_true] at h
  exact le_length_of_isWordBoundary _ _ h.1.1

/-- The matches `text.match(regex)` yields for the pattern of a buzzword are
the occurrences of the buzzword between word boundaries that a scan from left
to right finds when it resumes after the end of each occurrence it has found:
every match is such an occurrence and ends after the buzzword, the matches are
in increasing order and do not overlap, and every such occurrence either is a
match or starts inside a match that began before it. -/
theorem regexMatches_spec (buzzword text : String) :
    (∀ m ∈ regexMatches buzzword text,
      occursAt buzzword text m.1 = true ∧ m.2 = m.1 + buzzword.data.length) ∧
    (regexMatches buzzword text).Pairwise (fun a b => a.2 ≤ b.1 ∧ a.1 < b.1) ∧
    (∀ i, occursAt buzzword text i = true →
      (∃ m ∈ regexMatches buzzword text, m.1 = i) ∨
        ∃ m ∈ regexMatches buzzword text, m.1 < i ∧ i < m.2) := by
  have hf := matchNodes_patternSource buzzword text
  refine ⟨?_, ?_, ?_⟩
  · intro m hm
    have := matchAllFrom_mem _ _ (occursAt buzzword text) _ hf _ _ m hm
    exact ⟨this.2.2.1, this.2.2.2⟩
  · exact matchAllFrom_pairwise _ _ (occursAt buzzword text) _ hf _ _
  · intro i hi
    exact matchAllFrom_complete _ _ (occursAt buzzword text) _ hf _ _ (by omega) i
      (Nat.zero_le i) (occursAt_le_length _ _ _ hi) hi

theorem regexMatches_empty (buzzword : String) : regexMatches buzzword "" = [] := by
  unfold regexMatches
  rw [parseRegExp_patternSource]
  rfl

/-! ## Theorems: detection -/

namespace BuzzwordManager

theorem incrementCount_append_cons (p r : List (String × BuzzwordData)) (k : String)
    (d : BuzzwordData) (cb : List String) (card : List BingoSquare) (mk : List Nat) (now : Nat)
    (hk : toLowerCase k = k) (hp : k ∉ p.map (fun e => e.1)) (hr : k ∉ r.map (fun e => e.1)) :
    incrementCount ⟨p ++ (k, d) :: r, cb, card, mk⟩ now k =
      (⟨p ++ (k, { d with count := d.count + 1, lastDetected := some now }) :: r, cb, card, mk⟩,
        d.count + 1) := by
  unfold incrementCount
  simp only [hk]
  rw [mapGet_append_cons p r k d hp]
  simp only []
  rw [mapSet_append_cons p r k d _ hp hr]

theorem detectMatch_append_cons (p r : List (String × BuzzwordData)) (k : String)
    (d : BuzzwordData) (cb : List String) (card : List BingoSquare) (mk : List Nat) (now : Nat)
    (text : String) (out : List DetectedWord)
    (hk : toLowerCase k = k) (hp : k ∉ p.map (fun e => e.1)) (hr : k ∉ r.map (fun e => e.1)) :
    detectMatch now text k (⟨p ++ (k, d) :: r, cb, card, mk⟩, out) =
      (⟨p ++ (k, { d with count := d.count + 1, lastDetected := some now }) :: r, cb, card, mk⟩,
        out ++ [{ word := d.word, count := d.count + 1,
                  position := indexOf (toLowerCase text) k }]) := by
  unfold detectMatch
  simp only []
  rw [incrementCount_append_cons p r k d cb card mk now hk hp hr]
  simp only []
  rw [mapGet_append_cons p r k _ hp]

theorem foldl_detectMatch (ms : List (Nat × Nat)) (p r : List (String × BuzzwordData))
    (k : String) (d : BuzzwordData) (cb : List String) (card : List BingoSquare)
    (mk : List Nat) (now : Nat) (text : String) (out : List DetectedWord)
    (hk : toLowerCase k = k) (hp : k ∉ p.map (fun e => e.1)) (hr : k ∉ r.map (fun e => e.1)) :
    ms.foldl (fun a _ => detectMatch now text k a) (⟨p ++ (k, d) :: r, cb, card, mk⟩, out) =
      (⟨p ++ (k, bumped now ms.length d) :: r, cb, card, mk⟩,
        out ++ recordsFor text k d ms.length) := by
  induction ms generalizing d out with
  | nil => simp [bumped, recordsFor]
  | cons m ms ih =>
    rw [List.foldl_cons, detectMatch_append_cons p r k d cb card mk now text out hk hp hr, ih]
    congr 1
    · congr 2
      unfold bumped
      simp only [List.length_cons, Nat.add_one_ne_zero, if_false]
      split
      · rename_i h0; simp [h0]
      · simp; omega
    · unfold recordsFor
      simp only [List.length_cons]
      rw [List.range_succ_eq_map, List.map_cons, List.map_map, List.append_assoc]
      congr 1
      simp only [List.singleton_append, Nat.zero_add]
      congr 1
      apply List.map_congr_left
      intro j _
      simp only [Function.comp]
      congr 1
      omega

/-- The entry under `e.1` after the matches of `text` have been counted. -/
theorem foldl_detectEntry (r p : List (String × BuzzwordData)) (cb : List String)
    (card : List BingoSquare) (mk : List Nat) (now : Nat) (text : String)
    (out : List DetectedWord)
    (hn : ((p ++ r).map (fun e => e.1)).Nodup) (hl : ∀ e ∈ r, toLowerCase e.1 = e.1) :
    (r.map (fun e => e.1)).foldl (detectEntry now text) (⟨p ++ r, cb, card, mk⟩, out) =
      (⟨p ++ r.map (fun e => (e.1, bumped now (matchCount e.1 text) e.2)), cb, card, mk⟩,
        out ++ (r.map (fun e => recordsFor text e.1 e.2 (matchCount e.1 text))).flatten) := by
  induction r generalizing p out with
  | nil => simp
  | cons e r ih =>
    obtain ⟨k, d⟩ := e
    rw [List.map_cons, List.foldl_cons]
    have hk : toLowerCase k = k := hl (k, d) (List.mem_cons_self _ _)
    rw [List.map_append, List.map_cons, List.nodup_append] at hn
    obtain ⟨hn1, hn2, hn3⟩ := hn
    rw [List.nodup_cons] at hn2
    have hp : k ∉ p.map (fun e => e.1) := fun h => hn3 h (List.mem_cons_self _ _)
    unfold detectEntry
    rw [foldl_detectMatch _ p r k d cb card mk now text out hk hp hn2.1]
    have := ih (p ++ [(k, bumped now (regexMatches k text).length d)])
      (out ++ recordsFor text k d (regexMatches k text).length) ?_ ?_
    · simp only [List.append_assoc, List.singleton_append] at this
      unfold detectEntry at this
      rw [this]
      simp [matchCount]
    · simp only [List.append_assoc, List.singleton_append, List.map_append, List.map_cons]
      rw [List.nodup_append]
      refine ⟨hn1, List.nodup_cons.mpr hn2, hn3⟩
    · intro e he
      exact hl e (List.mem_cons_of_mem _ he)

/-- The closed form of `detectBuzzwords` on a well-formed dictionary: every
entry has the number of matches of its key added to its count (and the time
written when that number is not 0), the keys and their order are as before, and
the records are, entry after entry, the records of its matches. -/
theorem detectBuzzwords_eq (s : BuzzwordManager) (now : Nat) (text : String)
    (hs : WellFormed s) :
    detectBuzzwords s now text =
      ({ s with
         buzzwords := s.buzzwords.map
           (fun e => (e.1, bumped now (matchCount e.1 text) e.2)) },
       (s.buzzwords.map (fun e => recordsFor text e.1 e.2 (matchCount e.1 text))).flatten) := by
  unfold detectBuzzwords
  by_cases ht : text = ""
  · rw [if_pos ht, ht]
    have h0 : ∀ k, matchCount k "" = 0 := by
      intro k; unfold matchCount; rw [regexMatches_empty]; rfl
    simp only [h0, bumped, if_true, recordsFor, List.range_zero, List.map_nil]
    congr 1
    · simp
    · induction s.buzzwords with
      | nil => rfl
      | cons e r ih => simp
  · rw [if_neg ht]
    have := foldl_detectEntry s.buzzwords [] s.customBuzzwords s.bingoCard s.markedSquares now
      text [] (by simpa using hs.1) hs.2
    simpa using this

theorem mapGet_map_value (m : List (String × BuzzwordData))
    (g : String → BuzzwordData → BuzzwordData) (k : String) :
    mapGet (m.map (fun e => (e.1, g e.1 e.2))) k = (mapGet m k).map (g k) := by
  induction m with
  | nil => rfl
  | cons e r ih =>
    obtain ⟨k1, v⟩ := e
    simp only [List.map_cons]
    by_cases h : k1 = k
    · rw [mapGet, if_pos h, mapGet, if_pos h, h]; rfl
    · rw [mapGet, if_neg h, ih]
      conv => rhs; rw [mapGet, if_neg h]

theorem bumped_count (now n : Nat) (d : BuzzwordData) : (bumped now n d).count = d.count + n := by
  unfold bumped
  split
  · rename_i h; rw [h]; rfl
  · rfl

theorem detectBuzzwords_buzzwords (s : BuzzwordManager) (now : Nat) (text : String)
    (hs : WellFormed s) :
    (detectBuzzwords s now text).1.buzzwords =
      s.buzzwords.map (fun e => (e.1, bumped now (matchCount e.1 text) e.2)) := by
  rw [detectBuzzwords_eq s now text hs]

theorem detectBuzzwords_keys (s : BuzzwordManager) (now : Nat) (text : String)
    (hs : WellFormed s) :
    (detectBuzzwords s now text).1.buzzwords.map (fun e => e.1) =
      s.buzzwords.map (fun e => e.1) := by
  rw [detectBuzzwords_buzzwords s now text hs, List.map_map]
  rfl

theorem detectBuzzwords_mapHas (s : BuzzwordManager) (now : Nat) (text : String)
    (hs : WellFormed s) (k : String) :
    mapHas (detectBuzzwords s now text).1.buzzwords k = mapHas s.buzzwords k := by
  rw [Bool.eq_iff_iff, mapHas_iff, mapHas_iff, detectBuzzwords_keys s now text hs]

theorem wellFormed_detectBuzzwords (s : BuzzwordManager) (now : Nat) (text : String)
    (hs : WellFormed s) : WellFormed (detectBuzzwords s now text).1 := by
  constructor
  · rw [detectBuzzwords_keys s now text hs]; exact hs.1
  · intro e he
    rw [detectBuzzwords_buzzwords s now text hs, List.mem_map] at he
    obtain ⟨e0, he0, heq⟩ := he
    rw [← heq]
    exact hs.2 e0 he0

/-- The count of a word after `detectBuzzwords`: the count before, plus the
number of matches of its key when the key is in the dictionary. -/
theorem getCount_detectBuzzwords (s : BuzzwordManager) (now : Nat) (text : String)
    (hs : WellFormed s) (word : String) :
    getCount (detectBuzzwords s now text).1 word =
      getCount s word +
        (if mapHas s.buzzwords (toLowerCase word) = true
         then matchCount (toLowerCase word) text else 0) := by
  unfold getCount
  rw [detectBuzzwords_buzzwords s now text hs,
    mapGet_map_value s.buzzwords (fun k d => bumped now (matchCount k text) d)]
  unfold mapHas
  cases mapGet s.buzzwords (toLowerCase word) with
  | none => rfl
  | some d =>
    simp only [Option.map_some', Option.isSome_some, if_true]
    exact bumped_count _ _ _

theorem toLowerCase_of_mapHas (s : BuzzwordManager) (hs : WellFormed s) (k : String)
    (hk : mapHas s.buzzwords k = true) : toLowerCase k = k := by
  rw [mapHas_iff, List.mem_map] at hk
  obtain ⟨e, he, heq⟩ := hk
  rw [← heq]
  exact hs.2 e he

end BuzzwordManager

/-! ## Theorems: well-formedness is kept by the other methods of the dictionary -/

namespace BuzzwordManager

theorem wellFormed_removeBuzzword (s : BuzzwordManager) (word : String) (hs : WellFormed s) :
    WellFormed (removeBuzzword s word).1 := by
  unfold removeBuzzword
  simp only []
  split
  · split
    · constructor
      · simp only [mapDelete]
        exact List.Nodup.sublist (List.Sublist.map _ (List.filter_sublist _)) hs.1
      · intro e he
        simp only [mapDelete] at he
        exact hs.2 e (List.mem_filter.mp he).1
    · exact hs
  · exact hs

theorem wellFormed_resetCounts (s : BuzzwordManager) (hs : WellFormed s) :
    WellFormed (resetCounts s) := by
  unfold resetCounts
  constructor
  · simp only [List.map_map]
    exact hs.1
  · intro e he
    simp only [List.mem_map] at he
    obtain ⟨e0, he0, heq⟩ := he
    rw [← heq]
    exact hs.2 e0 he0

end BuzzwordManager

/-! ## Theorems: the claims on the dictionary -/

namespace BuzzwordManager

theorem length_eq_zero_iff_eq_empty (k : String) : k.length = 0 ↔ k = "" := by
  constructor
  · intro h
    have : k.data = [] := List.length_eq_zero.mp h
    exact String.ext this
  · intro h; rw [h]; rfl

theorem addCustomBuzzword_of_new (s : BuzzwordManager) (word : String)
    (h1 : trim (toLowerCase word) ≠ "")
    (h2 : mapHas s.buzzwords (trim (toLowerCase word)) = false) :
    addCustomBuzzword s word =
      ({ s with
         buzzwords := s.buzzwords ++
           [(trim (toLowerCase word),
             { word := trim word, count := 0, isCustom := true, lastDetected := none })],
         customBuzzwords := setAdd s.customBuzzwords (trim (toLowerCase word)) }, true) := by
  have hw : word ≠ "" := by
    intro h
    apply h1
    rw [h]
    rfl
  have hl : ¬ (trim (toLowerCase word)).length = 0 := by
    rw [length_eq_zero_iff_eq_empty]; exact h1
  unfold addCustomBuzzword
  rw [if_neg hw]
  simp only []
  rw [if_neg hl, h2, mapSet_of_not_has _ _ _ h2]
  rfl

theorem addCustomBuzzword_of_has (s : BuzzwordManager) (word : String)
    (h : mapHas s.buzzwords (trim (toLowerCase word)) = true) :
    addCustomBuzzword s word = (s, false) := by
  unfold addCustomBuzzword
  split
  · rfl
  · simp only []
    split
    · rfl
    · rw [h]; rfl

theorem addCustomBuzzword_of_empty (s : BuzzwordManager) (word : String)
    (h : trim (toLowerCase word) = "") : addCustomBuzzword s word = (s, false) := by
  unfold addCustomBuzzword
  split
  · rfl
  · simp only []
    rw [if_pos ((length_eq_zero_iff_eq_empty _).mpr h)]

theorem addCustomBuzzword_mapHas (s : BuzzwordManager) (word k : String)
    (h : mapHas s.buzzwords k = true) : mapHas (addCustomBuzzword s word).1.buzzwords k = true := by
  by_cases h1 : trim (toLowerCase word) = ""
  · rw [addCustomBuzzword_of_empty s word h1]; exact h
  · by_cases h2 : mapHas s.buzzwords (trim (toLowerCase word)) = true
    · rw [addCustomBuzzword_of_has s word h2]; exact h
    · simp only [Bool.not_eq_true] at h2
      rw [addCustomBuzzword_of_new s word h1 h2]
      simp only []
      rw [mapHas_iff] at h ⊢
      rw [List.map_append]
      exact List.mem_append_left _ h

theorem addCustomBuzzwords_mapHas (words : List String) (s : BuzzwordManager) (k : String)
    (h : mapHas s.buzzwords k = true) : mapHas (addCustomBuzzwords s words).buzzwords k = true := by
  induction words generalizing s with
  | nil => exact h
  | cons w rest ih =>
    unfold addCustomBuzzwords
    rw [List.foldl_cons]
    exact ih _ (addCustomBuzzword_mapHas s w k h)

end BuzzwordManager

/-- C10: `addCustomBuzzword(w)` returns true exactly when the lower-cased,
trimmed `w` is not empty and is not a key of the dictionary.  When it returns
true, one entry is appended under that key, with the trimmed `w` as its word,
`isCustom = true` and count 0, every other key reads as before, the number of
entries grows by one, the key is added to the custom set, and the card is
untouched.  When it returns false the state is unchanged.  After a successful
add, and after any further `addCustomBuzzword` calls, a call with a word that
normalizes to the same key returns false and changes nothing. -/
theorem addCustomBuzzword_spec (s : BuzzwordManager) (word : String) :
    ((BuzzwordManager.addCustomBuzzword s word).2 = true ↔
      (trim (toLowerCase word) ≠ "" ∧ mapHas s.buzzwords (trim (toLowerCase word)) = false)) ∧
    ((BuzzwordManager.addCustomBuzzword s word).2 = true →
      (BuzzwordManager.addCustomBuzzword s word).1.buzzwords =
        s.buzzwords ++ [(trim (toLowerCase word),
          { word := trim word, count := 0, isCustom := true, lastDetected := none })] ∧
      mapGet (BuzzwordManager.addCustomBuzzword s word).1.buzzwords (trim (toLowerCase word)) =
        some { word := trim word, count := 0, isCustom := true, lastDetected := none } ∧
      (∀ k, k ≠ trim (toLowerCase word) →
        mapGet (BuzzwordManager.addCustomBuzzword s word).1.buzzwords k = mapGet s.buzzwords k) ∧
      (BuzzwordManager.addCustomBuzzword s word).1.buzzwords.length = s.buzzwords.length + 1 ∧
      (BuzzwordManager.addCustomBuzzword s word).1.customBuzzwords =
        setAdd s.customBuzzwords (trim (toLowerCase word)) ∧
      (BuzzwordManager.addCustomBuzzword s word).1.bingoCard = s.bingoCard ∧
      (BuzzwordManager.addCustomBuzzword s word).1.markedSquares = s.markedSquares) ∧
    ((BuzzwordManager.addCustomBuzzword s word).2 = false →
      (BuzzwordManager.addCustomBuzzword s word).1 = s) ∧
    ((BuzzwordManager.addCustomBuzzword s word).2 = true →
      ∀ (later : List String) (word2 : String),
        trim (toLowerCase word2) = trim (toLowerCase word) →
        BuzzwordManager.addCustomBuzzword
          (addCustomBuzzwords (BuzzwordManager.addCustomBuzzword s word).1 later) word2 =
          (addCustomBuzzwords (BuzzwordManager.addCustomBuzzword s word).1 later, false)) := by
  by_cases h1 : trim (toLowerCase word) = ""
  · rw [BuzzwordManager.addCustomBuzzword_of_empty s word h1]
    simp [h1]
  · by_cases h2 : mapHas s.buzzwords (trim (toLowerCase word)) = true
    · rw [BuzzwordManager.addCustomBuzzword_of_has s word h2]
      simp [h2]
    · simp only [Bool.not_eq_true] at h2
      have hnm : trim (toLowerCase word) ∉ s.buzzwords.map (fun e => e.1) := by
        rw [← mapHas_iff, h2]; simp
      rw [BuzzwordManager.addCustomBuzzword_of_new s word h1 h2]
      refine ⟨by simp [h1, h2], fun _ => ⟨rfl, ?_, ?_, by simp, rfl, rfl, rfl⟩, by simp, ?_⟩
      · simp only []
        have := mapGet_append_cons s.buzzwords [] (trim (toLowerCase word))
          { word := trim word, count := 0, isCustom := true, lastDetected := none } hnm
        exact this
      · intro k hk
        simp only []
        by_cases hmem : k ∈ s.buzzwords.map (fun e => e.1)
        · exact mapGet_append_of_mem _ _ _ hmem
        · rw [mapGet_append_of_not_mem _ _ _ hmem, (mapGet_eq_none_iff _ _).mpr hmem]
          rw [mapGet, if_neg (Ne.symm hk)]
          rfl
      · intro _ later word2 hw2
        apply BuzzwordManager.addCustomBuzzword_of_has
        rw [hw2]
        apply BuzzwordManager.addCustomBuzzwords_mapHas
        simp only []
        rw [mapHas_iff, List.map_append]
        exact List.mem_append_right _ (by simp)

set_option maxRecDepth 1000000 in
theorem constructor_not_has_hello :
    mapHas BuzzwordManager.constructor.buzzwords (trim (toLowerCase "  Hello World ")) = false := by
  decide

/-- Witness of C10: `"  Hello World "` is added to the fresh dictionary, after
which `"HELLO world"` is refused. -/
theorem addCustomBuzzword_spec_witness :
    (BuzzwordManager.addCustomBuzzword BuzzwordManager.constructor "  Hello World ").2 = true ∧
    BuzzwordManager.addCustomBuzzword
      (addCustomBuzzwords
        (BuzzwordManager.addCustomBuzzword BuzzwordManager.constructor "  Hello World ").1
        ["smart", "brand new"]) "HELLO world" =
      (addCustomBuzzwords
        (BuzzwordManager.addCustomBuzzword BuzzwordManager.constructor "  Hello World ").1
        ["smart", "brand new"], false) :=
  have h : (BuzzwordManager.addCustomBuzzword BuzzwordManager.constructor "  Hello World ").2 =
      true :=
    (addCustomBuzzword_spec BuzzwordManager.constructor "  Hello World ").1.mpr
      ⟨by decide, constructor_not_has_hello⟩
  ⟨h, (addCustomBuzzword_spec BuzzwordManager.constructor "  Hello World ").2.2.2 h
    ["smart", "brand new"] "HELLO world" (by decide)⟩

set_option maxRecDepth 1000000 in
/-- C7, as stated, fails: with the custom buzzword "ha ha" added to the fresh
dictionary, the text "ha ha ha" holds two occurrences of "ha ha" between word
boundaries (at indices 0 and 3), and `detectBuzzwords` raises the count of
"ha ha" from 0 to 1. -/
theorem detectBuzzwords_overlapping :
    (BuzzwordManager.addCustomBuzzword BuzzwordManager.constructor "ha ha").2 = true ∧
    BuzzwordManager.getCount
      (BuzzwordManager.addCustomBuzzword BuzzwordManager.constructor "ha ha").1 "ha ha" = 0 ∧
    BuzzwordManager.getCount
      (BuzzwordManager.detectBuzzwords
        (BuzzwordManager.addCustomBuzzword BuzzwordManager.constructor "ha ha").1 0
        "ha ha ha").1 "ha ha" = 1 ∧
    (occursAt "ha ha" "ha ha ha" 0 = true ∧ occursAt "ha ha" "ha ha ha" 3 = true) ∧
    occurrences "ha ha" "ha ha ha" = 2 := by
  decide

/-- C7, amended: on a well-formed dictionary, for every text and every key of
the dictionary, `detectBuzzwords` increases the count of that entry by exactly
the number of matches of the key, and the matches are the occurrences of the
key between word boundaries, case being ignored, that a scan from left to right
finds when it resumes after the end of each occurrence found: each match is such
an occurrence, the matches do not overlap, and an occurrence that is not a match
starts inside a match that began before it.  An occurrence inside a longer word
is not between word boundaries: "agentic workflows" leaves the count of "agent"
unchanged, "our agent is great" increases it by exactly 1. -/
theorem detectBuzzwords_count (s : BuzzwordManager) (now : Nat) (text k : String)
    (hs : WellFormed s) (hk : mapHas s.buzzwords k = true) :
    BuzzwordManager.getCount (BuzzwordManager.detectBuzzwords s now text).1 k =
      BuzzwordManager.getCount s k + (regexMatches k text).length ∧
    (∀ m ∈ regexMatches k text, occursAt k text m.1 = true ∧ m.2 = m.1 + k.data.length) ∧
    (regexMatches k text).Pairwise (fun a b => a.2 ≤ b.1 ∧ a.1 < b.1) ∧
    (∀ i, occursAt k text i = true →
      (∃ m ∈ regexMatches k text, m.1 = i) ∨
        ∃ m ∈ regexMatches k text, m.1 < i ∧ i < m.2) ∧
    BuzzwordManager.getCount (BuzzwordManager.detectBuzzwords s now "agentic workflows").1
      "agent" = BuzzwordManager.getCount s "agent" ∧
    (mapHas s.buzzwords "agent" = true →
      BuzzwordManager.getCount (BuzzwordManager.detectBuzzwords s now "our agent is great").1
        "agent" = BuzzwordManager.getCount s "agent" + 1) := by
  have hlow := BuzzwordManager.toLowerCase_of_mapHas s hs k hk
  obtain ⟨h1, h2, h3⟩ := regexMatches_spec k text
  refine ⟨?_, h1, h2, h3, ?_, ?_⟩
  · rw [BuzzwordManager.getCount_detectBuzzwords s now text hs k, hlow, if_pos hk]
    rfl
  · rw [BuzzwordManager.getCount_detectBuzzwords s now _ hs "agent"]
    have : matchCount (toLowerCase "agent") "agentic workflows" = 0 := by decide
    rw [this]
    simp
  · intro ha
    rw [BuzzwordManager.getCount_detectBuzzwords s now _ hs "agent"]
    have h0 : toLowerCase "agent" = "agent" := by decide
    have : matchCount "agent" "our agent is great" = 1 := by decide
    rw [h0, if_pos ha, this]

set_option maxRecDepth 1000000 in
theorem constructor_has_agent : mapHas BuzzwordManager.constructor.buzzwords "agent" = true := by
  decide

/-- Witness of C7 amended: the fresh dictionary, the key "agent", the text
"Our agent is agentic, the Agent." -/
theorem detectBuzzwords_count_witness :
    BuzzwordManager.getCount
      (BuzzwordManager.detectBuzzwords BuzzwordManager.constructor 7
        "Our agent is agentic, the Agent.").1 "agent" =
      BuzzwordManager.getCount BuzzwordManager.constructor "agent" +
        (regexMatches "agent" "Our agent is agentic, the Agent.").length ∧
    BuzzwordManager.getCount
      (BuzzwordManager.detectBuzzwords BuzzwordManager.constructor 7 "our agent is great").1
        "agent" = BuzzwordManager.getCount BuzzwordManager.constructor "agent" + 1 :=
  have h := detectBuzzwords_count BuzzwordManager.constructor 7
    "Our agent is agentic, the Agent." "agent" BuzzwordManager.wellFormed_constructor
    constructor_has_agent
  ⟨h.1, h.2.2.2.2.2 constructor_has_agent⟩

set_option maxRecDepth 1000000 in
/-- C8, as stated, fails: on the fresh dictionary the text "agent agent" yields
two records for "agent", the first with count 1 and the second with count 2,
and the count of "agent" once the call has returned is 2. -/
theorem detectBuzzwords_running_count :
    (BuzzwordManager.detectBuzzwords BuzzwordManager.constructor 0 "agent agent").2 =
      [{ word := "agent", count := 1, position := 0 },
       { word := "agent", count := 2, position := 0 }] ∧
    BuzzwordManager.getCount
      (BuzzwordManager.detectBuzzwords BuzzwordManager.constructor 0 "agent agent").1
      "agent" = 2 := by
  decide

theorem getCount_of_mem (s : BuzzwordManager) (hs : WellFormed s) (e : String × BuzzwordData)
    (he : e ∈ s.buzzwords) : BuzzwordManager.getCount s e.1 = e.2.count := by
  unfold BuzzwordManager.getCount
  rw [hs.2 e he]
  obtain ⟨p, r, hpr⟩ := List.append_of_mem he
  have hn := hs.1
  rw [hpr, List.map_append, List.map_cons, List.nodup_append] at hn
  have hp : e.1 ∉ p.map (fun e => e.1) := fun h => hn.2.2 h (List.mem_cons_self _ _)
  rw [hpr, mapGet_append_cons p r e.1 e.2 hp]

/-- C8, amended: on a well-formed dictionary the records come entry after
entry in the order of the dictionary, one record per match of the entry; the
record of the match number `j + 1` of an entry carries the word of the entry and
the running count, that is the count before the call plus `j + 1`; the count of
the entry once the call has returned is the count before the call plus the
number of its matches, which is the count carried by the last of its records. -/
theorem detectBuzzwords_records (s : BuzzwordManager) (now : Nat) (text : String)
    (hs : WellFormed s) :
    (BuzzwordManager.detectBuzzwords s now text).2 =
      (s.buzzwords.map
        (fun e => recordsFor text e.1 e.2 (regexMatches e.1 text).length)).flatten ∧
    (∀ e ∈ s.buzzwords,
      (recordsFor text e.1 e.2 (regexMatches e.1 text).length).length =
        (regexMatches e.1 text).length ∧
      (∀ j, j < (regexMatches e.1 text).length →
        (recordsFor text e.1 e.2 (regexMatches e.1 text).length)[j]? =
          some { word := e.2.word, count := BuzzwordManager.getCount s e.1 + (j + 1),
                 position := indexOf (toLowerCase text) e.1 }) ∧
      BuzzwordManager.getCount (BuzzwordManager.detectBuzzwords s now text).1 e.1 =
        BuzzwordManager.getCount s e.1 + (regexMatches e.1 text).length) := by
  constructor
  · rw [BuzzwordManager.detectBuzzwords_eq s now text hs]
    rfl
  · intro e he
    refine ⟨by simp [recordsFor], ?_, ?_⟩
    · intro j hj
      rw [getCount_of_mem s hs e he]
      unfold recordsFor
      rw [List.getElem?_map, List.getElem?_range hj]
      rfl
    · have hk : mapHas s.buzzwords e.1 = true := by
        rw [mapHas_iff, List.mem_map]
        exact ⟨e, he, rfl⟩
      rw [BuzzwordManager.getCount_detectBuzzwords s now text hs e.1, hs.2 e he, if_pos hk]
      rfl

/-- Witness of C8 amended: the fresh dictionary and the text "agent agent". -/
theorem detectBuzzwords_records_witness :
    (BuzzwordManager.detectBuzzwords BuzzwordManager.constructor 0 "agent agent").2 =
      (BuzzwordManager.constructor.buzzwords.map
        (fun e => recordsFor "agent agent" e.1 e.2
          (regexMatches e.1 "agent agent").length)).flatten :=
  (detectBuzzwords_records BuzzwordManager.constructor 0 "agent agent"
    BuzzwordManager.wellFormed_constructor).1

/-- C9: on a well-formed dictionary whose counts are all 0, calling
`detectBuzzwords` twice with the same text leaves every count at exactly twice
what one call produces; `detectBuzzwords` never decreases a count; and the
increase of each count is the same in any two well-formed dictionaries with the
same set of keys, whatever their counts and whatever the time of the call. -/
theorem detectBuzzwords_cumulative (s : BuzzwordManager) (now1 now2 : Nat) (text : String)
    (hs : WellFormed s) :
    ((∀ e ∈ s.buzzwords, e.2.count = 0) →
      ∀ word, BuzzwordManager.getCount
          (BuzzwordManager.detectBuzzwords
            (BuzzwordManager.detectBuzzwords s now1 text).1 now2 text).1 word =
        2 * BuzzwordManager.getCount (BuzzwordManager.detectBuzzwords s now1 text).1 word) ∧
    (∀ word, BuzzwordManager.getCount s word ≤
      BuzzwordManager.getCount (BuzzwordManager.detectBuzzwords s now1 text).1 word) ∧
    (∀ s2, WellFormed s2 → (∀ k, mapHas s2.buzzwords k = mapHas s.buzzwords k) →
      ∀ word,
        BuzzwordManager.getCount (BuzzwordManager.detectBuzzwords s2 now2 text).1 word -
            BuzzwordManager.getCount s2 word =
          BuzzwordManager.getCount (BuzzwordManager.detectBuzzwords s now1 text).1 word -
            BuzzwordManager.getCount s word) := by
  refine ⟨?_, ?_, ?_⟩
  · intro h0 word
    have hz : BuzzwordManager.getCount s word = 0 := by
      unfold BuzzwordManager.getCount
      cases hg : mapGet s.buzzwords (toLowerCase word) with
      | none => rfl
      | some d =>
        simp only []
        have hmem : toLowerCase word ∈ s.buzzwords.map (fun e => e.1) := by
          rw [← mapHas_iff]; unfold mapHas; rw [hg]; rfl
        rw [List.mem_map] at hmem
        obtain ⟨e, he, heq⟩ := hmem
        have := getCount_of_mem s hs e he
        unfold BuzzwordManager.getCount at this
        rw [hs.2 e he, heq, hg] at this
        simp only [] at this
        rw [this]
        exact h0 e he
    rw [BuzzwordManager.getCount_detectBuzzwords _ now2 text
        (BuzzwordManager.wellFormed_detectBuzzwords s now1 text hs) word,
      BuzzwordManager.detectBuzzwords_mapHas s now1 text hs,
      BuzzwordManager.getCount_detectBuzzwords s now1 text hs word, hz]
    omega
  · intro word
    rw [BuzzwordManager.getCount_detectBuzzwords s now1 text hs word]
    omega
  · intro s2 hs2 hkeys word
    rw [BuzzwordManager.getCount_detectBuzzwords s now1 text hs word,
      BuzzwordManager.getCount_detectBuzzwords s2 now2 text hs2 word, hkeys]
    omega

set_option maxRecDepth 1000000 in
theorem constructor_counts_zero : ∀ e ∈ BuzzwordManager.constructor.buzzwords, e.2.count = 0 := by
  decide

/-- Witness of C9: the fresh dictionary and the text "the smartest agent, our agent". -/
theorem detectBuzzwords_cumulative_witness :
    BuzzwordManager.getCount
        (BuzzwordManager.detectBuzzwords
          (BuzzwordManager.detectBuzzwords BuzzwordManager.constructor 1
            "the smartest agent, our agent").1 2 "the smartest agent, our agent").1 "agent" =
      2 * BuzzwordManager.getCount
        (BuzzwordManager.detectBuzzwords BuzzwordManager.constructor 1
          "the smartest agent, our agent").1 "agent" :=
  (detectBuzzwords_cumulative BuzzwordManager.constructor 1 2 "the smartest agent, our agent"
    BuzzwordManager.wellFormed_constructor).1 constructor_counts_zero "agent"

/-! ## Theorems: invariants of the dictionary -/

theorem isJsWhiteSpace_toLower (c : Char) : isJsWhiteSpace c.toLower = isJsWhiteSpace c := by
  unfold Char.toLower
  simp only []
  by_cases h : c.toNat ≥ 65 ∧ c.toNat ≤ 90
  · rw [if_pos h]
    have hv : (Char.ofNat (c.toNat + 32)).toNat = c.toNat + 32 :=
      toNat_ofNat_of_lt _ (by omega)
    have h1 : isJsWhiteSpace (Char.ofNat (c.toNat + 32)) = false := by
      unfold isJsWhiteSpace
      rw [hv]
      simp
      omega
    have h2 : isJsWhiteSpace c = false := by
      unfold isJsWhiteSpace
      simp
      omega
    rw [h1, h2]
  · rw [if_neg h]

theorem dropWhile_map_toLower (l : List Char) :
    (l.map Char.toLower).dropWhile isJsWhiteSpace =
      (l.dropWhile isJsWhiteSpace).map Char.toLower := by
  induction l with
  | nil => rfl
  | cons c l ih =>
    simp only [List.map_cons, List.dropWhile_cons, isJsWhiteSpace_toLower]
    split
    · exact ih
    · rfl

theorem trimChars_map_toLower (l : List Char) :
    trimChars (l.map Char.toLower) = (trimChars l).map Char.toLower := by
  unfold trimChars
  rw [dropWhile_map_toLower, ← List.map_reverse, dropWhile_map_toLower, List.map_reverse]

theorem toLowerCase_trim (w : String) : toLowerCase (trim w) = trim (toLowerCase w) := by
  unfold toLowerCase trim
  simp only []
  rw [trimChars_map_toLower]

theorem trim_ne_empty_of_lower (w : String) (h : trim (toLowerCase w) ≠ "") : trim w ≠ "" := by
  intro h0
  apply h
  rw [← toLowerCase_trim, h0]
  rfl

theorem exists_split_of_mapGet (m : List (String × BuzzwordData)) (k : String)
    (d : BuzzwordData) (h : mapGet m k = some d) :
    ∃ p r, m = p ++ (k, d) :: r ∧ k ∉ p.map (fun e => e.1) := by
  induction m with
  | nil => simp [mapGet] at h
  | cons e rest ih =>
    obtain ⟨k1, v⟩ := e
    by_cases hk : k1 = k
    · rw [mapGet, if_pos hk] at h
      refine ⟨[], rest, ?_, by simp⟩
      simp only [Option.some.injEq] at h
      rw [hk, h]
      rfl
    · rw [mapGet, if_neg hk] at h
      obtain ⟨p, r, h1, h2⟩ := ih h
      refine ⟨(k1, v) :: p, r, by rw [h1]; rfl, ?_⟩
      simp only [List.map_cons, List.mem_cons, not_or]
      exact ⟨Ne.symm hk, h2⟩

theorem mem_of_mapGet (m : List (String × BuzzwordData)) (k : String) (d : BuzzwordData)
    (h : mapGet m k = some d) : (k, d) ∈ m := by
  obtain ⟨p, r, h1, _⟩ := exists_split_of_mapGet m k d h
  rw [h1]
  simp

theorem mapGet_of_mem (m : List (String × BuzzwordData)) (e : String × BuzzwordData)
    (hn : (m.map (fun e => e.1)).Nodup) (he : e ∈ m) : mapGet m e.1 = some e.2 := by
  obtain ⟨p, r, hpr⟩ := List.append_of_mem he
  rw [hpr, List.map_append, List.map_cons, List.nodup_append] at hn
  have hp : e.1 ∉ p.map (fun e => e.1) := fun h => hn.2.2 h (List.mem_cons_self _ _)
  rw [hpr]
  exact mapGet_append_cons p r e.1 e.2 hp

theorem mapGet_mapDelete_ne (m : List (String × BuzzwordData)) (k k1 : String) (h : k1 ≠ k) :
    mapGet (mapDelete m k) k1 = mapGet m k1 := by
  induction m with
  | nil => rfl
  | cons e rest ih =>
    obtain ⟨k2, v⟩ := e
    unfold mapDelete at ih ⊢
    by_cases h2 : k2 = k
    · have : decide ((k2, v).1 ≠ k) = false := by simp [h2]
      rw [List.filter_cons_of_neg (by simp [h2]), ih]
      rw [mapGet, if_neg (by rw [h2]; exact Ne.symm h)]
    · rw [List.filter_cons_of_pos (by simp [h2])]
      by_cases h3 : k2 = k1
      · rw [mapGet, if_pos h3, mapGet, if_pos h3]
      · rw [mapGet, if_neg h3, ih]
        conv => rhs; rw [mapGet, if_neg h3]

/-- Replacing the value of a present key by one with the same word and the
same flag leaves the shape of the map as it is. -/
theorem shape_mapSet (m : List (String × BuzzwordData)) (k : String) (d v : BuzzwordData)
    (hn : (m.map (fun e => e.1)).Nodup) (hg : mapGet m k = some d)
    (hw : v.word = d.word) (hc : v.isCustom = d.isCustom) :
    (mapSet m k v).map entryShape = m.map entryShape := by
  obtain ⟨p, r, h1, h2⟩ := exists_split_of_mapGet m k d hg
  have hr : k ∉ r.map (fun e => e.1) := by
    rw [h1, List.map_append, List.map_cons, List.nodup_append, List.nodup_cons] at hn
    exact hn.2.1.1
  rw [h1, mapSet_append_cons p r k d v h2 hr]
  simp [entryShape, hw, hc]

theorem keys_of_shape (m : List (String × BuzzwordData)) :
    m.map (fun e => e.1) = (m.map entryShape).map (fun t => t.1) := by
  rw [List.map_map]
  rfl

theorem mem_shape_iff (m : List (String × BuzzwordData)) (t : String × String × Bool) :
    t ∈ m.map entryShape ↔ ∃ e ∈ m, entryShape e = t := by
  rw [List.mem_map]

theorem mapGet_shape (m m1 : List (String × BuzzwordData))
    (h : m1.map entryShape = m.map entryShape) (k : String) :
    (mapGet m1 k).map (fun d => (d.word, d.isCustom)) =
      (mapGet m k).map (fun d => (d.word, d.isCustom)) := by
  induction m generalizing m1 with
  | nil =>
    simp only [List.map_nil, List.map_eq_nil_iff] at h
    rw [h]
  | cons e rest ih =>
    cases m1 with
    | nil => simp at h
    | cons e1 rest1 =>
      obtain ⟨k1, v1⟩ := e1
      obtain ⟨k2, v2⟩ := e
      simp only [List.map_cons, List.cons.injEq, entryShape, Prod.mk.injEq] at h
      obtain ⟨⟨hk, hw, hc⟩, hrest⟩ := h
      by_cases hkk : k2 = k
      · rw [mapGet, if_pos (hk.trans hkk), mapGet, if_pos hkk]
        simp [hw, hc]
      · rw [mapGet, if_neg (by rw [hk]; exact hkk), ih rest1 hrest]
        conv => rhs; rw [mapGet, if_neg hkk]

namespace BuzzwordManager

theorem wellFormed_of_shape (s s1 : BuzzwordManager)
    (h : s1.buzzwords.map entryShape = s.buzzwords.map entryShape) (hs : WellFormed s) :
    WellFormed s1 := by
  constructor
  · rw [keys_of_shape, h, ← keys_of_shape]; exact hs.1
  · intro e he
    have : entryShape e ∈ s.buzzwords.map entryShape := by
      rw [← h]; exact List.mem_map_of_mem _ he
    rw [List.mem_map] at this
    obtain ⟨e0, he0, heq⟩ := this
    have hk : e0.1 = e.1 := by
      simp only [entryShape, Prod.mk.injEq] at heq
      exact heq.1
    rw [← hk]
    exact hs.2 e0 he0

theorem entriesNamed_of_shape (s s1 : BuzzwordManager)
    (h : s1.buzzwords.map entryShape = s.buzzwords.map entryShape) (hs : EntriesNamed s) :
    EntriesNamed s1 := by
  intro e he
  have : entryShape e ∈ s.buzzwords.map entryShape := by
    rw [← h]; exact List.mem_map_of_mem _ he
  rw [List.mem_map] at this
  obtain ⟨e0, he0, heq⟩ := this
  simp only [entryShape, Prod.mk.injEq] at heq
  rw [← heq.1, ← heq.2.1]
  exact hs e0 he0

theorem defaultsKept_of_shape (s s1 : BuzzwordManager)
    (h : s1.buzzwords.map entryShape = s.buzzwords.map entryShape) (hs : DefaultsKept s) :
    DefaultsKept s1 := by
  intro w hw
  obtain ⟨d, hd, hc⟩ := hs w hw
  have := mapGet_shape s.buzzwords s1.buzzwords h (toLowerCase w)
  rw [hd] at this
  cases h1 : mapGet s1.buzzwords (toLowerCase w) with
  | none => rw [h1] at this; simp at this
  | some d1 =>
    rw [h1] at this
    simp only [Option.map_some', Option.some.injEq, Prod.mk.injEq] at this
    exact ⟨d1, rfl, by rw [this.2, hc]⟩

end BuzzwordManager

theorem mem_mapSet (m : List (String × BuzzwordData)) (k : String) (v : BuzzwordData)
    (e : String × BuzzwordData) (he : e ∈ mapSet m k v) : e ∈ m ∨ e = (k, v) := by
  unfold mapSet at he
  split at he
  · rw [List.mem_map] at he
    obtain ⟨e0, he0, heq⟩ := he
    split at heq
    · exact Or.inr heq.symm
    · exact Or.inl (heq ▸ he0)
  · rw [List.mem_append, List.mem_singleton] at he
    exact he

theorem mapHas_mapSet (m : List (String × BuzzwordData)) (k k1 : String) (v : BuzzwordData) :
    mapHas (mapSet m k v) k1 = true ↔ mapHas m k1 = true ∨ k1 = k := by
  by_cases h : mapHas m k = true
  · rw [mapHas_iff, keys_mapSet_of_has m k v h, ← mapHas_iff]
    constructor
    · exact Or.inl
    · rintro (h1 | h1)
      · exact h1
      · rw [h1]; exact h
  · simp only [Bool.not_eq_true] at h
    rw [mapSet_of_not_has m k v h, mapHas_iff, mapHas_iff]
    simp

theorem default_words_lower : ∀ w ∈ DEFAULT_BUZZWORDS, toLowerCase w = w := by
  decide

theorem default_words_nonempty : ∀ w ∈ DEFAULT_BUZZWORDS, w ≠ "" := by
  decide

namespace BuzzwordManager

theorem initializeDefaultBuzzwords_mapHas (s : BuzzwordManager) (k : String) :
    mapHas (initializeDefaultBuzzwords s).buzzwords k = true ↔
      mapHas s.buzzwords k = true ∨ k ∈ DEFAULT_BUZZWORDS.map toLowerCase := by
  unfold initializeDefaultBuzzwords
  induction DEFAULT_BUZZWORDS generalizing s with
  | nil => simp
  | cons w rest ih =>
    rw [List.foldl_cons, ih]
    simp only []
    rw [mapHas_mapSet]
    simp only [List.map_cons, List.mem_cons]
    tauto

/-- The keys of the fresh dictionary are the default words. -/
theorem constructor_mapHas (k : String) :
    mapHas constructor.buzzwords k = true ↔ k ∈ DEFAULT_BUZZWORDS := by
  unfold constructor
  rw [initializeDefaultBuzzwords_mapHas]
  have h1 : DEFAULT_BUZZWORDS.map toLowerCase = DEFAULT_BUZZWORDS := by
    conv => rhs; rw [← List.map_id DEFAULT_BUZZWORDS]
    apply List.map_congr_left
    intro w hw
    exact default_words_lower w hw
  rw [h1]
  simp [mapHas, mapGet]

theorem initializeDefaultBuzzwords_entries (s : BuzzwordManager)
    (P : String × BuzzwordData → Prop) (hs : ∀ e ∈ s.buzzwords, P e)
    (hP : ∀ w ∈ DEFAULT_BUZZWORDS,
      P (toLowerCase w, { word := w, count := 0, isCustom := false, lastDetected := none })) :
    ∀ e ∈ (initializeDefaultBuzzwords s).buzzwords, P e := by
  unfold initializeDefaultBuzzwords
  revert hP
  induction DEFAULT_BUZZWORDS generalizing s with
  | nil => intro _; exact hs
  | cons w rest ih =>
    intro hP
    rw [List.foldl_cons]
    apply ih
    · intro e he
      simp only [] at he
      rcases mem_mapSet _ _ _ _ he with h | h
      · exact hs e h
      · rw [h]; exact hP w (List.mem_cons_self _ _)
    · intro w1 hw1
      exact hP w1 (List.mem_cons_of_mem _ hw1)

theorem constructor_entries (P : String × BuzzwordData → Prop)
    (hP : ∀ w ∈ DEFAULT_BUZZWORDS,
      P (toLowerCase w, { word := w, count := 0, isCustom := false, lastDetected := none })) :
    ∀ e ∈ constructor.buzzwords, P e := by
  unfold constructor
  apply initializeDefaultBuzzwords_entries
  · intro e he; simp at he
  · exact hP

theorem entriesNamed_constructor : EntriesNamed constructor := by
  apply constructor_entries
  intro w hw
  exact ⟨rfl, default_words_nonempty w hw⟩

theorem defaultsKept_constructor : DefaultsKept constructor := by
  intro w hw
  have hhas : mapHas constructor.buzzwords (toLowerCase w) = true := by
    rw [constructor_mapHas, default_words_lower w hw]; exact hw
  unfold mapHas at hhas
  cases hg : mapGet constructor.buzzwords (toLowerCase w) with
  | none => rw [hg] at hhas; simp at hhas
  | some d =>
    refine ⟨d, rfl, ?_⟩
    have hmem := mem_of_mapGet _ _ _ hg
    exact constructor_entries (fun e => e.2.isCustom = false) (fun _ _ => rfl) _ hmem

theorem dictInv_constructor : DictInv constructor :=
  ⟨wellFormed_constructor, entriesNamed_constructor, defaultsKept_constructor⟩

theorem dictInv_of_shape (s s1 : BuzzwordManager)
    (h : s1.buzzwords.map entryShape = s.buzzwords.map entryShape) (hs : DictInv s) :
    DictInv s1 :=
  ⟨wellFormed_of_shape s s1 h hs.1, entriesNamed_of_shape s s1 h hs.2.1,
    defaultsKept_of_shape s s1 h hs.2.2⟩

theorem dictInv_addCustomBuzzword (s : BuzzwordManager) (word : String) (hs : DictInv s) :
    DictInv (addCustomBuzzword s word).1 := by
  by_cases h1 : trim (toLowerCase word) = ""
  · rw [addCustomBuzzword_of_empty s word h1]; exact hs
  · by_cases h2 : mapHas s.buzzwords (trim (toLowerCase word)) = true
    · rw [addCustomBuzzword_of_has s word h2]; exact hs
    · simp only [Bool.not_eq_true] at h2
      refine ⟨wellFormed_addCustomBuzzword s word hs.1, ?_, ?_⟩
      · rw [addCustomBuzzword_of_new s word h1 h2]
        intro e he
        simp only [List.mem_append, List.mem_singleton] at he
        rcases he with he | he
        · exact hs.2.1 e he
        · rw [he]
          exact ⟨toLowerCase_trim word, trim_ne_empty_of_lower word h1⟩
      · rw [addCustomBuzzword_of_new s word h1 h2]
        intro w hw
        obtain ⟨d, hd, hc⟩ := hs.2.2 w hw
        refine ⟨d, ?_, hc⟩
        simp only []
        have hmem : toLowerCase w ∈ s.buzzwords.map (fun e => e.1) := by
          rw [← mapHas_iff]; unfold mapHas; rw [hd]; rfl
        rw [mapGet_append_of_mem _ _ _ hmem]
        exact hd

theorem dictInv_addCustomBuzzwords (words : List String) (s : BuzzwordManager)
    (hs : DictInv s) : DictInv (addCustomBuzzwords s words) := by
  induction words generalizing s with
  | nil => exact hs
  | cons w rest ih =>
    unfold addCustomBuzzwords
    rw [List.foldl_cons]
    exact ih _ (dictInv_addCustomBuzzword s w hs)

theorem dictInv_removeBuzzword (s : BuzzwordManager) (word : String) (hs : DictInv s) :
    DictInv (removeBuzzword s word).1 := by
  refine ⟨wellFormed_removeBuzzword s word hs.1, ?_, ?_⟩
  · unfold removeBuzzword
    simp only []
    split
    · split
      · intro e he
        simp only [mapDelete] at he
        exact hs.2.1 e (List.mem_filter.mp he).1
      · exact hs.2.1
    · exact hs.2.1
  · unfold removeBuzzword
    simp only []
    split
    · rename_i d hd
      split
      · rename_i hc
        intro w hw
        obtain ⟨d1, hd1, hc1⟩ := hs.2.2 w hw
        refine ⟨d1, ?_, hc1⟩
        simp only []
        rw [mapGet_mapDelete_ne]
        · exact hd1
        · intro heq
          rw [heq, hd] at hd1
          simp only [Option.some.injEq] at hd1
          rw [hd1, hc1] at hc
          simp at hc
      · exact hs.2.2
    · exact hs.2.2

theorem bumped_shape (now n : Nat) (d : BuzzwordData) :
    (bumped now n d).word = d.word ∧ (bumped now n d).isCustom = d.isCustom := by
  unfold bumped
  split <;> exact ⟨rfl, rfl⟩

theorem dictInv_detectBuzzwords (s : BuzzwordManager) (now : Nat) (text : String)
    (hs : DictInv s) : DictInv (detectBuzzwords s now text).1 := by
  apply dictInv_of_shape s _ _ hs
  rw [detectBuzzwords_buzzwords s now text hs.1, List.map_map]
  apply List.map_congr_left
  intro e _
  simp only [Function.comp, entryShape, (bumped_shape _ _ _).1, (bumped_shape _ _ _).2]

theorem dictInv_resetCounts (s : BuzzwordManager) (hs : DictInv s) :
    DictInv (resetCounts s) := by
  apply dictInv_of_shape s _ _ hs
  unfold resetCounts
  simp only [List.map_map]
  rfl

theorem importItems_shape (items : List ImportItem) (s : BuzzwordManager)
    (hn : (s.buzzwords.map (fun e => e.1)).Nodup) :
    (importItems s items).1.buzzwords.map entryShape = s.buzzwords.map entryShape ∧
    (importItems s items).1.customBuzzwords = s.customBuzzwords ∧
    (importItems s items).1.bingoCard = s.bingoCard ∧
    (importItems s items).1.markedSquares = s.markedSquares := by
  induction items generalizing s with
  | nil => exact ⟨rfl, rfl, rfl, rfl⟩
  | cons item rest ih =>
    unfold importItems
    cases hw : item.word with
    | none => exact ⟨rfl, rfl, rfl, rfl⟩
    | some word =>
      simp only []
      cases hg : mapGet s.buzzwords (toLowerCase word) with
      | none => exact ih s hn
      | some d =>
        simp only []
        have hsh := shape_mapSet s.buzzwords (toLowerCase word) d
          { d with count := item.count.getD 0 } hn hg rfl rfl
        have := ih
          { s with
            buzzwords := mapSet s.buzzwords (toLowerCase word)
              ({ d with count := item.count.getD 0 }) }
          (by simp only []; rw [keys_of_shape, hsh, ← keys_of_shape]; exact hn)
        refine ⟨?_, this.2⟩
        rw [this.1]
        exact hsh

theorem dictInv_importResults (s : BuzzwordManager) (data : Option ImportData)
    (hs : DictInv s) : DictInv (importResults s data).1 := by
  unfold importResults
  cases data with
  | none => exact hs
  | some d =>
    simp only []
    have hitems : DictInv (match d.buzzwords with
        | some items => importItems s items
        | none => (s, true)).1 := by
      cases d.buzzwords with
      | none => exact hs
      | some items =>
        exact dictInv_of_shape s _ (importItems_shape items s hs.1.1).1 hs
    split
    · cases d.customBuzzwords with
      | none => exact hitems
      | some words => exact dictInv_addCustomBuzzwords words _ hitems
    · exact hitems

theorem dictInv_runDictOps (ops : List DictOp) (s : BuzzwordManager) (hs : DictInv s) :
    DictInv (runDictOps s ops) := by
  induction ops generalizing s with
  | nil => exact hs
  | cons op rest ih =>
    unfold runDictOps
    rw [List.foldl_cons]
    apply ih
    cases op with
    | add word => exact dictInv_addCustomBuzzword s word hs
    | remove word => exact dictInv_removeBuzzword s word hs
    | detect now text => exact dictInv_detectBuzzwords s now text hs
    | resetCounts => exact dictInv_resetCounts s hs
    | importResults data => exact dictInv_importResults s data hs

theorem removeBuzzword_of_builtin (s : BuzzwordManager) (word : String) (d : BuzzwordData)
    (hg : mapGet s.buzzwords (toLowerCase word) = some d) (hc : d.isCustom = false) :
    removeBuzzword s word = (s, false) := by
  unfold removeBuzzword
  simp only []
  rw [hg]
  simp only [hc]
  rfl

set_option maxRecDepth 100000 in
theorem default_dedup_length : DEFAULT_BUZZWORDS.dedup.length = 92 := by
  decide

theorem default_length_le (s : BuzzwordManager) (hs : DefaultsKept s) :
    92 ≤ s.buzzwords.length := by
  have hsub : DEFAULT_BUZZWORDS.dedup ⊆ s.buzzwords.map (fun e => e.1) := by
    intro w hw
    rw [List.mem_dedup] at hw
    obtain ⟨d, hd, _⟩ := hs w hw
    rw [default_words_lower w hw] at hd
    rw [← mapHas_iff]
    unfold mapHas
    rw [hd]; rfl
  have hlen := (List.subperm_of_subset (List.nodup_dedup _) hsub).length_le
  rw [List.length_map] at hlen
  have h92 := default_dedup_length
  omega

end BuzzwordManager

/-- C12: in every state reached from the constructor by any sequence of
`addCustomBuzzword`, `removeBuzzword`, `detectBuzzwords`, `resetCounts` and
`importResults` calls, with any arguments, every word of `DEFAULT_BUZZWORDS` is
a key of the dictionary, of an entry with `isCustom = false`; `removeBuzzword`
on such a word returns false and leaves the state as it is; and the dictionary
has at least 24 entries (it has at least 92, the number of distinct default
words). -/
theorem builtins_not_removable (ops : List DictOp) :
    (∀ w ∈ DEFAULT_BUZZWORDS,
      ∃ d, mapGet (runDictOps BuzzwordManager.constructor ops).buzzwords w = some d ∧
        d.isCustom = false) ∧
    (∀ w ∈ DEFAULT_BUZZWORDS,
      BuzzwordManager.removeBuzzword (runDictOps BuzzwordManager.constructor ops) w =
        (runDictOps BuzzwordManager.constructor ops, false)) ∧
    24 ≤ (runDictOps BuzzwordManager.constructor ops).buzzwords.length ∧
    92 ≤ (runDictOps BuzzwordManager.constructor ops).buzzwords.length := by
  have hinv := BuzzwordManager.dictInv_runDictOps ops BuzzwordManager.constructor
    BuzzwordManager.dictInv_constructor
  have h92 := BuzzwordManager.default_length_le _ hinv.2.2
  refine ⟨?_, ?_, by omega, h92⟩
  · intro w hw
    obtain ⟨d, hd, hc⟩ := hinv.2.2 w hw
    rw [default_words_lower w hw] at hd
    exact ⟨d, hd, hc⟩
  · intro w hw
    obtain ⟨d, hd, hc⟩ := hinv.2.2 w hw
    exact BuzzwordManager.removeBuzzword_of_builtin _ w d hd hc

/-! ## Theorems: removal and detection of custom buzzwords -/

set_option maxRecDepth 1000000 in
/-- C11, evaluated where it fails: `addCustomBuzzword(" Hello ")` on the fresh
dictionary returns true and stores the entry under the key "hello"; the call
`removeBuzzword(" Hello ")` that follows lower-cases its argument without
trimming it, looks up " hello ", returns false and leaves the state as it is,
so the entry "hello" and the custom word "hello" are still there. -/
theorem removeBuzzword_untrimmed :
    (BuzzwordManager.addCustomBuzzword BuzzwordManager.constructor " Hello ").2 = true ∧
    BuzzwordManager.removeBuzzword
      (BuzzwordManager.addCustomBuzzword BuzzwordManager.constructor " Hello ").1 " Hello " =
      ((BuzzwordManager.addCustomBuzzword BuzzwordManager.constructor " Hello ").1, false) ∧
    mapGet (BuzzwordManager.removeBuzzword
      (BuzzwordManager.addCustomBuzzword BuzzwordManager.constructor " Hello ").1
        " Hello ").1.buzzwords "hello" =
      some { word := "Hello", count := 0, isCustom := true, lastDetected := none } ∧
    (BuzzwordManager.removeBuzzword
      (BuzzwordManager.addCustomBuzzword BuzzwordManager.constructor " Hello ").1
        " Hello ").1.customBuzzwords = ["hello"] ∧
    mapHas BuzzwordManager.constructor.buzzwords "hello" = false ∧
    BuzzwordManager.constructor.customBuzzwords = [] := by
  decide

/-- Where `removeBuzzword` does undo `addCustomBuzzword`: when the word has no
white space around it (so that lower-casing alone yields the key) and the custom
set holds keys of the dictionary only, a successful add followed by the removal
of the same word gives back the state before the add, and the removal returns
true. -/
theorem removeBuzzword_addCustomBuzzword (s : BuzzwordManager) (word : String)
    (htrim : trim (toLowerCase word) = toLowerCase word)
    (hcs : ∀ k ∈ s.customBuzzwords, mapHas s.buzzwords k = true)
    (hadd : (BuzzwordManager.addCustomBuzzword s word).2 = true) :
    BuzzwordManager.removeBuzzword (BuzzwordManager.addCustomBuzzword s word).1 word =
      (s, true) := by
  have h1 : trim (toLowerCase word) ≠ "" := by
    intro h
    rw [BuzzwordManager.addCustomBuzzword_of_empty s word h] at hadd
    simp at hadd
  have h2 : mapHas s.buzzwords (trim (toLowerCase word)) = false := by
    cases h : mapHas s.buzzwords (trim (toLowerCase word)) with
    | false => rfl
    | true =>
      rw [BuzzwordManager.addCustomBuzzword_of_has s word h] at hadd
      simp at hadd
  have hnk : toLowerCase word ∉ s.buzzwords.map (fun e => e.1) := by
    rw [← mapHas_iff, ← htrim, h2]; simp
  have hnc : toLowerCase word ∉ s.customBuzzwords := by
    intro hmem
    have := hcs _ hmem
    rw [← htrim, h2] at this
    simp at this
  rw [BuzzwordManager.addCustomBuzzword_of_new s word h1 h2, htrim]
  unfold BuzzwordManager.removeBuzzword
  simp only []
  rw [mapGet_append_cons s.buzzwords [] (toLowerCase word) _ hnk]
  simp only [if_true]
  have hm : mapDelete (s.buzzwords ++
      [(toLowerCase word,
        ({ word := trim word, count := 0, isCustom := true, lastDetected := none } :
          BuzzwordData))]) (toLowerCase word) = s.buzzwords := by
    unfold mapDelete
    rw [List.filter_append]
    have : s.buzzwords.filter (fun e => decide (e.1 ≠ toLowerCase word)) = s.buzzwords := by
      rw [List.filter_eq_self]
      intro e he
      simp only [ne_eq, decide_eq_true_eq]
      intro heq
      apply hnk
      rw [List.mem_map]
      exact ⟨e, he, heq⟩
    rw [this]
    simp
  have hc : setDelete (setAdd s.customBuzzwords (toLowerCase word)) (toLowerCase word) =
      s.customBuzzwords := by
    unfold setAdd setDelete
    rw [if_neg hnc, List.filter_append]
    have : s.customBuzzwords.filter (fun y => decide (y ≠ toLowerCase word)) =
        s.customBuzzwords := by
      rw [List.filter_eq_self]
      intro y hy
      simp only [ne_eq, decide_eq_true_eq]
      intro heq
      exact hnc (heq ▸ hy)
    rw [this]
    simp
  rw [hm, hc]

set_option maxRecDepth 1000000 in
/-- C17, evaluated where it fails: `addCustomBuzzword("c++")` on the fresh
dictionary returns true; `detectBuzzwords("c++")` then finds no match, because
the pattern asks for a word boundary after the last "+" and there is none at the
end of the text, returns no record and leaves the count of "c++" at 0. -/
theorem detectBuzzwords_misses_symbols :
    (BuzzwordManager.addCustomBuzzword BuzzwordManager.constructor "c++").2 = true ∧
    mapHas (BuzzwordManager.addCustomBuzzword BuzzwordManager.constructor "c++").1.buzzwords
      "c++" = true ∧
    regexMatches "c++" "c++" = [] ∧
    (BuzzwordManager.detectBuzzwords
      (BuzzwordManager.addCustomBuzzword BuzzwordManager.constructor "c++").1 0 "c++").2 = [] ∧
    BuzzwordManager.getCount
      (BuzzwordManager.detectBuzzwords
        (BuzzwordManager.addCustomBuzzword BuzzwordManager.constructor "c++").1 0 "c++").1
      "c++" = 0 := by
  decide

/-! ## Theorems: export and import -/

theorem mapGet_mapSet_self (m : List (String × BuzzwordData)) (k : String) (v : BuzzwordData) :
    mapGet (mapSet m k v) k = some v := by
  by_cases h : mapHas m k = true
  · unfold mapSet
    rw [if_pos h]
    unfold mapHas at h
    cases hg : mapGet m k with
    | none => rw [hg] at h; simp at h
    | some d =>
      obtain ⟨p, r, h1, h2⟩ := exists_split_of_mapGet m k d hg
      rw [h1, List.map_append, List.map_cons, map_replace_of_not_mem p k v h2, if_pos rfl]
      exact mapGet_append_cons p _ k v h2
  · simp only [Bool.not_eq_true] at h
    rw [mapSet_of_not_has m k v h]
    exact mapGet_append_cons m [] k v (by rw [← mapHas_iff, h]; simp)

theorem mapGet_map_replace_ne (m : List (String × BuzzwordData)) (k k1 : String)
    (v : BuzzwordData) (h : k1 ≠ k) :
    mapGet (m.map (fun e => if e.1 = k then (k, v) else e)) k1 = mapGet m k1 := by
  induction m with
  | nil => rfl
  | cons e rest ih =>
    obtain ⟨k2, v2⟩ := e
    simp only [List.map_cons]
    by_cases hk : k2 = k
    · rw [if_pos hk, mapGet, if_neg (Ne.symm h), mapGet, if_neg (by rw [hk]; exact Ne.symm h)]
      exact ih
    · rw [if_neg hk]
      by_cases hk1 : k2 = k1
      · rw [mapGet, if_pos hk1, mapGet, if_pos hk1]
      · rw [mapGet, if_neg hk1, ih]
        conv => rhs; rw [mapGet, if_neg hk1]

theorem mapGet_mapSet_ne (m : List (String × BuzzwordData)) (k k1 : String) (v : BuzzwordData)
    (h : k1 ≠ k) : mapGet (mapSet m k v) k1 = mapGet m k1 := by
  unfold mapSet
  split
  · exact mapGet_map_replace_ne m k k1 v h
  · by_cases hmem : k1 ∈ m.map (fun e => e.1)
    · exact mapGet_append_of_mem _ _ _ hmem
    · rw [mapGet_append_of_not_mem _ _ _ hmem, (mapGet_eq_none_iff _ _).mpr hmem, mapGet,
        if_neg (Ne.symm h)]
      rfl

namespace BuzzwordManager

theorem importItems_exported_snd (ds : List BuzzwordData) (s : BuzzwordManager) :
    (importItems s (ds.map (fun d => { word := some d.word, count := some d.count }))).2 =
      true := by
  induction ds generalizing s with
  | nil => rfl
  | cons d rest ih =>
    simp only [List.map_cons]
    unfold importItems
    simp only []
    split
    · exact ih _
    · exact ih _

theorem importItems_exported_of_not_mem (ds : List BuzzwordData) (s : BuzzwordManager)
    (k : String) (h : ∀ d ∈ ds, toLowerCase d.word ≠ k) :
    mapGet (importItems s
      (ds.map (fun d => { word := some d.word, count := some d.count }))).1.buzzwords k =
      mapGet s.buzzwords k := by
  induction ds generalizing s with
  | nil => rfl
  | cons d rest ih =>
    simp only [List.map_cons]
    unfold importItems
    simp only []
    have hd := h d (List.mem_cons_self _ _)
    have hrest : ∀ d ∈ rest, toLowerCase d.word ≠ k :=
      fun d1 h1 => h d1 (List.mem_cons_of_mem _ h1)
    split
    · rw [ih _ hrest]
      simp only []
      exact mapGet_mapSet_ne _ _ _ _ (Ne.symm hd)
    · exact ih _ hrest

theorem importItems_exported_of_mem (ds : List BuzzwordData) (s : BuzzwordManager)
    (k : String) (d0 : BuzzwordData)
    (hn : (ds.map (fun d => toLowerCase d.word)).Nodup) (hd0 : d0 ∈ ds)
    (hk : toLowerCase d0.word = k) (hhas : mapHas s.buzzwords k = true) :
    (mapGet (importItems s
      (ds.map (fun d => { word := some d.word, count := some d.count }))).1.buzzwords k).map
        (fun d => d.count) = some d0.count := by
  induction ds generalizing s with
  | nil => simp at hd0
  | cons d rest ih =>
    simp only [List.map_cons, List.nodup_cons] at hn
    simp only [List.map_cons]
    unfold importItems
    simp only []
    by_cases hdk : toLowerCase d.word = k
    · have hdd : d0 = d := by
        rcases List.mem_cons.mp hd0 with h | h
        · exact h
        · exfalso
          apply hn.1
          rw [List.mem_map]
          exact ⟨d0, h, by rw [hk, hdk]⟩
      have hrest : ∀ d1 ∈ rest, toLowerCase d1.word ≠ k := by
        intro d1 h1 heq
        apply hn.1
        rw [List.mem_map]
        exact ⟨d1, h1, by rw [heq, hdk]⟩
      unfold mapHas at hhas
      rw [hdk]
      cases hg : mapGet s.buzzwords k with
      | none => rw [hg] at hhas; simp at hhas
      | some e =>
        simp only []
        rw [importItems_exported_of_not_mem rest _ k hrest]
        simp only []
        rw [mapGet_mapSet_self, hdd]
        rfl
    · have hmem : d0 ∈ rest := by
        rcases List.mem_cons.mp hd0 with h | h
        · exact absurd (h ▸ hk) hdk
        · exact h
      split
      · apply ih _ hn.2 hmem
        simp only []
        rw [mapHas_mapSet]
        exact Or.inl hhas
      · exact ih _ hn.2 hmem hhas

theorem addCustomBuzzword_mapGet_of_has (s : BuzzwordManager) (word k : String)
    (h : mapHas s.buzzwords k = true) :
    mapGet (addCustomBuzzword s word).1.buzzwords k = mapGet s.buzzwords k := by
  by_cases h1 : trim (toLowerCase word) = ""
  · rw [addCustomBuzzword_of_empty s word h1]
  · by_cases h2 : mapHas s.buzzwords (trim (toLowerCase word)) = true
    · rw [addCustomBuzzword_of_has s word h2]
    · simp only [Bool.not_eq_true] at h2
      rw [addCustomBuzzword_of_new s word h1 h2]
      simp only []
      exact mapGet_append_of_mem _ _ _ ((mapHas_iff _ _).mp h)

theorem addCustomBuzzwords_mapGet_of_has (words : List String) (s : BuzzwordManager)
    (k : String) (h : mapHas s.buzzwords k = true) :
    mapGet (addCustomBuzzwords s words).buzzwords k = mapGet s.buzzwords k := by
  induction words generalizing s with
  | nil => rfl
  | cons w rest ih =>
    unfold addCustomBuzzwords
    rw [List.foldl_cons]
    have := ih (addCustomBuzzword s w).1 (addCustomBuzzword_mapHas s w k h)
    unfold addCustomBuzzwords at this
    rw [this]
    exact addCustomBuzzword_mapGet_of_has s w k h

theorem mem_exported (now : Nat) (localeCompare : String → String → Int) (s : BuzzwordManager)
    (d : BuzzwordData) :
    d ∈ (exportResults now localeCompare s).buzzwords ↔
      (∃ e ∈ s.buzzwords, e.2 = d) ∧ 0 < d.count := by
  unfold exportResults getAllBuzzwords
  simp only [List.mem_filter, List.mem_insertionSort, List.mem_map, gt_iff_lt,
    decide_eq_true_eq]

theorem nodup_exported (now : Nat) (localeCompare : String → String → Int)
    (s : BuzzwordManager) (hs : WellFormed s) (hnamed : EntriesNamed s) :
    ((exportResults now localeCompare s).buzzwords.map (fun d => toLowerCase d.word)).Nodup := by
  unfold exportResults getAllBuzzwords
  simp only []
  apply List.Nodup.sublist (List.Sublist.map _ (List.filter_sublist _))
  rw [((List.perm_insertionSort _ _).map _).nodup_iff, List.map_map]
  have : s.buzzwords.map ((fun d => toLowerCase d.word) ∘ fun e => e.2) =
      s.buzzwords.map (fun e => e.1) := by
    apply List.map_congr_left
    intro e he
    exact (hnamed e he).1
  rw [this]
  exact hs.1

theorem importItems_mapHas (items : List ImportItem) (s : BuzzwordManager)
    (hs : WellFormed s) (k : String) :
    mapHas (importItems s items).1.buzzwords k = mapHas s.buzzwords k := by
  rw [Bool.eq_iff_iff, mapHas_iff, mapHas_iff, keys_of_shape,
    (importItems_shape items s hs.1).1, ← keys_of_shape]

theorem importResults_exported (now : Nat) (localeCompare : String → String → Int)
    (a b : BuzzwordManager) :
    importResults b (some (exportedData (exportResults now localeCompare a))) =
      (addCustomBuzzwords
        (importItems b ((exportResults now localeCompare a).buzzwords.map
          (fun d => { word := some d.word, count := some d.count }))).1
        (exportResults now localeCompare a).customBuzzwords, true) := by
  unfold importResults exportedData
  simp only [importItems_exported_snd, if_true]

/-- The count `importResults` leaves under a key the importing dictionary
already has, when it is given the export of a dictionary `a`: the count of the
key in `a` if `a` has the key with a positive count, the count it had otherwise. -/
theorem importResults_exported_get (now : Nat) (localeCompare : String → String → Int)
    (a b : BuzzwordManager) (ha : WellFormed a) (hnamed : EntriesNamed a)
    (hbw : WellFormed b) (k : String) (hb : mapHas b.buzzwords k = true) :
    (mapGet (importResults b
      (some (exportedData (exportResults now localeCompare a)))).1.buzzwords k).map
        (fun d => d.count) =
      (match mapGet a.buzzwords k with
       | some d =>
         if 0 < d.count then some d.count else (mapGet b.buzzwords k).map (fun d => d.count)
       | none => (mapGet b.buzzwords k).map (fun d => d.count)) := by
  rw [importResults_exported]
  simp only []
  rw [addCustomBuzzwords_mapGet_of_has _ _ k (by rw [importItems_mapHas _ b hbw]; exact hb)]
  have hnone : (∀ d, mapGet a.buzzwords k = some d → d.count = 0) →
      ∀ d1 ∈ (exportResults now localeCompare a).buzzwords, toLowerCase d1.word ≠ k := by
    intro h0 d1 hd1 heq
    rw [mem_exported] at hd1
    obtain ⟨⟨e, he, hed⟩, hpos⟩ := hd1
    have hke : e.1 = k := by rw [← (hnamed e he).1, hed]; exact heq
    have := mapGet_of_mem a.buzzwords e ha.1 he
    rw [hke, hed] at this
    have := h0 d1 this
    omega
  cases hg : mapGet a.buzzwords k with
  | none =>
    simp only []
    rw [importItems_exported_of_not_mem _ b k (hnone (by rw [hg]; intro d hd; simp at hd))]
  | some d =>
    simp only []
    by_cases hpos : 0 < d.count
    · rw [if_pos hpos]
      apply importItems_exported_of_mem _ b k d (nodup_exported now localeCompare a ha hnamed)
      · rw [mem_exported]
        exact ⟨⟨(k, d), mem_of_mapGet _ _ _ hg, rfl⟩, hpos⟩
      · exact (hnamed (k, d) (mem_of_mapGet _ _ _ hg)).1
      · exact hb
    · rw [if_neg hpos]
      rw [importItems_exported_of_not_mem _ b k (hnone (by
        rw [hg]; intro d1 hd1
        simp only [Option.some.injEq] at hd1
        rw [← hd1]; omega))]

theorem constructor_counts (k : String) (d : BuzzwordData)
    (h : mapGet constructor.buzzwords k = some d) : d.count = 0 :=
  constructor_entries (fun e => e.2.count = 0) (fun _ _ => rfl) (k, d) (mem_of_mapGet _ _ _ h)

end BuzzwordManager

set_option maxRecDepth 1000000 in
/-- C14, as stated, fails: `A` is the fresh dictionary after
`addCustomBuzzword("foo")` and `detectBuzzwords("foo")`, so that the count of
"foo" in `A` is 1; `B` is a fresh dictionary; `B.importResults(A.exportResults())`
returns true and leaves "foo" in `B` with the count 0: the counts are written
while `B` does not have the key yet, the custom words are added after that. -/
theorem import_loses_custom_count :
    BuzzwordManager.getCount
      (runDictOps BuzzwordManager.constructor [DictOp.add "foo", DictOp.detect 0 "foo"]) "foo" = 1 ∧
    (BuzzwordManager.importResults BuzzwordManager.constructor
      (some (exportedData (BuzzwordManager.exportResults 1 (fun _ _ => 0)
        (runDictOps BuzzwordManager.constructor
          [DictOp.add "foo", DictOp.detect 0 "foo"]))))).2 = true ∧
    mapHas (BuzzwordManager.importResults BuzzwordManager.constructor
      (some (exportedData (BuzzwordManager.exportResults 1 (fun _ _ => 0)
        (runDictOps BuzzwordManager.constructor
          [DictOp.add "foo", DictOp.detect 0 "foo"]))))).1.buzzwords "foo" = true ∧
    BuzzwordManager.getCount
      (BuzzwordManager.importResults BuzzwordManager.constructor
        (some (exportedData (BuzzwordManager.exportResults 1 (fun _ _ => 0)
          (runDictOps BuzzwordManager.constructor
            [DictOp.add "foo", DictOp.detect 0 "foo"]))))).1 "foo" = 0 := by
  decide

/-- C14, amended: for every dictionary `A` reached from the constructor by any
sequence of `addCustomBuzzword`, `removeBuzzword` and `detectBuzzwords` calls
(and `resetCounts` and `importResults` calls as well), and a freshly constructed
dictionary `B`, `B.importResults(A.exportResults())` returns true, and afterwards
`B.getCount(k) == A.getCount(k)` for every key `k` that `B` had before the
import, that is for every built-in key. -/
theorem export_import_builtin_counts (ops : List DictOp) (now : Nat)
    (localeCompare : String → String → Int) :
    (BuzzwordManager.importResults BuzzwordManager.constructor
      (some (exportedData (BuzzwordManager.exportResults now localeCompare
        (runDictOps BuzzwordManager.constructor ops))))).2 = true ∧
    ∀ k, mapHas BuzzwordManager.constructor.buzzwords k = true →
      BuzzwordManager.getCount
        (BuzzwordManager.importResults BuzzwordManager.constructor
          (some (exportedData (BuzzwordManager.exportResults now localeCompare
            (runDictOps BuzzwordManager.constructor ops))))).1 k =
      BuzzwordManager.getCount (runDictOps BuzzwordManager.constructor ops) k := by
  have hinv := BuzzwordManager.dictInv_runDictOps ops BuzzwordManager.constructor
    BuzzwordManager.dictInv_constructor
  constructor
  · rw [BuzzwordManager.importResults_exported]
  · intro k hk
    have hlow := BuzzwordManager.toLowerCase_of_mapHas _ BuzzwordManager.wellFormed_constructor
      k hk
    have hget := BuzzwordManager.importResults_exported_get now localeCompare
      (runDictOps BuzzwordManager.constructor ops) BuzzwordManager.constructor
      hinv.1 hinv.2.1 BuzzwordManager.wellFormed_constructor k hk
    have hdef : k ∈ DEFAULT_BUZZWORDS := (BuzzwordManager.constructor_mapHas k).mp hk
    obtain ⟨d, hd, _⟩ := hinv.2.2 k hdef
    rw [default_words_lower k hdef] at hd
    unfold mapHas at hk
    cases hb : mapGet BuzzwordManager.constructor.buzzwords k with
    | none => rw [hb] at hk; simp at hk
    | some d0 =>
      have h0 := BuzzwordManager.constructor_counts k d0 hb
      rw [hd, hb] at hget
      simp only [Option.map_some'] at hget
      unfold BuzzwordManager.getCount
      rw [hlow, hd]
      simp only []
      cases hr : mapGet (BuzzwordManager.importResults BuzzwordManager.constructor
          (some (exportedData (BuzzwordManager.exportResults now localeCompare
            (runDictOps BuzzwordManager.constructor ops))))).1.buzzwords k with
      | none => rw [hr] at hget; split at hget <;> simp at hget
      | some dr =>
        rw [hr] at hget
        simp only [Option.map_some'] at hget
        simp only []
        split at hget
        · simp only [Option.some.injEq] at hget
          exact hget
        · simp only [Option.some.injEq] at hget
          omega

/-! ## Theorems: the words of the card -/

namespace BuzzwordManager

theorem cardSquare_gridIndex_some (sel : List BuzzwordData) (j : Nat) (d : BuzzwordData)
    (hd : sel[j]? = some d) :
    cardSquare sel (gridIndex j) =
      { word := if d.word = "" then "Empty" else d.word, isFree := false, isMarked := false } := by
  unfold cardSquare gridIndex
  by_cases h : j < 12
  · have h1 : ¬ j = 12 := by omega
    simp only [h, h1, if_true, if_false, hd]
  · have h1 : ¬ j + 1 = 12 := by omega
    have h2 : ¬ j + 1 < 12 := by omega
    simp only [h, h1, h2, if_false, Nat.add_sub_cancel, hd]

theorem cardSquare_gridIndex_none (sel : List BuzzwordData) (j : Nat) (hd : sel[j]? = none) :
    cardSquare sel (gridIndex j) = { word := "Empty", isFree := false, isMarked := false } := by
  unfold cardSquare gridIndex
  by_cases h : j < 12
  · have h1 : ¬ j = 12 := by omega
    simp only [h, h1, if_true, if_false, hd]
  · have h1 : ¬ j + 1 = 12 := by omega
    have h2 : ¬ j + 1 < 12 := by omega
    simp only [h, h1, h2, if_false, Nat.add_sub_cancel, hd]

theorem generateBingoCard_gridIndex (shuffle : List BuzzwordData → List BuzzwordData)
    (s : BuzzwordManager) (j : Nat) (hj : j < 24) :
    (generateBingoCard shuffle s).2[gridIndex j]? =
      some (cardSquare ((shuffle (s.buzzwords.map (fun e => e.2))).take 24) (gridIndex j)) := by
  have h2 : (generateBingoCard shuffle s).2 = (generateBingoCard shuffle s).1.bingoCard := rfl
  have hg : gridIndex j < 25 := by unfold gridIndex; split <;> omega
  rw [h2, generateBingoCard_bingoCard, List.getElem?_map, List.getElem?_range hg]
  rfl

theorem nodup_words (s : BuzzwordManager) (hs : WellFormed s) (hnamed : EntriesNamed s) :
    ((s.buzzwords.map (fun e => e.2)).map (fun d => d.word)).Nodup := by
  apply List.Nodup.of_map toLowerCase
  have : ((s.buzzwords.map (fun e => e.2)).map (fun d => d.word)).map toLowerCase =
      s.buzzwords.map (fun e => e.1) := by
    rw [List.map_map, List.map_map]
    apply List.map_congr_left
    intro e he
    exact (hnamed e he).1
  rw [this]
  exact hs.1

end BuzzwordManager

theorem length_filter_range_le (n : Nat) (h : n < 24) :
    ((List.range 24).filter (fun j => decide (n ≤ j))).length = 24 - n := by
  interval_cases n <;> rfl

/-- Placement of the entries on the card: on a well-formed dictionary whose
entries are stored under the lower case form of their non-empty words, and for
every ordering of the entries the shuffle may produce, the non-free square
filled from position `j < 24` of the shuffled entries is at grid index `j` for
`j < 12` and `j + 1` for `j >= 12`, is unmarked, and carries the word of the
entry at that position when there is one and the text "Empty" when there is
none; entries at different positions have different words.  With at least 24
entries each of the 24 positions has an entry; with `n < 24` entries the
positions without an entry are those from `n` on, `24 - n` of them. -/
theorem generateBingoCard_positions (shuffle : List BuzzwordData → List BuzzwordData)
    (s : BuzzwordManager) (hs : WellFormed s) (hnamed : EntriesNamed s)
    (hperm : (shuffle (s.buzzwords.map (fun e => e.2))).Perm (s.buzzwords.map (fun e => e.2))) :
    (∀ j d, j < 24 → (shuffle (s.buzzwords.map (fun e => e.2)))[j]? = some d →
      (∃ e ∈ s.buzzwords, e.2 = d) ∧
      (BuzzwordManager.generateBingoCard shuffle s).2[gridIndex j]? =
        some { word := d.word, isFree := false, isMarked := false }) ∧
    (∀ j, j < 24 → (shuffle (s.buzzwords.map (fun e => e.2)))[j]? = none →
      (BuzzwordManager.generateBingoCard shuffle s).2[gridIndex j]? =
        some { word := "Empty", isFree := false, isMarked := false }) ∧
    (∀ (j1 j2 : Nat) (d1 d2 : BuzzwordData), (shuffle (s.buzzwords.map (fun e => e.2)))[j1]? = some d1 →
      (shuffle (s.buzzwords.map (fun e => e.2)))[j2]? = some d2 → j1 ≠ j2 →
      d1.word ≠ d2.word) ∧
    (∀ i, i < 25 → i ≠ 12 → ∃ j, j < 24 ∧ gridIndex j = i) ∧
    (24 ≤ s.buzzwords.length →
      ∀ j, j < 24 → ∃ d, (shuffle (s.buzzwords.map (fun e => e.2)))[j]? = some d) ∧
    (s.buzzwords.length < 24 →
      (∀ j, (shuffle (s.buzzwords.map (fun e => e.2)))[j]? = none ↔ s.buzzwords.length ≤ j) ∧
      ((List.range 24).filter
        (fun j => decide ((shuffle (s.buzzwords.map (fun e => e.2)))[j]? = none))).length =
        24 - s.buzzwords.length) := by
  have hlen : (shuffle (s.buzzwords.map (fun e => e.2))).length = s.buzzwords.length := by
    rw [hperm.length_eq, List.length_map]
  have hnd : ((shuffle (s.buzzwords.map (fun e => e.2))).map (fun d => d.word)).Nodup :=
    ((hperm.map _).nodup_iff).mpr (BuzzwordManager.nodup_words s hs hnamed)
  refine ⟨?_, ?_, ?_, ?_, ?_, ?_⟩
  · intro j d hj hd
    have hmem : d ∈ s.buzzwords.map (fun e => e.2) := hperm.mem_iff.mp (List.getElem?_mem hd)
    rw [List.mem_map] at hmem
    obtain ⟨e, he, hed⟩ := hmem
    refine ⟨⟨e, he, hed⟩, ?_⟩
    have hne : d.word ≠ "" := by rw [← hed]; exact (hnamed e he).2
    rw [BuzzwordManager.generateBingoCard_gridIndex shuffle s j hj,
      BuzzwordManager.cardSquare_gridIndex_some _ j d
        (by rw [List.getElem?_take_of_lt hj]; exact hd), if_neg hne]
  · intro j hj hd
    rw [BuzzwordManager.generateBingoCard_gridIndex shuffle s j hj,
      BuzzwordManager.cardSquare_gridIndex_none _ j
        (by rw [List.getElem?_take_of_lt hj]; exact hd)]
  · intro j1 j2 d1 d2 h1 h2 hne heq
    rw [List.nodup_iff_getElem?_ne_getElem?] at hnd
    have e1 : ((shuffle (s.buzzwords.map (fun e => e.2))).map (fun d => d.word))[j1]? =
        some d1.word := by rw [List.getElem?_map, h1]; rfl
    have e2 : ((shuffle (s.buzzwords.map (fun e => e.2))).map (fun d => d.word))[j2]? =
        some d2.word := by rw [List.getElem?_map, h2]; rfl
    have l1 : j1 < ((shuffle (s.buzzwords.map (fun e => e.2))).map (fun d => d.word)).length := by
      by_contra hc
      rw [List.getElem?_eq_none (by omega)] at e1
      simp at e1
    have l2 : j2 < ((shuffle (s.buzzwords.map (fun e => e.2))).map (fun d => d.word)).length := by
      by_contra hc
      rw [List.getElem?_eq_none (by omega)] at e2
      simp at e2
    rcases Nat.lt_or_gt_of_ne hne with hlt | hgt
    · apply hnd j1 j2 hlt l2
      rw [e1, e2, heq]
    · apply hnd j2 j1 hgt l1
      rw [e1, e2, heq]
  · intro i hi hi12
    by_cases h : i < 12
    · exact ⟨i, by omega, by unfold gridIndex; rw [if_pos h]⟩
    · refine ⟨i - 1, by omega, ?_⟩
      unfold gridIndex
      rw [if_neg (by omega)]
      omega
  · intro h24 j hj
    have hlt : j < (shuffle (s.buzzwords.map (fun e => e.2))).length := by omega
    exact ⟨_, List.getElem?_eq_getElem hlt⟩
  · intro hn
    have hiff : ∀ j, (shuffle (s.buzzwords.map (fun e => e.2)))[j]? = none ↔
        s.buzzwords.length ≤ j := by
      intro j
      rw [List.getElem?_eq_none_iff, hlen]
    refine ⟨hiff, ?_⟩
    rw [← length_filter_range_le s.buzzwords.length hn]
    congr 1
    apply List.filter_congr
    intro j _
    rw [decide_eq_decide]
    exact hiff j

theorem length_filter_range_placeholder (n : Nat) (h : n < 24) :
    ((List.range 25).filter
      (fun i => decide (i ≠ 12 ∧ n ≤ (if i < 12 then i else i - 1)))).length = 24 - n := by
  interval_cases n <;> rfl

theorem gridIndex_wordIndex (i : Nat) (hi : i ≠ 12) :
    gridIndex (if i < 12 then i else i - 1) = i := by
  unfold gridIndex
  by_cases h : i < 12
  · rw [if_pos h, if_pos h]
  · rw [if_neg h, if_neg (by omega)]
    omega

theorem gridIndex_ne_twelve (j : Nat) : gridIndex j ≠ 12 := by
  unfold gridIndex
  split <;> omega

theorem cardSquare_twelve (sel : List BuzzwordData) :
    BuzzwordManager.cardSquare sel 12 = { word := "FREE", isFree := true, isMarked := true } := by
  unfold BuzzwordManager.cardSquare
  rw [if_pos rfl]

theorem cardSquare_placeholder_iff (sel : List BuzzwordData) (n i : Nat)
    (hnone : ∀ j, sel[j]? = none ↔ n ≤ j)
    (hword : ∀ (j : Nat) (d : BuzzwordData), sel[j]? = some d → d.word ≠ "" ∧ d.word ≠ "Empty") :
    (!(BuzzwordManager.cardSquare sel i).isFree &&
        decide ((BuzzwordManager.cardSquare sel i).word = "Empty")) =
      decide (i ≠ 12 ∧ n ≤ (if i < 12 then i else i - 1)) := by
  by_cases hi : i = 12
  · subst hi
    rw [cardSquare_twelve]
    simp
  · rw [← gridIndex_wordIndex i hi]
    generalize (if i < 12 then i else i - 1) = j
    have hg : (if gridIndex j < 12 then gridIndex j else gridIndex j - 1) = j := by
      unfold gridIndex
      by_cases h : j < 12
      · rw [if_pos h, if_pos h]
      · rw [if_neg h, if_neg (by omega)]
        omega
    rw [hg]
    cases hd : sel[j]? with
    | none =>
      rw [BuzzwordManager.cardSquare_gridIndex_none sel j hd]
      have := (hnone j).mp hd
      simp [gridIndex_ne_twelve, this]
    | some d =>
      rw [BuzzwordManager.cardSquare_gridIndex_some sel j d hd]
      obtain ⟨h1, h2⟩ := hword j d hd
      have h3 : ¬ n ≤ j := by
        intro hc
        rw [(hnone j).mpr hc] at hd
        simp at hd
      simp [h1, h2, h3]

set_option maxRecDepth 1000000 in
/-- C13, as stated, fails: `addCustomBuzzword` accepts the word "Empty" on the
fresh dictionary, which then has 93 entries stored under distinct lower case
keys, each under the lower case form of its non-empty word; when the shuffle
reverses the entries (a permutation of them), the non-free square at index 0
of the generated card carries the text "Empty", the text of the placeholder,
although the dictionary has more than 24 entries. -/
theorem generateBingoCard_placeholder_entry :
    (BuzzwordManager.addCustomBuzzword BuzzwordManager.constructor "Empty").2 = true ∧
    (BuzzwordManager.addCustomBuzzword BuzzwordManager.constructor "Empty").1.buzzwords.length
      = 93 ∧
    WellFormed (BuzzwordManager.addCustomBuzzword BuzzwordManager.constructor "Empty").1 ∧
    EntriesNamed (BuzzwordManager.addCustomBuzzword BuzzwordManager.constructor "Empty").1 ∧
    mapGet (BuzzwordManager.addCustomBuzzword BuzzwordManager.constructor "Empty").1.buzzwords
      "empty" = some { word := "Empty", count := 0, isCustom := true, lastDetected := none } ∧
    (List.reverse ((BuzzwordManager.addCustomBuzzword BuzzwordManager.constructor
      "Empty").1.buzzwords.map (fun e => e.2))).Perm
      ((BuzzwordManager.addCustomBuzzword BuzzwordManager.constructor
        "Empty").1.buzzwords.map (fun e => e.2)) ∧
    (BuzzwordManager.generateBingoCard List.reverse
      (BuzzwordManager.addCustomBuzzword BuzzwordManager.constructor "Empty").1).2[0]? =
      some { word := "Empty", isFree := false, isMarked := false } :=
  ⟨by decide, by decide,
   (BuzzwordManager.dictInv_addCustomBuzzword _ _ BuzzwordManager.dictInv_constructor).1,
   (BuzzwordManager.dictInv_addCustomBuzzword _ _ BuzzwordManager.dictInv_constructor).2.1,
   by decide, List.reverse_perm _, by decide⟩

/-- C13, amended: on a well-formed dictionary whose entries are stored under
the lower case form of their non-empty words and none of whose entries has the
text "Empty", and for every ordering of the entries the shuffle may produce:
the non-free square filled from position `j < 24` of the shuffled entries is
at grid index `j` for `j < 12` and `j + 1` for `j >= 12`, is unmarked, and
carries the text of the entry at that position when there is one and the label
"Empty" when there is none, and every non-free square is filled from one of
these positions.  With at least 24 entries each of the 24 positions has an
entry, every non-free square of the card carries the text of a dictionary
entry and not the label "Empty", and two different non-free squares carry
different texts.  With `n < 24` entries the positions without an entry are
those from `n` on, and exactly `24 - n` non-free squares of the card carry
the label "Empty". -/
theorem generateBingoCard_sampling_texts (shuffle : List BuzzwordData → List BuzzwordData)
    (s : BuzzwordManager) (hs : WellFormed s) (hnamed : EntriesNamed s)
    (hperm : (shuffle (s.buzzwords.map (fun e => e.2))).Perm (s.buzzwords.map (fun e => e.2)))
    (hlabel : ∀ e ∈ s.buzzwords, e.2.word ≠ "Empty") :
    (∀ j d, j < 24 → (shuffle (s.buzzwords.map (fun e => e.2)))[j]? = some d →
      (∃ e ∈ s.buzzwords, e.2 = d) ∧
      (BuzzwordManager.generateBingoCard shuffle s).2[gridIndex j]? =
        some { word := d.word, isFree := false, isMarked := false }) ∧
    (∀ j, j < 24 → (shuffle (s.buzzwords.map (fun e => e.2)))[j]? = none →
      (BuzzwordManager.generateBingoCard shuffle s).2[gridIndex j]? =
        some { word := "Empty", isFree := false, isMarked := false }) ∧
    (∀ (i : Nat) (sq : BingoSquare),
      (BuzzwordManager.generateBingoCard shuffle s).2[i]? = some sq → sq.isFree = false →
      ∃ j, j < 24 ∧ gridIndex j = i) ∧
    ((BuzzwordManager.generateBingoCard shuffle s).2.filter (fun sq => !sq.isFree)).length = 24 ∧
    (24 ≤ s.buzzwords.length →
      (∀ j, j < 24 → ∃ d, (shuffle (s.buzzwords.map (fun e => e.2)))[j]? = some d) ∧
      (∀ (i : Nat) (sq : BingoSquare),
        (BuzzwordManager.generateBingoCard shuffle s).2[i]? = some sq → sq.isFree = false →
        sq.word ≠ "Empty" ∧ ∃ e ∈ s.buzzwords, e.2.word = sq.word) ∧
      (∀ (i1 i2 : Nat) (sq1 sq2 : BingoSquare),
        (BuzzwordManager.generateBingoCard shuffle s).2[i1]? = some sq1 →
        (BuzzwordManager.generateBingoCard shuffle s).2[i2]? = some sq2 →
        sq1.isFree = false → sq2.isFree = false → i1 ≠ i2 → sq1.word ≠ sq2.word)) ∧
    (s.buzzwords.length < 24 →
      (∀ j, (shuffle (s.buzzwords.map (fun e => e.2)))[j]? = none ↔ s.buzzwords.length ≤ j) ∧
      ((BuzzwordManager.generateBingoCard shuffle s).2.filter
        (fun sq => !sq.isFree && decide (sq.word = "Empty"))).length =
        24 - s.buzzwords.length) := by
  obtain ⟨hsome, hnone, hdiff, honto, hfull, hshort⟩ :=
    generateBingoCard_positions shuffle s hs hnamed hperm
  have hfree : ∀ (i : Nat) (sq : BingoSquare),
      (BuzzwordManager.generateBingoCard shuffle s).2[i]? = some sq →
      sq.isFree = false → ∃ j, j < 24 ∧ gridIndex j = i := by
    intro i sq hsq hf
    obtain ⟨hi, hfr, _⟩ := BuzzwordManager.generateBingoCard_getElem? shuffle s i sq hsq
    apply honto i hi
    intro hc
    rw [hf] at hfr
    simp [hc] at hfr
  have h2 : (BuzzwordManager.generateBingoCard shuffle s).2 =
      (BuzzwordManager.generateBingoCard shuffle s).1.bingoCard := rfl
  refine ⟨hsome, hnone, hfree, ?_, ?_, ?_⟩
  · rw [h2, BuzzwordManager.generateBingoCard_bingoCard, List.filter_map, List.length_map]
    have hf : ((fun sq : BingoSquare => !sq.isFree) ∘
        BuzzwordManager.cardSquare ((shuffle (s.buzzwords.map (fun e => e.2))).take 24)) =
        fun i => !decide (i = 12) := by
      funext i
      simp only [Function.comp, BuzzwordManager.cardSquare_isFree]
    rw [hf]
    rfl
  · intro h24
    refine ⟨hfull h24, ?_, ?_⟩
    · intro i sq hsq hf
      obtain ⟨j, hj, hji⟩ := hfree i sq hsq hf
      obtain ⟨d, hd⟩ := hfull h24 j hj
      obtain ⟨⟨e, he, hed⟩, hcell⟩ := hsome j d hj hd
      rw [hji, hsq] at hcell
      simp only [Option.some.injEq] at hcell
      subst hcell
      subst hed
      exact ⟨hlabel e he, e, he, rfl⟩
    · intro i1 i2 sq1 sq2 h1 h2 hf1 hf2 hne
      obtain ⟨j1, hj1, hji1⟩ := hfree i1 sq1 h1 hf1
      obtain ⟨j2, hj2, hji2⟩ := hfree i2 sq2 h2 hf2
      obtain ⟨d1, hd1⟩ := hfull h24 j1 hj1
      obtain ⟨d2, hd2⟩ := hfull h24 j2 hj2
      have hc1 := (hsome j1 d1 hj1 hd1).2
      have hc2 := (hsome j2 d2 hj2 hd2).2
      rw [hji1, h1] at hc1
      rw [hji2, h2] at hc2
      simp only [Option.some.injEq] at hc1 hc2
      subst hc1
      subst hc2
      apply hdiff j1 j2 d1 d2 hd1 hd2
      intro hc
      apply hne
      rw [← hji1, ← hji2, hc]
  · intro hn
    obtain ⟨hiff, _⟩ := hshort hn
    refine ⟨hiff, ?_⟩
    rw [h2, BuzzwordManager.generateBingoCard_bingoCard, List.filter_map, List.length_map,
      ← length_filter_range_placeholder s.buzzwords.length hn]
    congr 1
    apply List.filter_congr
    intro i _
    simp only [Function.comp]
    apply cardSquare_placeholder_iff
    · intro j
      rw [List.getElem?_take]
      split
      · exact hiff j
      · constructor
        · intro _; omega
        · intro _; rfl
    · intro j d hd
      have hmem : d ∈ s.buzzwords.map (fun e => e.2) :=
        hperm.mem_iff.mp ((List.take_subset _ _) (List.getElem?_mem hd))
      rw [List.mem_map] at hmem
      obtain ⟨e, he, hed⟩ := hmem
      subst hed
      exact ⟨(hnamed e he).2, hlabel e he⟩

set_option maxRecDepth 1000000 in
/-- Witness of C13 amended: on the fresh dictionary, with the order of the
entries left as it is, no non-free square carries the label "Empty"; on a
dictionary of two entries with the order reversed, 22 non-free squares carry
it. -/
theorem generateBingoCard_sampling_texts_witness :
    (∀ (i : Nat) (sq : BingoSquare),
        (BuzzwordManager.generateBingoCard id BuzzwordManager.constructor).2[i]? = some sq →
        sq.isFree = false →
        sq.word ≠ "Empty" ∧ ∃ e ∈ BuzzwordManager.constructor.buzzwords, e.2.word = sq.word) ∧
    ((BuzzwordManager.generateBingoCard List.reverse
        ⟨[("agi", ⟨"agi", 0, false, none⟩), ("new", ⟨"new", 0, false, none⟩)], [], [],
          []⟩).2.filter
        (fun sq => !sq.isFree && decide (sq.word = "Empty"))).length = 24 - 2 :=
  ⟨((generateBingoCard_sampling_texts id BuzzwordManager.constructor
      BuzzwordManager.wellFormed_constructor BuzzwordManager.entriesNamed_constructor
      (List.Perm.refl _)
      (BuzzwordManager.constructor_entries (fun e => e.2.word ≠ "Empty") (by decide))).2.2.2.2.1
      (by
        have := BuzzwordManager.default_length_le _ BuzzwordManager.defaultsKept_constructor
        omega)).2.1,
   ((generateBingoCard_sampling_texts List.reverse
      ⟨[("agi", ⟨"agi", 0, false, none⟩), ("new", ⟨"new", 0, false, none⟩)], [], [], []⟩
      (by unfold WellFormed; decide) (by unfold EntriesNamed; decide)
      (List.reverse_perm _) (by decide)).2.2.2.2.2 (by decide)).2⟩

/-! ## Theorems: the transcription service -/

theorem splitChars_ne_nil (l : List Char) : splitChars l ≠ [] := by
  cases l with
  | nil => simp [splitChars]
  | cons c rest =>
    unfold splitChars
    split
    · simp
    · split <;> simp

theorem joinChars_cons_of_ne_nil (w : List Char) (l : List (List Char)) (h : l ≠ []) :
    joinChars (w :: l) = w ++ Char.ofNat 32 :: joinChars l := by
  cases l with
  | nil => exact absurd rfl h
  | cons v ws => rfl

theorem joinChars_splitChars (l : List Char) : joinChars (splitChars l) = l := by
  induction l with
  | nil => rfl
  | cons c rest ih =>
    unfold splitChars
    by_cases hc : c = Char.ofNat 32
    · rw [if_pos hc, joinChars_cons_of_ne_nil _ _ (splitChars_ne_nil rest), ih, hc]
      rfl
    · rw [if_neg hc]
      cases hs : splitChars rest with
      | nil => exact absurd hs (splitChars_ne_nil rest)
      | cons w ws =>
        simp only []
        rw [hs] at ih
        cases ws with
        | nil =>
          simp only [joinChars] at ih ⊢
          rw [ih]
        | cons v ws1 =>
          rw [joinChars_cons_of_ne_nil _ _ (by simp)] at ih ⊢
          rw [List.cons_append, ih]

theorem joinSpace_splitSpace (text : String) : joinSpace (splitSpace text) = text := by
  unfold joinSpace splitSpace
  rw [List.map_map]
  have : (String.data ∘ String.mk) = id := by
    funext l; rfl
  rw [this, List.map_id, joinChars_splitChars]

theorem splitSpace_ne_nil (text : String) : splitSpace text ≠ [] := by
  unfold splitSpace
  intro h
  rw [List.map_eq_nil_iff] at h
  exact splitChars_ne_nil _ h

theorem joinChars_append_pair (x : List (List Char)) (a b : List Char) :
    joinChars (x ++ [a, b]) = joinChars (x ++ [a ++ Char.ofNat 32 :: b]) := by
  induction x with
  | nil => rfl
  | cons w x ih =>
    rw [List.cons_append, List.cons_append, joinChars_cons_of_ne_nil _ _ (by simp),
      joinChars_cons_of_ne_nil _ _ (by simp), ih]

theorem joinChars_append (a b : List (List Char)) (ha : a ≠ []) (hb : b ≠ []) :
    joinChars (a ++ b) = joinChars a ++ Char.ofNat 32 :: joinChars b := by
  induction a with
  | nil => exact absurd rfl ha
  | cons w a ih =>
    cases a with
    | nil =>
      rw [List.singleton_append, joinChars_cons_of_ne_nil _ _ hb]
      rfl
    | cons v a1 =>
      have h1 : joinChars (w :: v :: a1) = w ++ Char.ofNat 32 :: joinChars (v :: a1) := rfl
      rw [List.cons_append, joinChars_cons_of_ne_nil w ((v :: a1) ++ b) (by simp),
        ih (by simp), h1]
      simp

/-- The chunk cut at `ci` with a positive size, and what is left after it:
when words are left, the rest joined is the chunk, a space, and the rest after
the chunk joined; when none is left, the chunk is the rest joined. -/
theorem joinChars_drop (w : List (List Char)) (ci z : Nat) (hz : 0 < z) (hci : ci < w.length) :
    (ci + z < w.length →
      joinChars (w.drop ci) =
        joinChars ((w.drop ci).take z) ++ Char.ofNat 32 :: joinChars (w.drop (ci + z))) ∧
    (w.length ≤ ci + z → joinChars ((w.drop ci).take z) = joinChars (w.drop ci)) := by
  constructor
  · intro h
    have hsplit : w.drop ci = (w.drop ci).take z ++ w.drop (ci + z) := by
      rw [← List.drop_drop, List.take_append_drop]
    conv => lhs; rw [hsplit]
    apply joinChars_append
    · intro h0
      have := congrArg List.length h0
      simp at this
      omega
    · intro h0
      have := congrArg List.length h0
      simp at this
      omega
  · intro h
    rw [List.take_of_length_le]
    simp
    omega

namespace TranscriptionService

theorem run_append (s : TranscriptionService) (a b : List Event) :
    run s (a ++ b) = ((run (run s a).1 b).1, (run s a).2 ++ (run (run s a).1 b).2) := by
  induction a generalizing s with
  | nil => simp [run]
  | cons e rest ih =>
    rw [List.cons_append, run, ih]
    simp [run]

theorem run_singleton (s : TranscriptionService) (e : Event) : run s [e] = step s e := by
  simp [run]

theorem step_simulationTick (s : TranscriptionService) (handle chunkSize now : Nat) :
    step s (Event.simulationTick handle chunkSize now) = simulationTick s handle chunkSize now :=
  rfl

end TranscriptionService

theorem segmentTexts_append (a b : List Action) :
    segmentTexts (a ++ b) = segmentTexts a ++ segmentTexts b := by
  induction a with
  | nil => rfl
  | cons x rest ih =>
    cases x <;> simp [segmentTexts, ih]

theorem ticks_succ (handle : Nat) (sizes times : Nat → Nat) (n : Nat) :
    ticks handle sizes times (n + 1) =
      ticks handle sizes times n ++ [Event.simulationTick handle (sizes n) (times n)] := by
  unfold ticks
  rw [List.range_succ, List.map_append]
  rfl

namespace TranscriptionService

theorem simulateTranscription_progress (s0 : TranscriptionService) (text : String)
    (htext : text ≠ "") (hcb : s0.onTranscriptionCallback = true) :
    (simulateTranscription s0 text).2 = some s0.simulations.length ∧
    SimProgress (simulateTranscription s0 text).1 s0.simulations.length (splitSpace text) [] 0 := by
  unfold simulateTranscription
  rw [if_neg htext]
  refine ⟨rfl, hcb, ⟨{ words := splitSpace text, currentIndex := 0, active := true }, ?_, rfl, ?_, ?_⟩⟩
  · simp
  · intro _
    refine ⟨Nat.le_refl 0, ?_, ?_⟩
    · intro _
      simp [joinChars]
    · intro h
      have := splitSpace_ne_nil text
      simp only [] at h
      have h0 : (splitSpace text).length = 0 := by omega
      exact absurd (List.length_eq_zero.mp h0) this
  · intro h
    simp at h

theorem simulationTick_progress (s : TranscriptionService) (handle : Nat)
    (words emitted : List String) (n z now : Nat) (hz : 1 ≤ z)
    (h : SimProgress s handle words emitted n) :
    SimProgress (simulationTick s handle z now).1 handle words
      (emitted ++ segmentTexts (simulationTick s handle z now).2) (n + 1) ∧
    (words.length ≤ n →
      ((simulationTick s handle z now).1.simulations[handle]?).map (fun sim => sim.active) =
        some false ∧
      segmentTexts (simulationTick s handle z now).2 = []) := by
  obtain ⟨hcb, sim, hsim, hw, hact, hinact⟩ := h
  have hlt : handle < s.simulations.length := by
    by_contra hc
    rw [List.getElem?_eq_none (by omega)] at hsim
    simp at hsim
  unfold simulationTick
  rw [hsim]
  simp only []
  by_cases ha : sim.active = true
  · obtain ⟨hn, h1, h2⟩ := hact ha
    have hna : (!sim.active) = false := by rw [ha]; rfl
    rw [hna]
    simp only [Bool.false_eq_true, if_false]
    by_cases hci : sim.currentIndex ≥ sim.words.length
    · rw [if_pos hci]
      rw [hw] at hci
      refine ⟨⟨hcb, { sim with active := false }, ?_, hw, ?_, ?_⟩, ?_⟩
      · simp only [List.getElem?_set_self hlt]
      · intro hc; simp at hc
      · intro _
        simp only [segmentTexts, List.append_nil]
        exact h2 hci
      · intro _
        simp only [List.getElem?_set_self hlt, segmentTexts]
        exact ⟨rfl, trivial⟩
    · rw [if_neg hci]
      rw [hw] at hci
      have hci1 : sim.currentIndex < words.length := by omega
      have hdata : (joinSpace ((sim.words.drop sim.currentIndex).take z)).data =
          joinChars (((words.map String.data).drop sim.currentIndex).take z) := by
        unfold joinSpace
        simp only [hw, List.map_take, List.map_drop]
      have hlenW : (words.map String.data).length = words.length := List.length_map _ _
      have hdrop := joinChars_drop (words.map String.data) sim.currentIndex z (by omega)
        (by omega)
      refine ⟨⟨hcb, { sim with currentIndex := sim.currentIndex + z }, ?_, hw, ?_, ?_⟩, ?_⟩
      · simp only [List.getElem?_set_self hlt]
      · intro _
        simp only [hcb, if_true, segmentTexts, List.map_append, List.map_cons, List.map_nil,
          hdata]
        refine ⟨by omega, ?_, ?_⟩
        · intro hnext
          rw [List.append_assoc, List.singleton_append, joinChars_append_pair,
            ← hdrop.1 (by omega)]
          exact h1 hci1
        · intro hend
          rw [hdrop.2 (by omega)]
          exact h1 hci1
      · intro hc
        simp only [] at hc
        rw [ha] at hc
        simp at hc
      · intro hlen
        omega
  · have hf : sim.active = false := by simpa using ha
    have hna : (!sim.active) = true := by rw [hf]; rfl
    rw [hna]
    simp only [if_true]
    refine ⟨⟨hcb, sim, hsim, hw, ?_, ?_⟩, ?_⟩
    · intro hc; exact absurd hc ha
    · intro _
      simp only [segmentTexts, List.append_nil]
      exact hinact hf
    · intro _
      rw [hsim]
      simp only [Option.map_some', hf, segmentTexts]
      exact ⟨trivial, trivial⟩

theorem run_ticks_progress (s1 : TranscriptionService) (handle : Nat) (words : List String)
    (sizes times : Nat → Nat) (hsz : ∀ t, 1 ≤ sizes t)
    (h : SimProgress s1 handle words [] 0) (n : Nat) :
    SimProgress (run s1 (ticks handle sizes times n)).1 handle words
      (segmentTexts (run s1 (ticks handle sizes times n)).2) n := by
  induction n with
  | zero => exact h
  | succ n ih =>
    rw [ticks_succ, run_append, run_singleton, step_simulationTick]
    simp only [segmentTexts_append]
    exact (simulationTick_progress _ handle words _ n (sizes n) (times n) (hsz n) ih).1

theorem run_ticks_done (s1 : TranscriptionService) (handle : Nat) (words : List String)
    (sizes times : Nat → Nat) (hsz : ∀ t, 1 ≤ sizes t)
    (h : SimProgress s1 handle words [] 0) (m : Nat) (hm : words.length + 1 ≤ m) :
    ((run s1 (ticks handle sizes times m)).1.simulations[handle]?).map (fun sim => sim.active) =
      some false ∧
    segmentTexts (run s1 (ticks handle sizes times m)).2 =
      segmentTexts (run s1 (ticks handle sizes times (words.length + 1))).2 ∧
    joinChars ((segmentTexts (run s1 (ticks handle sizes times m)).2).map String.data) =
      joinChars (words.map String.data) := by
  induction m, hm using Nat.le_induction with
  | base =>
    have ih := run_ticks_progress s1 handle words sizes times hsz h words.length
    have hstep := simulationTick_progress _ handle words _ words.length (sizes words.length)
      (times words.length) (hsz _) ih
    have hdone := hstep.2 (Nat.le_refl _)
    rw [ticks_succ, run_append, run_singleton, step_simulationTick]
    simp only [segmentTexts_append]
    refine ⟨hdone.1, trivial, ?_⟩
    obtain ⟨_, sim, hsim, _, _, hinact⟩ := hstep.1
    have hd := hdone.1
    rw [hsim] at hd
    simp only [Option.map_some', Option.some.injEq] at hd
    exact hinact hd
  | succ m hm ih =>
    have ihp := run_ticks_progress s1 handle words sizes times hsz h m
    have hstep := simulationTick_progress _ handle words _ m (sizes m) (times m) (hsz _) ihp
    have hdone := hstep.2 (by omega)
    rw [ticks_succ, run_append, run_singleton, step_simulationTick]
    simp only [segmentTexts_append]
    rw [hdone.2, List.append_nil]
    exact ⟨hdone.1, ih.2.1, ih.2.2⟩

end TranscriptionService

/-- C15: for every non-empty text, whatever the service before the call as
long as its transcription callback is set, and for every sequence of chunk
sizes drawn from 3, 4, 5, `simulateTranscription` returns the handle of its
interval, and after any number of ticks from the number of words plus one on,
the interval has been cleared, the texts emitted are those emitted up to then
(nothing more is emitted), and these texts joined with single spaces are the
input text. -/
theorem simulateTranscription_lossless (s0 : TranscriptionService) (text : String)
    (sizes times : Nat → Nat) (htext : text ≠ "")
    (hcb : s0.onTranscriptionCallback = true)
    (hsz : ∀ t, sizes t = 3 ∨ sizes t = 4 ∨ sizes t = 5) :
    (TranscriptionService.simulateTranscription s0 text).2 = some s0.simulations.length ∧
    ∀ m, (splitSpace text).length + 1 ≤ m →
      ((TranscriptionService.run (TranscriptionService.simulateTranscription s0 text).1
          (ticks s0.simulations.length sizes times m)).1.simulations[s0.simulations.length]?).map
        (fun sim => sim.active) = some false ∧
      segmentTexts (TranscriptionService.run
          (TranscriptionService.simulateTranscription s0 text).1
          (ticks s0.simulations.length sizes times m)).2 =
        segmentTexts (TranscriptionService.run
          (TranscriptionService.simulateTranscription s0 text).1
          (ticks s0.simulations.length sizes times ((splitSpace text).length + 1))).2 ∧
      joinSpace (segmentTexts (TranscriptionService.run
          (TranscriptionService.simulateTranscription s0 text).1
          (ticks s0.simulations.length sizes times m)).2) = text := by
  obtain ⟨h1, h2⟩ := TranscriptionService.simulateTranscription_progress s0 text htext hcb
  refine ⟨h1, ?_⟩
  intro m hm
  have hpos : ∀ t, 1 ≤ sizes t := by
    intro t
    rcases hsz t with h | h | h <;> omega
  obtain ⟨ha, hb, hc⟩ := TranscriptionService.run_ticks_done _ _ _ sizes times hpos h2 m hm
  refine ⟨ha, hb, ?_⟩
  unfold joinSpace
  rw [hc]
  have := joinSpace_splitSpace text
  unfold joinSpace at this
  exact this

/-- Witness of C15: the text "we are  excited to announce" (with a double
space), chunks of 3, 4, 5, 3, ... words, 7 ticks. -/
theorem simulateTranscription_lossless_witness :
    joinSpace (segmentTexts (TranscriptionService.run
      (TranscriptionService.simulateTranscription
        (TranscriptionService.setTranscriptionCallback (TranscriptionService.constructor false))
        "we are  excited to announce").1
      (ticks 0 (fun t => t % 3 + 3) (fun t => 2000 * t) 7)).2) = "we are  excited to announce" :=
  ((simulateTranscription_lossless
    (TranscriptionService.setTranscriptionCallback (TranscriptionService.constructor false))
    "we are  excited to announce" (fun t => t % 3 + 3) (fun t => 2000 * t) (by decide) rfl
    (by intro t; show t % 3 + 3 = 3 ∨ t % 3 + 3 = 4 ∨ t % 3 + 3 = 5; omega)).2 7 (by decide)).2.2

/-- C16, as stated, fails: on a service whose transcription callback is set,
after `simulateTranscription("a b c d")` and then `stopListening()`, the next
tick of the interval passes the segment "a b c" to the transcription callback:
`stopListening` does not clear the interval. -/
theorem stopListening_keeps_simulation :
    (TranscriptionService.run
      (TranscriptionService.setTranscriptionCallback (TranscriptionService.constructor false))
      [Event.simulateTranscription "a b c d", Event.stopListening]).2 = [] ∧
    (TranscriptionService.step
      (TranscriptionService.run
        (TranscriptionService.setTranscriptionCallback (TranscriptionService.constructor false))
        [Event.simulateTranscription "a b c d", Event.stopListening]).1
      (Event.simulationTick 0 3 2000)).2 =
      [Action.transcriptionCallback { text := "a b c", isFinal := true, timestamp := 2000 }] := by
  decide

namespace TranscriptionService

theorem stopListening_fields (s : TranscriptionService) :
    (stopListening s).1 =
      { s with shouldRestart := false, mediaStream := false, audioContext := false } := by
  unfold stopListening
  cases hm : s.mediaStream <;> cases ha : s.audioContext <;> simp [hm, ha]

theorem step_keeps_stopped (s : TranscriptionService) (e : Event)
    (he : ∀ hostThrows, e ≠ Event.startListening hostThrows) (hs : s.shouldRestart = false) :
    (step s e).1.shouldRestart = false ∧
    Action.recognitionStart ∉ (step s e).2 ∧
    (step s e).1.pendingRestarts ≤ s.pendingRestarts := by
  cases e with
  | startListening hostThrows => exact absurd rfl (he hostThrows)
  | stopListening =>
    rw [step, stopListening_fields]
    refine ⟨rfl, ?_, Nat.le_refl _⟩
    unfold stopListening
    simp only []
    intro hmem
    simp only [List.mem_append] at hmem
    rcases hmem with (h | h) | h
    · split at h <;> simp at h
    · split at h <;> simp at h
    · split at h <;> simp at h
  | simulateTranscription testText =>
    simp only [step, simulateTranscription]
    split
    · exact ⟨hs, by simp, Nat.le_refl _⟩
    · exact ⟨hs, by simp, Nat.le_refl _⟩
  | recognitionStarted =>
    simp only [step, onstart]
    split
    · exact ⟨hs, by simp, Nat.le_refl _⟩
    · exact ⟨hs, by simp, Nat.le_refl _⟩
  | recognitionEnded =>
    simp only [step, onend]
    split
    · simp [hs]
    · exact ⟨hs, by simp, Nat.le_refl _⟩
  | restartTimer hostThrows =>
    simp only [step, restartTimer]
    split
    · exact ⟨hs, by simp, Nat.le_refl _⟩
    · simp [hs]
  | simulationTick handle chunkSize now =>
    simp only [step, simulationTick]
    split
    · exact ⟨hs, by simp, Nat.le_refl _⟩
    · split
      · exact ⟨hs, by simp, Nat.le_refl _⟩
      · split
        · exact ⟨hs, by simp, Nat.le_refl _⟩
        · refine ⟨hs, ?_, Nat.le_refl _⟩
          split <;> simp

theorem run_keeps_stopped (events : List Event) (s : TranscriptionService)
    (he : ∀ e ∈ events, ∀ hostThrows, e ≠ Event.startListening hostThrows)
    (hs : s.shouldRestart = false) :
    (run s events).1.shouldRestart = false ∧
    Action.recognitionStart ∉ (run s events).2 ∧
    (run s events).1.pendingRestarts ≤ s.pendingRestarts := by
  induction events generalizing s with
  | nil => exact ⟨hs, by simp [run], Nat.le_refl _⟩
  | cons e rest ih =>
    have h1 := step_keeps_stopped s e (he e (List.mem_cons_self _ _)) hs
    have h2 := ih (step s e).1 (fun e1 h => he e1 (List.mem_cons_of_mem _ h)) h1.1
    rw [run]
    refine ⟨h2.1, ?_, Nat.le_trans h2.2.2 h1.2.2⟩
    simp only [List.mem_append, not_or]
    exact ⟨h1.2.1, h2.2.1⟩

end TranscriptionService

/-- C16, amended: `stopListening` is idempotent: a second call leaves the
state as the first call left it.  It clears `shouldRestart` and leaves
`isListening`, the pending timeouts and the intervals of `simulateTranscription`
as they are.  After it, as long as `startListening` is not called, whatever the
sequence of the other events (`stopListening`, `simulateTranscription`, start
and end of the recognition, timeouts firing, ticks of the intervals),
`shouldRestart` stays cleared, `recognition.start()` is never called, so that
recognition is not restarted, and no new timeout is set. -/
theorem stopListening_spec (s : TranscriptionService) (events : List Event)
    (he : ∀ e ∈ events, ∀ hostThrows, e ≠ Event.startListening hostThrows) :
    (TranscriptionService.stopListening (TranscriptionService.stopListening s).1).1 =
      (TranscriptionService.stopListening s).1 ∧
    (TranscriptionService.stopListening s).1.shouldRestart = false ∧
    (TranscriptionService.stopListening s).1.isListening = s.isListening ∧
    (TranscriptionService.stopListening s).1.pendingRestarts = s.pendingRestarts ∧
    (TranscriptionService.stopListening s).1.simulations = s.simulations ∧
    (TranscriptionService.run (TranscriptionService.stopListening s).1 events).1.shouldRestart =
      false ∧
    Action.recognitionStart ∉
      (TranscriptionService.run (TranscriptionService.stopListening s).1 events).2 ∧
    (TranscriptionService.run (TranscriptionService.stopListening s).1 events).1.pendingRestarts ≤
      s.pendingRestarts := by
  have hf := TranscriptionService.stopListening_fields s
  have hstop : (TranscriptionService.stopListening s).1.shouldRestart = false := by rw [hf]
  have hrun := TranscriptionService.run_keeps_stopped events _ he hstop
  refine ⟨?_, hstop, by rw [hf], by rw [hf], by rw [hf], hrun.1, hrun.2.1, ?_⟩
  · rw [TranscriptionService.stopListening_fields, hf]
  · have : (TranscriptionService.stopListening s).1.pendingRestarts = s.pendingRestarts := by
      rw [hf]
    omega

/-- Witness of C16 amended: a supported service that is listening is stopped;
then the recognition ends, a timeout fires and the recognition is reported as
started: `recognition.start()` is not called. -/
theorem stopListening_spec_witness :
    Action.recognitionStart ∉
      (TranscriptionService.run
        (TranscriptionService.stopListening
          (TranscriptionService.run (TranscriptionService.constructor true)
            [Event.startListening false, Event.recognitionStarted, Event.recognitionEnded,
             Event.startListening false, Event.recognitionStarted]).1).1
        [Event.recognitionEnded, Event.restartTimer false, Event.recognitionStarted]).2 :=
  (stopListening_spec
    (TranscriptionService.run (TranscriptionService.constructor true)
      [Event.startListening false, Event.recognitionStarted, Event.recognitionEnded,
       Event.startListening false, Event.recognitionStarted]).1
    [Event.recognitionEnded, Event.restartTimer false, Event.recognitionStarted]
    (by decide)).2.2.2.2.2.2.1

end OpenBingo
